import Mathlib

/-!
Shared / weak ownership pointers (`shared.h`, `weak.h`).

A shallow embedding of the reference-counted control block, `SharedPtr`,
`WeakPtr` and `EnableSharedFromThis`.

* Raw pointers are `Option Nat`: `none` is `nullptr`, `some a` is the address `a`.
* The heap maps block addresses to live control blocks; a freed or never
  allocated address maps to `none`, and going through such a pointer is a
  `Fault` (undefined behaviour in the source).
* `size_t` counters are natural numbers reduced modulo `2 ^ 64`.
* `if constexpr (std::is_convertible_v<T*, ESFTBase*>)` is the Boolean
  parameter `esft` of the operations.
* Ghost fields of the heap count the calls of `DeleteObject()`, the deletions
  of each control block and the destructor runs of each object.
* The content of an object is one number, `value` at its address.

The last part of the definitions embeds `intrusive.h`: `SimpleCounter`,
`RefCounted` with its template parameter `Deleter`, and `IntrusivePtr`.
-/

namespace SmartPtrs

/-- Number of values of the 64-bit `size_t`. -/
def SIZE_MOD : Nat := 18446744073709551616

/-- Ways an operation can fail: `BadWeakPtr` is the exception thrown by the
promoting constructor, the other two are undefined behaviour. -/
inductive Fault where
  | nullDeref
  | useAfterFree
  | BadWeakPtr
  deriving DecidableEq, Repr

/-- The class `ControlBlock` with the data of its two subclasses: `obj` is
`ptr_` of `ControlBlockWithPointer` or `GetPointer()` of `ControlBlockWithObj`,
and `objEsft` records whether the destructor of the owned object destroys a
`self_` member. -/
structure ControlBlock where
  strong_counter_ : Nat
  weak_counter_ : Nat
  obj : Option Nat
  objEsft : Bool
  deriving DecidableEq, Repr

namespace ControlBlock

/-- A block as its constructor leaves it: `strong_counter_ = 1`, `weak_counter_ = 0`. -/
def init (obj : Option Nat) (objEsft : Bool) : ControlBlock :=
  { strong_counter_ := 1, weak_counter_ := 0, obj := obj, objEsft := objEsft }

def IncStrong (b : ControlBlock) : ControlBlock :=
  { b with strong_counter_ := (b.strong_counter_ + 1) % SIZE_MOD }

/-- The statement `--strong_counter_` on a `size_t`: `0` wraps to `2 ^ 64 - 1`. -/
def DecStrong (b : ControlBlock) : ControlBlock :=
  { b with strong_counter_ :=
      if b.strong_counter_ = 0 then SIZE_MOD - 1 else b.strong_counter_ - 1 }

def GetStrongCounter (b : ControlBlock) : Nat := b.strong_counter_

def IncWeak (b : ControlBlock) : ControlBlock :=
  { b with weak_counter_ := (b.weak_counter_ + 1) % SIZE_MOD }

/-- The statement `--weak_counter_` on a `size_t`: `0` wraps to `2 ^ 64 - 1`. -/
def DecWeak (b : ControlBlock) : ControlBlock :=
  { b with weak_counter_ :=
      if b.weak_counter_ = 0 then SIZE_MOD - 1 else b.weak_counter_ - 1 }

def GetWeakCounter (b : ControlBlock) : Nat := b.weak_counter_

def GetCounter (b : ControlBlock) : Nat :=
  (b.GetStrongCounter + b.GetWeakCounter) % SIZE_MOD

end ControlBlock

/-- The two data members of `SharedPtr<T>`. -/
structure SharedPtr where
  block_ : Option Nat := none
  ptr_ : Option Nat := none
  deriving DecidableEq, Repr

/-- The two data members of `WeakPtr<T>`. -/
structure WeakPtr where
  block_ : Option Nat := none
  ptr_ : Option Nat := none
  deriving DecidableEq, Repr

/-- Memory: the live control blocks, the `self_` member and the content of the
object at each address, a bump allocator for blocks, and the ghost counters. -/
structure Heap where
  blocks : Nat → Option ControlBlock
  self_ : Nat → WeakPtr
  value : Nat → Nat
  next : Nat
  destroyed : Nat → Nat
  deleteObjectCalls : Nat → Nat
  blockDeletes : Nat → Nat

namespace Heap

/-- No block allocated, every `self_` default-constructed, nothing destroyed. -/
def empty : Heap :=
  { blocks := fun _ => none, self_ := fun _ => {}, value := fun _ => 0, next := 0,
    destroyed := fun _ => 0, deleteObjectCalls := fun _ => 0, blockDeletes := fun _ => 0 }

def setBlock (h : Heap) (a : Nat) (cb : ControlBlock) : Heap :=
  { h with blocks := fun x => if x = a then some cb else h.blocks x }

def setSelf (h : Heap) (o : Nat) (w : WeakPtr) : Heap :=
  { h with self_ := fun x => if x = o then w else h.self_ x }

/-- Going through a `ControlBlock*`. -/
def deref (h : Heap) (b : Option Nat) : Except Fault (Nat × ControlBlock) :=
  match b with
  | none => .error .nullDeref
  | some a =>
    match h.blocks a with
    | none => .error .useAfterFree
    | some cb => .ok (a, cb)

/-- The expression `new ControlBlockWith...(...)`: a fresh address. -/
def alloc (h : Heap) (cb : ControlBlock) : Nat × Heap :=
  (h.next, { h with blocks := fun x => if x = h.next then some cb else h.blocks x,
                    next := h.next + 1 })

/-- The statement `delete block_`: nothing for `nullptr`, a double free is a fault. -/
def deleteBlock (h : Heap) (b : Option Nat) : Except Fault Heap :=
  match b with
  | none => .ok h
  | some a =>
    match h.blocks a with
    | none => .error .useAfterFree
    | some _ =>
      .ok { h with blocks := fun x => if x = a then none else h.blocks x,
                   blockDeletes := fun x => if x = a then h.blockDeletes x + 1 else h.blockDeletes x }

end Heap

/-- The address `ControlBlockWithObj::GetPointer()` returns: the storage lies
inside the block. -/
def GetPointer (a : Nat) : Nat := a

namespace WeakPtr

def Increase (w : WeakPtr) (h : Heap) : Except Fault Heap :=
  match w.block_ with
  | none => .ok h
  | some a =>
    match h.deref (some a) with
    | .error e => .error e
    | .ok (_, cb) => .ok (h.setBlock a cb.IncWeak)

def Decrease (w : WeakPtr) (h : Heap) : Except Fault Heap :=
  match w.block_ with
  | none => .ok h
  | some a =>
    match h.deref (some a) with
    | .error e => .error e
    | .ok (_, cb) =>
      let h1 := h.setBlock a cb.DecWeak
      if cb.DecWeak.GetCounter = 0 then h1.deleteBlock (some a) else .ok h1

def UseCount (w : WeakPtr) (h : Heap) : Except Fault Nat :=
  match w.block_ with
  | none => .ok 0
  | some a =>
    match h.deref (some a) with
    | .error e => .error e
    | .ok (_, cb) => .ok cb.GetStrongCounter

def Expired (w : WeakPtr) (h : Heap) : Except Fault Bool :=
  match w.block_ with
  | none => .ok true
  | some a =>
    match h.deref (some a) with
    | .error e => .error e
    | .ok (_, cb) => .ok (decide (cb.GetStrongCounter = 0))

/-- The copy constructor `WeakPtr(const WeakPtr&)`. -/
def copy (other : WeakPtr) (h : Heap) : Except Fault (WeakPtr × Heap) :=
  let w : WeakPtr := { block_ := other.block_, ptr_ := other.ptr_ }
  match w.Increase h with
  | .error e => .error e
  | .ok h1 => .ok (w, h1)

/-- The move constructor: the new handle and what is left of `other`. -/
def move (other : WeakPtr) : WeakPtr × WeakPtr :=
  ({ block_ := other.block_, ptr_ := other.ptr_ }, { block_ := none, ptr_ := none })

/-- The constructor `WeakPtr(const SharedPtr<Y>&)`. -/
def fromShared (other : SharedPtr) (h : Heap) : Except Fault (WeakPtr × Heap) :=
  let w : WeakPtr := { block_ := other.block_, ptr_ := other.ptr_ }
  match w.Increase h with
  | .error e => .error e
  | .ok h1 => .ok (w, h1)

/-- Copy assignment; `other = none` stands for `&other == this`, whose members
are read after `Decrease()`. -/
def copyAssign (self : WeakPtr) (other : Option WeakPtr) (h : Heap) :
    Except Fault (WeakPtr × Heap) :=
  match self.Decrease h with
  | .error e => .error e
  | .ok h1 =>
    let src := other.getD self
    let self2 : WeakPtr := { block_ := src.block_, ptr_ := src.ptr_ }
    match self2.Increase h1 with
    | .error e => .error e
    | .ok h2 => .ok (self2, h2)

/-- Move assignment from a distinct handle: the new `*this`, what is left of
`other`, and the heap. -/
def moveAssign (self other : WeakPtr) (h : Heap) : Except Fault (WeakPtr × WeakPtr × Heap) :=
  match self.Decrease h with
  | .error e => .error e
  | .ok h1 =>
    .ok ({ block_ := other.block_, ptr_ := other.ptr_ }, { block_ := none, ptr_ := none }, h1)

/-- Move assignment of a handle to itself. -/
def moveAssignSelf (self : WeakPtr) (h : Heap) : Except Fault (WeakPtr × Heap) :=
  match self.Decrease h with
  | .error e => .error e
  | .ok h1 => .ok ({ block_ := none, ptr_ := none }, h1)

/-- The destructor. -/
def destroy (w : WeakPtr) (h : Heap) : Except Fault Heap := w.Decrease h

/-- The method `Reset()`: only `block_` is cleared. -/
def Reset (w : WeakPtr) (h : Heap) : Except Fault (WeakPtr × Heap) :=
  match w.Decrease h with
  | .error e => .error e
  | .ok h1 => .ok ({ w with block_ := none }, h1)

/-- The method `Swap`: only `block_` is exchanged. -/
def Swap (a b : WeakPtr) : WeakPtr × WeakPtr :=
  ({ a with block_ := b.block_ }, { b with block_ := a.block_ })

end WeakPtr

/-- The call `block_->DeleteObject()`: `delete ptr_` or `std::destroy_at`; the
destructor of an object with a `self_` member destroys that member. -/
def DeleteObject (a : Nat) (h : Heap) : Except Fault Heap :=
  match h.blocks a with
  | none => .error .useAfterFree
  | some cb =>
    let h1 : Heap :=
      { h with deleteObjectCalls :=
          fun x => if x = a then h.deleteObjectCalls x + 1 else h.deleteObjectCalls x }
    match cb.obj with
    | none => .ok h1
    | some o =>
      if 0 < h1.destroyed o then .error .useAfterFree
      else
        let dead (g : Heap) : Heap :=
          { g with destroyed := fun x => if x = o then g.destroyed x + 1 else g.destroyed x }
        if cb.objEsft then
          match (h1.self_ o).Decrease h1 with
          | .error e => .error e
          | .ok h2 => .ok (dead h2)
        else .ok (dead h1)

namespace SharedPtr

def Get (s : SharedPtr) : Option Nat := s.ptr_

/-- The operator `operator*`, read: the content of `*ptr_`. -/
def read (s : SharedPtr) (h : Heap) : Except Fault Nat :=
  match s.ptr_ with
  | none => .error .nullDeref
  | some o => if 0 < h.destroyed o then .error .useAfterFree else .ok (h.value o)

/-- The conversion `explicit operator bool()`. -/
def toBool (s : SharedPtr) : Bool := s.ptr_.isSome

def UseCount (s : SharedPtr) (h : Heap) : Except Fault Nat :=
  match s.ptr_ with
  | none => .ok 0
  | some _ =>
    match h.deref s.block_ with
    | .error e => .error e
    | .ok (_, cb) => .ok cb.GetStrongCounter

def Increase (s : SharedPtr) (h : Heap) : Except Fault Heap :=
  match s.ptr_ with
  | none => .ok h
  | some _ =>
    match h.deref s.block_ with
    | .error e => .error e
    | .ok (a, cb) => .ok (h.setBlock a cb.IncStrong)

/-- The statement `ptr_->self_ = *this`: a temporary `WeakPtr` is built from
the handle and move-assigned to the member. -/
def bindSelf (s : SharedPtr) (h : Heap) : Except Fault Heap :=
  match s.ptr_ with
  | none => .error .nullDeref
  | some o =>
    if 0 < h.destroyed o then .error .useAfterFree
    else
      match WeakPtr.fromShared s h with
      | .error e => .error e
      | .ok (tmp, h1) =>
        match WeakPtr.moveAssign (h1.self_ o) tmp h1 with
        | .error e => .error e
        | .ok (self2, _, h2) => .ok (h2.setSelf o self2)

def Decrease (esft : Bool) (s : SharedPtr) (h : Heap) : Except Fault (SharedPtr × Heap) :=
  match s.ptr_ with
  | none => .ok (s, h)
  | some o =>
    match h.deref s.block_ with
    | .error e => .error e
    | .ok (a, cb) =>
      let h1 := h.setBlock a cb.DecStrong
      if cb.DecStrong.GetStrongCounter = 0 then
        let cnt := cb.DecStrong.GetWeakCounter
        match DeleteObject a h1 with
        | .error e => .error e
        | .ok h2 =>
          if cnt = 0 then
            if esft then
              if 0 < h2.destroyed o then .error .useAfterFree
              else
                match (h2.self_ o).Expired h2 with
                | .error e => .error e
                | .ok true => .ok ({ block_ := none, ptr_ := none }, h2)
                | .ok false =>
                  match (h2.self_ o).Reset h2 with
                  | .error e => .error e
                  | .ok (w, h3) => .ok ({ block_ := none, ptr_ := none }, h3.setSelf o w)
            else
              match h2.deleteBlock (some a) with
              | .error e => .error e
              | .ok h3 => .ok ({ block_ := none, ptr_ := none }, h3)
          else .ok ({ block_ := s.block_, ptr_ := none }, h2)
      else .ok (s, h1)

/-- The constructors `SharedPtr(T*)` and `SharedPtr(Y*)`. -/
def fromRaw (esft : Bool) (ptr : Option Nat) (h : Heap) : Except Fault (SharedPtr × Heap) :=
  let (a, h1) := h.alloc (ControlBlock.init ptr esft)
  let s : SharedPtr := { block_ := some a, ptr_ := ptr }
  if esft then
    match s.bindSelf h1 with
    | .error e => .error e
    | .ok h2 => .ok (s, h2)
  else .ok (s, h1)

/-- The copy constructors. -/
def copy (esft : Bool) (other : SharedPtr) (h : Heap) : Except Fault (SharedPtr × Heap) :=
  let s : SharedPtr := { block_ := other.block_, ptr_ := other.ptr_ }
  match (if esft then s.bindSelf h else .ok h) with
  | .error e => .error e
  | .ok h1 =>
    match s.Increase h1 with
    | .error e => .error e
    | .ok h2 => .ok (s, h2)

/-- The move constructors: the new handle, what is left of `other`, the heap. -/
def move (esft : Bool) (other : SharedPtr) (h : Heap) :
    Except Fault (SharedPtr × SharedPtr × Heap) :=
  let s : SharedPtr := { block_ := other.block_, ptr_ := other.ptr_ }
  match (if esft then s.bindSelf h else .ok h) with
  | .error e => .error e
  | .ok h1 => .ok (s, { block_ := none, ptr_ := none }, h1)

/-- The constructor `SharedPtr(ControlBlockWithObj<T>*)` applied to a block
address. -/
def fromBlock (esft : Bool) (a : Nat) (h : Heap) : Except Fault (SharedPtr × Heap) :=
  let s : SharedPtr := { block_ := some a, ptr_ := some (GetPointer a) }
  if esft then
    match s.bindSelf h with
    | .error e => .error e
    | .ok h1 => .ok (s, h1)
  else .ok (s, h)

/-- The aliasing constructor `SharedPtr(const SharedPtr<Y>& other, T* ptr)`. -/
def aliasing (other : SharedPtr) (ptr : Option Nat) (h : Heap) : Except Fault (SharedPtr × Heap) :=
  let s : SharedPtr := { block_ := other.block_, ptr_ := ptr }
  match s.Increase h with
  | .error e => .error e
  | .ok h1 => .ok (s, h1)

/-- The promoting constructor `SharedPtr(const WeakPtr<T>&)`. -/
def promote (other : WeakPtr) (h : Heap) : Except Fault (SharedPtr × Heap) :=
  let s : SharedPtr := { block_ := other.block_, ptr_ := other.ptr_ }
  match other.Expired h with
  | .error e => .error e
  | .ok true => .error .BadWeakPtr
  | .ok false =>
    match s.Increase h with
    | .error e => .error e
    | .ok h1 => .ok (s, h1)

/-- Copy assignment; `other = none` stands for `&other == this`, whose members
are read after `Decrease()`. -/
def copyAssign (esft : Bool) (self : SharedPtr) (other : Option SharedPtr) (h : Heap) :
    Except Fault (SharedPtr × Heap) :=
  match self.Decrease esft h with
  | .error e => .error e
  | .ok (self1, h1) =>
    let src := other.getD self1
    let self2 : SharedPtr := { block_ := src.block_, ptr_ := src.ptr_ }
    match self2.Increase h1 with
    | .error e => .error e
    | .ok h2 => .ok (self2, h2)

/-- Move assignment from a distinct handle: the new `*this`, what is left of
`other`, and the heap. -/
def moveAssign (esft : Bool) (self other : SharedPtr) (h : Heap) :
    Except Fault (SharedPtr × SharedPtr × Heap) :=
  match self.Decrease esft h with
  | .error e => .error e
  | .ok (_, h1) =>
    .ok ({ block_ := other.block_, ptr_ := other.ptr_ }, { block_ := none, ptr_ := none }, h1)

/-- Move assignment of a handle to itself. -/
def moveAssignSelf (esft : Bool) (self : SharedPtr) (h : Heap) : Except Fault (SharedPtr × Heap) :=
  match self.Decrease esft h with
  | .error e => .error e
  | .ok (_, h1) => .ok ({ block_ := none, ptr_ := none }, h1)

/-- The destructor. -/
def destroy (esft : Bool) (s : SharedPtr) (h : Heap) : Except Fault Heap :=
  match s.Decrease esft h with
  | .error e => .error e
  | .ok (_, h1) => .ok h1

/-- The method `Reset()`. -/
def Reset (esft : Bool) (s : SharedPtr) (h : Heap) : Except Fault (SharedPtr × Heap) :=
  match s.Decrease esft h with
  | .error e => .error e
  | .ok (_, h1) => .ok ({ block_ := none, ptr_ := none }, h1)

/-- The methods `Reset(T*)` and `Reset(Y*)`; `esftNew` is the capability of the
new object, recorded in its block. -/
def ResetPtr (esft esftNew : Bool) (s : SharedPtr) (ptr : Option Nat) (h : Heap) :
    Except Fault (SharedPtr × Heap) :=
  match s.Decrease esft h with
  | .error e => .error e
  | .ok (_, h1) =>
    let (a, h2) := h1.alloc (ControlBlock.init ptr esftNew)
    .ok ({ block_ := some a, ptr_ := ptr }, h2)

def Swap (a b : SharedPtr) : SharedPtr × SharedPtr :=
  ({ block_ := b.block_, ptr_ := b.ptr_ }, { block_ := a.block_, ptr_ := a.ptr_ })

/-- The comparison `operator==`. -/
def eq (left right : SharedPtr) : Bool := decide (left.Get = right.Get)

end SharedPtr

/-- The function `MakeShared<T>(v)`: the constructor of `ControlBlockWithObj`
builds the object `T(v)` in the storage of the new block. -/
def MakeShared (esft : Bool) (v : Nat) (h : Heap) : Except Fault (SharedPtr × Heap) :=
  let (a, h1) := h.alloc (ControlBlock.init (some (GetPointer h.next)) esft)
  let h2 : Heap := { h1 with value := fun x => if x = GetPointer a then v else h1.value x }
  SharedPtr.fromBlock esft a h2

/-- The method `WeakPtr::Lock()`. -/
def WeakPtr.Lock (w : WeakPtr) (h : Heap) : Except Fault (SharedPtr × Heap) :=
  match w.Expired h with
  | .error e => .error e
  | .ok true => .ok ({}, h)
  | .ok false => SharedPtr.promote w h

/-- The method `EnableSharedFromThis::SharedFromThis()` of the object at `o`. -/
def SharedFromThis (o : Nat) (h : Heap) : Except Fault (SharedPtr × Heap) :=
  if 0 < h.destroyed o then .error .useAfterFree else (h.self_ o).Lock h

/-- The method `EnableSharedFromThis::WeakFromThis()` of the object at `o`. -/
def WeakFromThis (o : Nat) (h : Heap) : Except Fault (WeakPtr × Heap) :=
  if 0 < h.destroyed o then .error .useAfterFree else WeakPtr.copy (h.self_ o) h

/-! ## Programs over a table of handles -/

/-- A program state: the heap and the handle variables that are alive. -/
structure State where
  heap : Heap
  shared : List SharedPtr
  weak : List WeakPtr

/-- The public operations, applied to handle variables named by their index
in the table; a new handle is appended to its table. -/
inductive Op where
  | sharedDefault
  | sharedFromRaw (ptr : Option Nat)
  | makeShared (v : Nat)
  | sharedCopy (i : Nat)
  | sharedMove (i : Nat)
  | sharedAlias (i : Nat) (ptr : Option Nat)
  | sharedPromote (j : Nat)
  | sharedAssign (i j : Nat)
  | sharedMoveAssign (i j : Nat)
  | sharedDestroy (i : Nat)
  | sharedReset (i : Nat)
  | sharedResetPtr (i : Nat) (ptr : Option Nat)
  | sharedSwap (i j : Nat)
  | weakDefault
  | weakCopy (j : Nat)
  | weakMove (j : Nat)
  | weakFromShared (i : Nat)
  | weakAssign (j k : Nat)
  | weakMoveAssign (j k : Nat)
  | weakDestroy (j : Nat)
  | weakReset (j : Nat)
  | weakSwap (j k : Nat)
  | lock (j : Nat)
  | sharedFromThis (o : Nat)
  | weakFromThis (o : Nat)
  deriving DecidableEq, Repr

/-- One operation of a program whose element type has (`esft = true`) or has
not the self-reference capability. An index that names no variable leaves the
state as it is. -/
def step (esft : Bool) (s : State) : Op → Except Fault State
  | .sharedDefault => .ok { s with shared := s.shared ++ [{}] }
  | .sharedFromRaw ptr =>
    match SharedPtr.fromRaw esft ptr s.heap with
    | .error e => .error e
    | .ok (x, h) => .ok { s with heap := h, shared := s.shared ++ [x] }
  | .makeShared v =>
    match MakeShared esft v s.heap with
    | .error e => .error e
    | .ok (x, h) => .ok { s with heap := h, shared := s.shared ++ [x] }
  | .sharedCopy i =>
    match s.shared[i]? with
    | none => .ok s
    | some src =>
      match SharedPtr.copy esft src s.heap with
      | .error e => .error e
      | .ok (x, h) => .ok { s with heap := h, shared := s.shared ++ [x] }
  | .sharedMove i =>
    match s.shared[i]? with
    | none => .ok s
    | some src =>
      match SharedPtr.move esft src s.heap with
      | .error e => .error e
      | .ok (x, src1, h) => .ok { s with heap := h, shared := s.shared.set i src1 ++ [x] }
  | .sharedAlias i ptr =>
    match s.shared[i]? with
    | none => .ok s
    | some src =>
      match SharedPtr.aliasing src ptr s.heap with
      | .error e => .error e
      | .ok (x, h) => .ok { s with heap := h, shared := s.shared ++ [x] }
  | .sharedPromote j =>
    match s.weak[j]? with
    | none => .ok s
    | some w =>
      match SharedPtr.promote w s.heap with
      | .error e => .error e
      | .ok (x, h) => .ok { s with heap := h, shared := s.shared ++ [x] }
  | .sharedAssign i j =>
    match s.shared[i]?, s.shared[j]? with
    | some a, some b =>
      match SharedPtr.copyAssign esft a (if i = j then none else some b) s.heap with
      | .error e => .error e
      | .ok (a1, h) => .ok { s with heap := h, shared := s.shared.set i a1 }
    | _, _ => .ok s
  | .sharedMoveAssign i j =>
    match s.shared[i]?, s.shared[j]? with
    | some a, some b =>
      if i = j then
        match SharedPtr.moveAssignSelf esft a s.heap with
        | .error e => .error e
        | .ok (a1, h) => .ok { s with heap := h, shared := s.shared.set i a1 }
      else
        match SharedPtr.moveAssign esft a b s.heap with
        | .error e => .error e
        | .ok (a1, b1, h) => .ok { s with heap := h, shared := (s.shared.set i a1).set j b1 }
    | _, _ => .ok s
  | .sharedDestroy i =>
    match s.shared[i]? with
    | none => .ok s
    | some a =>
      match SharedPtr.destroy esft a s.heap with
      | .error e => .error e
      | .ok h => .ok { s with heap := h, shared := s.shared.eraseIdx i }
  | .sharedReset i =>
    match s.shared[i]? with
    | none => .ok s
    | some a =>
      match SharedPtr.Reset esft a s.heap with
      | .error e => .error e
      | .ok (a1, h) => .ok { s with heap := h, shared := s.shared.set i a1 }
  | .sharedResetPtr i ptr =>
    match s.shared[i]? with
    | none => .ok s
    | some a =>
      match SharedPtr.ResetPtr esft esft a ptr s.heap with
      | .error e => .error e
      | .ok (a1, h) => .ok { s with heap := h, shared := s.shared.set i a1 }
  | .sharedSwap i j =>
    match s.shared[i]?, s.shared[j]? with
    | some a, some b =>
      .ok { s with shared := (s.shared.set i (SharedPtr.Swap a b).1).set j (SharedPtr.Swap a b).2 }
    | _, _ => .ok s
  | .weakDefault => .ok { s with weak := s.weak ++ [{}] }
  | .weakCopy j =>
    match s.weak[j]? with
    | none => .ok s
    | some w =>
      match WeakPtr.copy w s.heap with
      | .error e => .error e
      | .ok (x, h) => .ok { s with heap := h, weak := s.weak ++ [x] }
  | .weakMove j =>
    match s.weak[j]? with
    | none => .ok s
    | some w => .ok { s with weak := s.weak.set j (WeakPtr.move w).2 ++ [(WeakPtr.move w).1] }
  | .weakFromShared i =>
    match s.shared[i]? with
    | none => .ok s
    | some a =>
      match WeakPtr.fromShared a s.heap with
      | .error e => .error e
      | .ok (x, h) => .ok { s with heap := h, weak := s.weak ++ [x] }
  | .weakAssign j k =>
    match s.weak[j]?, s.weak[k]? with
    | some a, some b =>
      match WeakPtr.copyAssign a (if j = k then none else some b) s.heap with
      | .error e => .error e
      | .ok (a1, h) => .ok { s with heap := h, weak := s.weak.set j a1 }
    | _, _ => .ok s
  | .weakMoveAssign j k =>
    match s.weak[j]?, s.weak[k]? with
    | some a, some b =>
      if j = k then
        match WeakPtr.moveAssignSelf a s.heap with
        | .error e => .error e
        | .ok (a1, h) => .ok { s with heap := h, weak := s.weak.set j a1 }
      else
        match WeakPtr.moveAssign a b s.heap with
        | .error e => .error e
        | .ok (a1, b1, h) => .ok { s with heap := h, weak := (s.weak.set j a1).set k b1 }
    | _, _ => .ok s
  | .weakDestroy j =>
    match s.weak[j]? with
    | none => .ok s
    | some w =>
      match WeakPtr.destroy w s.heap with
      | .error e => .error e
      | .ok h => .ok { s with heap := h, weak := s.weak.eraseIdx j }
  | .weakReset j =>
    match s.weak[j]? with
    | none => .ok s
    | some w =>
      match WeakPtr.Reset w s.heap with
      | .error e => .error e
      | .ok (w1, h) => .ok { s with heap := h, weak := s.weak.set j w1 }
  | .weakSwap j k =>
    match s.weak[j]?, s.weak[k]? with
    | some a, some b =>
      .ok { s with weak := (s.weak.set j (WeakPtr.Swap a b).1).set k (WeakPtr.Swap a b).2 }
    | _, _ => .ok s
  | .lock j =>
    match s.weak[j]? with
    | none => .ok s
    | some w =>
      match WeakPtr.Lock w s.heap with
      | .error e => .error e
      | .ok (x, h) => .ok { s with heap := h, shared := s.shared ++ [x] }
  | .sharedFromThis o =>
    match SharedFromThis o s.heap with
    | .error e => .error e
    | .ok (x, h) => .ok { s with heap := h, shared := s.shared ++ [x] }
  | .weakFromThis o =>
    match WeakFromThis o s.heap with
    | .error e => .error e
    | .ok (x, h) => .ok { s with heap := h, weak := s.weak ++ [x] }

/-- A program: the operations in order, stopping at the first fault. -/
def run (esft : Bool) : State → List Op → Except Fault State
  | s, [] => .ok s
  | s, op :: rest =>
    match step esft s op with
    | .error e => .error e
    | .ok s1 => run esft s1 rest

/-- The program state right after `auto s = SharedPtr<T>(arg)` (`viaMake = false`,
`arg` the address of the object) or `auto s = MakeShared<T>(arg)`
(`viaMake = true`, `arg` the value the object is built from) in an empty heap. -/
def start (esft viaMake : Bool) (arg : Nat) : Except Fault State :=
  step esft { heap := Heap.empty, shared := [], weak := [] }
    (if viaMake then .makeShared arg else .sharedFromRaw (some arg))

/-! ## Groups of handles sharing one control block -/

/-- The handle of a member of the group of block `B` observing the address `p`. -/
def member (B p : Nat) : SharedPtr := { block_ := some B, ptr_ := some p }

/-- The control block of a group with `n` strong and `m` weak handles. -/
def groupBlock (esft : Bool) (p n m : Nat) : Option ControlBlock :=
  if n + m = 0 then none
  else some { strong_counter_ := n,
              weak_counter_ := m + (if esft = true ∧ 0 < n then 1 else 0),
              obj := some p, objEsft := esft }

/-- What the heap holds for a group. -/
structure HeapAt (esft : Bool) (B p : Nat) (h : Heap) (n m : Nat) : Prop where
  blk : h.blocks B = groupBlock esft p n m
  calls : h.deleteObjectCalls B = if n = 0 then 1 else 0
  deletes : h.blockDeletes B = if n + m = 0 then 1 else 0
  destroyed : h.destroyed p = if n = 0 then 1 else 0
  selfB : esft = true → 0 < n → h.self_ p = { block_ := some B, ptr_ := some p }

/-- A strong handle counted in block `B`: its `ptr_` is not null. -/
def owns (B : Nat) (x : SharedPtr) : Bool := x.ptr_.isSome && decide (x.block_ = some B)

/-- Number of strong handles of the table counted in block `B`. -/
def owners (B : Nat) (l : List SharedPtr) : Nat := l.countP (owns B)

/-- A weak handle counted in block `B`. -/
def watches (B : Nat) (w : WeakPtr) : Bool := decide (w.block_ = some B)

/-- Number of weak handles of the table counted in block `B`. -/
def watchers (B : Nat) (l : List WeakPtr) : Nat := l.countP (watches B)

/-- The state of a program all of whose handles belong to the group of block
`B` and object `p`, or are empty; `Q` holds of the addresses the strong
handles observe. -/
structure GroupInv (esft : Bool) (B p : Nat) (Q : Nat → Prop) (s : State) : Prop where
  sharedForm : ∀ x ∈ s.shared, (∃ q, Q q ∧ x = member B q) ∨ x = {}
  weakForm : ∀ w ∈ s.weak, w.block_ = some B ∨ w.block_ = none
  heap : HeapAt esft B p s.heap (owners B s.shared) (watchers B s.weak)

/-- The handle is not empty and observes the very object its control block
manages (it is not an aliasing handle). -/
def SharedPtr.observesOwned (x : SharedPtr) (h : Heap) : Bool :=
  match x.block_ with
  | none => false
  | some a =>
    match h.blocks a with
    | none => false
    | some cb => x.ptr_.isSome && decide (x.ptr_ = cb.obj)

namespace Op

/-- Copy construction, move construction, `Reset()` and destruction of a `SharedPtr`. -/
def isSharedGroupOp : Op → Bool
  | .sharedCopy _ | .sharedMove _ | .sharedReset _ | .sharedDestroy _ => true
  | _ => false

/-- The operations of `isSharedGroupOp` and construction from a `SharedPtr`,
copy, move, `Reset()` and destruction of a `WeakPtr`. -/
def isGroupOp : Op → Bool
  | .weakFromShared _ | .weakCopy _ | .weakMove _ | .weakReset _ | .weakDestroy _ => true
  | op => op.isSharedGroupOp

/-- The operations of `isGroupOp` and the aliasing constructor. -/
def isAliasGroupOp : Op → Bool
  | .sharedAlias _ _ => true
  | op => op.isGroupOp

/-- For an element type with the self-reference capability, the source of a
copy or move construction is not an empty handle. -/
def srcOk (esft : Bool) (s : State) : Op → Bool
  | .sharedCopy i | .sharedMove i =>
    !esft ||
      match s.shared[i]? with
      | some x => x.ptr_.isSome
      | none => true
  | _ => true

/-- The aliasing constructor is given a non-empty handle and a non-null
pointer; for an element type with the self-reference capability the source of
a copy or move construction observes the object its block manages. -/
def aliasOk (esft : Bool) (s : State) : Op → Bool
  | .sharedCopy i | .sharedMove i =>
    !esft ||
      match s.shared[i]? with
      | some x => x.observesOwned s.heap
      | none => true
  | .sharedAlias i ptr =>
    ptr.isSome &&
      match s.shared[i]? with
      | some x => x.ptr_.isSome
      | none => true
  | _ => true

end Op

/-- The condition `pre` holds before every operation of the program. A fault
ends the check: it is not part of what is asked of the program. -/
def legal (pre : State → Op → Bool) (esft : Bool) : State → List Op → Bool
  | _, [] => true
  | s, op :: rest =>
    pre s op &&
      match step esft s op with
      | .ok s1 => legal pre esft s1 rest
      | .error _ => true

/-- The check `legal` for a program that begins with `start`. -/
def legalProgram (pre : State → Op → Bool) (esft viaMake : Bool) (ptr : Nat)
    (ops : List Op) : Bool :=
  match start esft viaMake ptr with
  | .ok s0 => legal pre esft s0 ops
  | .error _ => true

/-- The object a group created by `start` manages: `ptr`, or the storage of
the first block. -/
def startObj (viaMake : Bool) (ptr : Nat) : Nat :=
  if viaMake then GetPointer Heap.empty.next else ptr

/-- The strong counter of the block at address `a`, if that block is alive. -/
def strongOf (h : Heap) (a : Nat) : Option Nat := (h.blocks a).map ControlBlock.GetStrongCounter

/-- The weak counter of the block at address `a`, if that block is alive. -/
def weakOf (h : Heap) (a : Nat) : Option Nat := (h.blocks a).map ControlBlock.GetWeakCounter

/-- What one step of a group program guarantees. -/
def StepOk (esft : Bool) (B p : Nat) (Q : Nat → Prop) (s : State) (op : Op) : Prop :=
  ∃ s1, step esft s op = .ok s1 ∧ GroupInv esft B p Q s1 ∧
    s1.shared.length + s1.weak.length ≤ s.shared.length + s.weak.length + 1 ∧
    owners B s.shared ≤ owners B s1.shared + 1 ∧
    watchers B s.weak ≤ watchers B s1.weak + 1 ∧
    (op.isSharedGroupOp = true → s1.weak = s.weak) ∧
    (owners B s.shared = 0 → owners B s1.shared = 0) ∧
    (owners B s.shared + watchers B s.weak = 0 → watchers B s1.weak = 0)

/-- What the invariant asks of the handle an operation reads. -/
def SemPre (esft : Bool) (B p : Nat) (Q : Nat → Prop) (s : State) (op : Op) : Prop :=
  (∀ i, op = .sharedCopy i ∨ op = .sharedMove i →
      esft = true → ∀ x, s.shared[i]? = some x → x = member B p) ∧
  (∀ i ptr, op = .sharedAlias i ptr →
      (∃ q, ptr = some q ∧ Q q) ∧ ∀ x, s.shared[i]? = some x → x ≠ {})

/-! ## Observations for scenarios -/

/-- The program `ops` run after `start`. -/
def runProgram (esft viaMake : Bool) (ptr : Nat) (ops : List Op) : Except Fault State :=
  match start esft viaMake ptr with
  | .ok s0 => run esft s0 ops
  | .error e => .error e

/-- What can be observed of a state about the block at one address: the
handles, the two counters of the block if it is alive, the number of
`DeleteObject()` calls and of deletions of the block. -/
structure Snapshot where
  shared : List SharedPtr
  weak : List WeakPtr
  strong : Option Nat
  weakCount : Option Nat
  deleteObjectCalls : Nat
  blockDeletes : Nat
  deriving DecidableEq, Repr

def snapshot (a : Nat) (r : Except Fault State) : Except Fault Snapshot :=
  match r with
  | .error e => .error e
  | .ok s =>
    .ok { shared := s.shared, weak := s.weak, strong := strongOf s.heap a,
          weakCount := weakOf s.heap a, deleteObjectCalls := s.heap.deleteObjectCalls a,
          blockDeletes := s.heap.blockDeletes a }

/-- A program state with no handle and an empty heap. -/
def emptyState : State := { heap := Heap.empty, shared := [], weak := [] }

/-- The heap right after `new ControlBlockWithPointer<T>(ptr)` for the object at `7`. -/
def oneBlockHeap : Heap := (Heap.empty.alloc (ControlBlock.init (some 7) false)).2

/-- A `WeakPtr` obtained from the `SharedPtr` `s` directly or through `WeakPtr`
copy construction, move construction, copy assignment and move assignment. -/
inductive BuiltFrom (s : SharedPtr) : WeakPtr → Prop where
  | direct (h : Heap) (w : WeakPtr) (h1 : Heap) :
      WeakPtr.fromShared s h = .ok (w, h1) → BuiltFrom s w
  | copy (w : WeakPtr) (h : Heap) (w1 : WeakPtr) (h1 : Heap) :
      BuiltFrom s w → WeakPtr.copy w h = .ok (w1, h1) → BuiltFrom s w1
  | move (w : WeakPtr) : BuiltFrom s w → BuiltFrom s (WeakPtr.move w).1
  | copyAssign (w self : WeakPtr) (h : Heap) (w1 : WeakPtr) (h1 : Heap) :
      BuiltFrom s w → WeakPtr.copyAssign self (some w) h = .ok (w1, h1) → BuiltFrom s w1
  | moveAssign (w self : WeakPtr) (h : Heap) (w1 o : WeakPtr) (h1 : Heap) :
      BuiltFrom s w → WeakPtr.moveAssign self w h = .ok (w1, o, h1) → BuiltFrom s w1

/-! ## Invariants and frames of single operations -/

/-- The handle invariant: a non-null observed pointer comes with a non-null
control block. -/
def WellHeld (x : SharedPtr) : Prop := x.ptr_ ≠ none → x.block_ ≠ none

/-- From heap `h` to heap `h1` no strong counter has changed and no object has
been destroyed: a block alive in `h1` was alive in `h` with the same strong
counter, and the counts of `DeleteObject()` calls and of destructor runs are
the same. -/
def StrongSame (h h1 : Heap) : Prop :=
  (∀ B cb1, h1.blocks B = some cb1 →
      ∃ cb, h.blocks B = some cb ∧ cb.strong_counter_ = cb1.strong_counter_) ∧
  h1.deleteObjectCalls = h.deleteObjectCalls ∧ h1.destroyed = h.destroyed

/-- The `WeakPtr` operations other than `Lock()`: default, copy and move
construction, construction from a `SharedPtr`, copy and move assignment,
destruction, `Reset()`, `Swap`, and `WeakFromThis()`. -/
def Op.isWeakOp : Op → Bool
  | .weakDefault | .weakCopy _ | .weakMove _ | .weakFromShared _ | .weakAssign _ _
  | .weakMoveAssign _ _ | .weakDestroy _ | .weakReset _ | .weakSwap _ _ | .weakFromThis _ => true
  | _ => false

/-- The value `UseCount()` returns for each `SharedPtr` of a state. -/
def useCounts (r : Except Fault State) : Except Fault (List (Except Fault Nat)) :=
  match r with
  | .error e => .error e
  | .ok s => .ok (s.shared.map (fun x => x.UseCount s.heap))

/-- A heap during the teardown of the object at `7`: its block at `0` has
strong counter `0` and is kept by the bound `self_` alone, and the destructor
has not finished. -/
def teardownHeap : Heap :=
  (Heap.empty.setBlock 0
    { strong_counter_ := 0, weak_counter_ := 1, obj := some 7, objEsft := true }).setSelf 7
    { block_ := some 0, ptr_ := some 7 }

/-! ## Following one handle variable through a program -/

/-- Where the `SharedPtr` variable at index `k` of the table is after the
operation, as long as it still holds the handle it held before: the
destruction of an earlier variable moves it down by one; `none` when the
operation releases, empties or overwrites the variable. -/
def Op.track (k : Nat) : Op → Option Nat
  | .sharedMove i | .sharedReset i | .sharedResetPtr i _ | .sharedAssign i _ =>
    if i = k then none else some k
  | .sharedMoveAssign i j | .sharedSwap i j => if i = k ∨ j = k then none else some k
  | .sharedDestroy i => if i = k then none else if i < k then some (k - 1) else some k
  | _ => some k

/-- The index of the variable after a program, by `Op.track` at every step. -/
def trackRun : Nat → List Op → Option Nat
  | k, [] => some k
  | k, op :: rest =>
    match op.track k with
    | none => none
    | some k1 => trackRun k1 rest

/-! ## Intrusive reference counting (`intrusive.h`) -/

/-- The class `SimpleCounter`. -/
structure SimpleCounter where
  count_ : Nat := 0
  deriving DecidableEq, Repr

namespace SimpleCounter

/-- The copy constructor `SimpleCounter(const SimpleCounter&)`: its body is
empty, `count_` takes its default value. -/
def copy (_other : SimpleCounter) : SimpleCounter := {}

/-- The copy assignment `operator=(const SimpleCounter&)`: `return *this`. -/
def assign (self _other : SimpleCounter) : SimpleCounter := self

/-- The method `IncRef()`: `return ++count_`, the value returned and the counter. -/
def IncRef (c : SimpleCounter) : Nat × SimpleCounter :=
  ((c.count_ + 1) % SIZE_MOD, { count_ := (c.count_ + 1) % SIZE_MOD })

/-- The method `DecRef()`: `return --count_`, where `0` wraps to `2 ^ 64 - 1`. -/
def DecRef (c : SimpleCounter) : Nat × SimpleCounter :=
  (if c.count_ = 0 then SIZE_MOD - 1 else c.count_ - 1,
   { count_ := if c.count_ = 0 then SIZE_MOD - 1 else c.count_ - 1 })

def RefCount (c : SimpleCounter) : Nat := c.count_

end SimpleCounter

/-- The template parameter `Deleter` of `RefCounted`, by what
`Deleter::Destroy(object)` does with the storage of the object: it releases it
or keeps it. -/
structure Deleter where
  releases : Bool
  deriving DecidableEq, Repr

/-- The struct `DefaultDelete`: `Destroy` runs `delete object`. -/
def DefaultDelete : Deleter := { releases := true }

/-- Memory of the objects deriving from `RefCounted`: the member `counter_` of
the object at each address, whether its storage has been released, and the
ghost count of the calls of `Deleter::Destroy` on it. -/
structure Objects where
  counter_ : Nat → SimpleCounter
  released : Nat → Bool
  destroyCalls : Nat → Nat

/-- Every object as its constructor leaves it: the counter is `0`. -/
def Objects.empty : Objects :=
  { counter_ := fun _ => {}, released := fun _ => false, destroyCalls := fun _ => 0 }

def Objects.setCounter (m : Objects) (o : Nat) (c : SimpleCounter) : Objects :=
  { m with counter_ := fun x => if x = o then c else m.counter_ x }

namespace RefCounted

/-- The call `Deleter::Destroy(static_cast<Derived*>(this))` on the object at `o`. -/
def Destroy (d : Deleter) (o : Nat) (m : Objects) : Objects :=
  { m with released := fun x => if x = o then d.releases else m.released x,
           destroyCalls := fun x => if x = o then m.destroyCalls x + 1 else m.destroyCalls x }

/-- The method `IncRef()` of the object at `o`; going through a pointer to
released storage is a fault. -/
def IncRef (o : Nat) (m : Objects) : Except Fault Objects :=
  if m.released o then .error .useAfterFree
  else .ok (m.setCounter o (m.counter_ o).IncRef.2)

/-- The method `DecRef()` of the object at `o`. -/
def DecRef (d : Deleter) (o : Nat) (m : Objects) : Except Fault Objects :=
  if m.released o then .error .useAfterFree
  else
    if (m.counter_ o).DecRef.1 = 0 then
      .ok (Destroy d o (m.setCounter o (m.counter_ o).DecRef.2))
    else .ok (m.setCounter o (m.counter_ o).DecRef.2)

/-- The method `RefCount()` of the object at `o`. -/
def RefCount (o : Nat) (m : Objects) : Except Fault Nat :=
  if m.released o then .error .useAfterFree else .ok (m.counter_ o).RefCount

/-- The implicit copy constructor of a `RefCounted` object: the object at
`dst` is built as a copy of the object at `src`. -/
def copyObject (src dst : Nat) (m : Objects) : Objects :=
  m.setCounter dst (SimpleCounter.copy (m.counter_ src))

/-- The implicit copy assignment of a `RefCounted` object: `*dst = *src`. -/
def assignObject (src dst : Nat) (m : Objects) : Objects :=
  m.setCounter dst (SimpleCounter.assign (m.counter_ dst) (m.counter_ src))

end RefCounted

/-- The data member of `IntrusivePtr<T>`. -/
structure IntrusivePtr where
  ptr_ : Option Nat := none
  deriving DecidableEq, Repr

namespace IntrusivePtr

def Decrease (d : Deleter) (p : IntrusivePtr) (m : Objects) : Except Fault Objects :=
  match p.ptr_ with
  | none => .ok m
  | some o => RefCounted.DecRef d o m

def Increase (p : IntrusivePtr) (m : Objects) : Except Fault Objects :=
  match p.ptr_ with
  | none => .ok m
  | some o => RefCounted.IncRef o m

/-- The constructor `IntrusivePtr(T* ptr)`. -/
def fromRaw (ptr : Option Nat) (m : Objects) : Except Fault (IntrusivePtr × Objects) :=
  match Increase { ptr_ := ptr } m with
  | .error e => .error e
  | .ok m1 => .ok ({ ptr_ := ptr }, m1)

/-- The copy constructors. -/
def copy (other : IntrusivePtr) (m : Objects) : Except Fault (IntrusivePtr × Objects) :=
  match Increase { ptr_ := other.ptr_ } m with
  | .error e => .error e
  | .ok m1 => .ok ({ ptr_ := other.ptr_ }, m1)

/-- The move constructors: the new handle and what is left of `other`. -/
def move (other : IntrusivePtr) : IntrusivePtr × IntrusivePtr :=
  ({ ptr_ := other.ptr_ }, { ptr_ := none })

/-- Copy assignment. -/
def copyAssign (d : Deleter) (self other : IntrusivePtr) (m : Objects) :
    Except Fault (IntrusivePtr × Objects) :=
  if self.ptr_ = other.ptr_ then .ok (self, m)
  else
    match self.Decrease d m with
    | .error e => .error e
    | .ok m1 =>
      match Increase { ptr_ := other.ptr_ } m1 with
      | .error e => .error e
      | .ok m2 => .ok ({ ptr_ := other.ptr_ }, m2)

/-- Move assignment; `same` is the test `&other == this`. The new `*this`,
what is left of `other`, and the objects. -/
def moveAssign (d : Deleter) (self other : IntrusivePtr) (same : Bool) (m : Objects) :
    Except Fault (IntrusivePtr × IntrusivePtr × Objects) :=
  if self.ptr_ = other.ptr_ then
    if !same then
      match self.Decrease d m with
      | .error e => .error e
      | .ok m1 => .ok (self, { ptr_ := none }, m1)
    else .ok (self, other, m)
  else
    match self.Decrease d m with
    | .error e => .error e
    | .ok m1 => .ok ({ ptr_ := other.ptr_ }, { ptr_ := none }, m1)

/-- The destructor. -/
def destroy (d : Deleter) (p : IntrusivePtr) (m : Objects) : Except Fault Objects :=
  p.Decrease d m

/-- The method `Reset()`. -/
def Reset (d : Deleter) (p : IntrusivePtr) (m : Objects) : Except Fault (IntrusivePtr × Objects) :=
  match p.Decrease d m with
  | .error e => .error e
  | .ok m1 => .ok ({ ptr_ := none }, m1)

/-- The method `Reset(T* ptr)`. -/
def ResetPtr (d : Deleter) (p : IntrusivePtr) (ptr : Option Nat) (m : Objects) :
    Except Fault (IntrusivePtr × Objects) :=
  match p.Decrease d m with
  | .error e => .error e
  | .ok m1 =>
    match Increase { ptr_ := ptr } m1 with
    | .error e => .error e
    | .ok m2 => .ok ({ ptr_ := ptr }, m2)

def Swap (a b : IntrusivePtr) : IntrusivePtr × IntrusivePtr :=
  ({ ptr_ := b.ptr_ }, { ptr_ := a.ptr_ })

def Get (p : IntrusivePtr) : Option Nat := p.ptr_

def UseCount (p : IntrusivePtr) (m : Objects) : Except Fault Nat :=
  match p.ptr_ with
  | none => .ok 0
  | some o => RefCounted.RefCount o m

end IntrusivePtr

namespace Intrusive

/-- A program state: the objects and the `IntrusivePtr` variables that are alive. -/
structure State where
  objs : Objects
  handles : List IntrusivePtr

/-- The `IntrusivePtr` operations, applied to handle variables named by their
index in the table; a new handle is appended to the table. -/
inductive Op where
  | default
  | fromRaw (ptr : Option Nat)
  | copy (i : Nat)
  | move (i : Nat)
  | assign (i j : Nat)
  | moveAssign (i j : Nat)
  | destroy (i : Nat)
  | reset (i : Nat)
  | resetPtr (i : Nat) (ptr : Option Nat)
  | swap (i j : Nat)
  deriving DecidableEq, Repr

/-- One operation of a program on objects with deleter `d`. An index that
names no variable leaves the state as it is. -/
def step (d : Deleter) (s : State) : Op → Except Fault State
  | .default => .ok { s with handles := s.handles ++ [{}] }
  | .fromRaw ptr =>
    match IntrusivePtr.fromRaw ptr s.objs with
    | .error e => .error e
    | .ok (x, m) => .ok { objs := m, handles := s.handles ++ [x] }
  | .copy i =>
    match s.handles[i]? with
    | none => .ok s
    | some src =>
      match IntrusivePtr.copy src s.objs with
      | .error e => .error e
      | .ok (x, m) => .ok { objs := m, handles := s.handles ++ [x] }
  | .move i =>
    match s.handles[i]? with
    | none => .ok s
    | some src =>
      .ok { s with handles := s.handles.set i (IntrusivePtr.move src).2 ++
                                [(IntrusivePtr.move src).1] }
  | .assign i j =>
    match s.handles[i]?, s.handles[j]? with
    | some a, some b =>
      match IntrusivePtr.copyAssign d a b s.objs with
      | .error e => .error e
      | .ok (a1, m) => .ok { objs := m, handles := s.handles.set i a1 }
    | _, _ => .ok s
  | .moveAssign i j =>
    match s.handles[i]?, s.handles[j]? with
    | some a, some b =>
      match IntrusivePtr.moveAssign d a b (decide (i = j)) s.objs with
      | .error e => .error e
      | .ok (a1, b1, m) =>
        .ok { objs := m,
              handles := if i = j then s.handles.set i a1 else (s.handles.set i a1).set j b1 }
    | _, _ => .ok s
  | .destroy i =>
    match s.handles[i]? with
    | none => .ok s
    | some a =>
      match IntrusivePtr.destroy d a s.objs with
      | .error e => .error e
      | .ok m => .ok { objs := m, handles := s.handles.eraseIdx i }
  | .reset i =>
    match s.handles[i]? with
    | none => .ok s
    | some a =>
      match IntrusivePtr.Reset d a s.objs with
      | .error e => .error e
      | .ok (a1, m) => .ok { objs := m, handles := s.handles.set i a1 }
  | .resetPtr i ptr =>
    match s.handles[i]? with
    | none => .ok s
    | some a =>
      match IntrusivePtr.ResetPtr d a ptr s.objs with
      | .error e => .error e
      | .ok (a1, m) => .ok { objs := m, handles := s.handles.set i a1 }
  | .swap i j =>
    match s.handles[i]?, s.handles[j]? with
    | some a, some b =>
      .ok { s with handles := (s.handles.set i (IntrusivePtr.Swap a b).1).set j
                                (IntrusivePtr.Swap a b).2 }
    | _, _ => .ok s

/-- A program: the operations in order, stopping at the first fault. -/
def run (d : Deleter) : State → List Op → Except Fault State
  | s, [] => .ok s
  | s, op :: rest =>
    match step d s op with
    | .error e => .error e
    | .ok s1 => run d s1 rest

/-- No handle, every object fresh. -/
def init : State := { objs := Objects.empty, handles := [] }

/-- The handle points at the object at `o`. -/
def points (o : Nat) (p : IntrusivePtr) : Bool := decide (p.ptr_ = some o)

/-- Number of handles of the table that point at the object at `o`. -/
def pointing (o : Nat) (l : List IntrusivePtr) : Nat := l.countP (points o)

/-- What is asked of the pointer given to `IntrusivePtr(T*)` and `Reset(T*)`:
`Deleter::Destroy` has not been called on the object, and `Reset(T*)` is not
given the pointer its handle holds as the only reference. -/
def pre (s : State) : Op → Bool
  | .fromRaw (some o) => decide (s.objs.destroyCalls o = 0)
  | .resetPtr i (some o) =>
    decide (s.objs.destroyCalls o = 0) &&
      match s.handles[i]? with
      | some x => !(points o x && decide ((s.objs.counter_ o).RefCount = 1))
      | none => true
  | _ => true

/-- The condition `pre` holds before every operation of the program. A fault
ends the check. -/
def legal (d : Deleter) : State → List Op → Bool
  | _, [] => true
  | s, op :: rest =>
    pre s op &&
      match step d s op with
      | .ok s1 => legal d s1 rest
      | .error _ => true

/-- The state of the object at `o` when `k` handles point at it: before
`Deleter::Destroy` its storage is there and its counter is `k`; afterwards
`Destroy` has been called once and no handle points at it. -/
def Good (m : Objects) (o k : Nat) : Prop :=
  if m.destroyCalls o = 0 then m.released o = false ∧ (m.counter_ o).count_ = k
  else m.destroyCalls o = 1 ∧ k = 0

/-- What can be observed of the object at `o` in a state: the handles, what
`UseCount()` returns for each, the counter, and the number of calls of
`Deleter::Destroy`. -/
structure View where
  handles : List IntrusivePtr
  useCounts : List (Except Fault Nat)
  count : Nat
  destroyCalls : Nat

def view (o : Nat) (r : Except Fault State) : Except Fault View :=
  match r with
  | .error e => .error e
  | .ok s =>
    .ok { handles := s.handles, useCounts := s.handles.map (fun p => p.UseCount s.objs),
          count := (s.objs.counter_ o).RefCount, destroyCalls := s.objs.destroyCalls o }

/-- The invariant of intrusive counting: every object is `Good` for the
number of handles of the table that point at it. -/
def Inv (s : State) : Prop := ∀ o, Good s.objs o (pointing o s.handles)

end Intrusive



/-! ## Lemmas on the heap of a group -/

theorem size_inc (n : Nat) (h : n + 1 < SIZE_MOD) : (n + 1) % SIZE_MOD = n + 1 :=
  Nat.mod_eq_of_lt h

theorem size_id (n : Nat) (h : n < SIZE_MOD) : n % SIZE_MOD = n := Nat.mod_eq_of_lt h

theorem HeapAt.increase {esft : Bool} {B p : Nat} {h : Heap} {n m : Nat} (q : Nat)
    (hh : HeapAt esft B p h n m) (hn : 0 < n) (hb : n + m + 2 < SIZE_MOD) :
    ∃ h1, SharedPtr.Increase (member B q) h = .ok h1 ∧ HeapAt esft B p h1 (n + 1) m := by
  have hblk := hh.blk
  have hne : ¬ (n + m = 0) := by omega
  simp only [groupBlock, hne, if_false] at hblk
  simp only [SharedPtr.Increase, member, Heap.deref, hblk, Except.ok.injEq, exists_eq_left']
  constructor
  · simp [Heap.setBlock, groupBlock, ControlBlock.IncStrong, hn, size_inc n (by omega)]
  · simp [Heap.setBlock, hh.calls]; omega
  · simp [Heap.setBlock, hh.deletes]; omega
  · simp [Heap.setBlock, hh.destroyed]; omega
  · intro he _; simpa [Heap.setBlock] using hh.selfB he hn

theorem HeapAt.bindSelf {B p : Nat} {h : Heap} {n m : Nat}
    (hh : HeapAt true B p h n m) (hn : 0 < n) (hb : n + m + 2 < SIZE_MOD) :
    ∃ h1, SharedPtr.bindSelf (member B p) h = .ok h1 ∧ HeapAt true B p h1 n m := by
  have hblk := hh.blk
  have hne : ¬ (n + m = 0) := by omega
  have hself := hh.selfB rfl hn
  have hd := hh.destroyed
  have hn0 : ¬ (n = 0) := by omega
  simp only [groupBlock, hne, if_false, hn, and_self, if_true] at hblk
  simp only [hn0, if_false] at hd
  have e1 : (m + 1 + 1) % SIZE_MOD = m + 2 := size_id _ (by omega)
  have e3 : (n + (m + 1)) % SIZE_MOD = n + (m + 1) := size_id _ (by omega)
  simp [SharedPtr.bindSelf, member, hd, WeakPtr.fromShared, WeakPtr.Increase, Heap.deref, hblk,
      WeakPtr.moveAssign, WeakPtr.Decrease, Heap.setBlock, hself, ControlBlock.IncWeak,
      ControlBlock.DecWeak, ControlBlock.GetCounter, ControlBlock.GetStrongCounter,
      ControlBlock.GetWeakCounter, e1, e3, hn0]
  constructor
  · simp [Heap.setBlock, Heap.setSelf, groupBlock, hn]; omega
  · simp [Heap.setBlock, Heap.setSelf, hh.calls]
  · simp [Heap.setBlock, Heap.setSelf, hh.deletes]
  · simp [Heap.setBlock, Heap.setSelf, hd, hn0]
  · intro _ _; simp [Heap.setBlock, Heap.setSelf]
theorem HeapAt.copy {esft : Bool} {B p : Nat} {h : Heap} {n m : Nat} (q : Nat)
    (hq : esft = true → q = p)
    (hh : HeapAt esft B p h n m) (hn : 0 < n) (hb : n + m + 2 < SIZE_MOD) :
    ∃ h1, SharedPtr.copy esft (member B q) h = .ok (member B q, h1) ∧
      HeapAt esft B p h1 (n + 1) m := by
  cases esft with
  | false =>
    obtain ⟨h1, e1, i1⟩ := hh.increase q hn hb
    exact ⟨h1, by simp only [member] at e1; simp [SharedPtr.copy, member, e1], i1⟩
  | true =>
    obtain rfl := hq rfl
    obtain ⟨h1, e1, i1⟩ := hh.bindSelf hn hb
    obtain ⟨h2, e2, i2⟩ := i1.increase q hn hb
    refine ⟨h2, ?_, i2⟩
    simp only [member] at e1 e2
    simp [SharedPtr.copy, member, e1, e2]

theorem HeapAt.move {esft : Bool} {B p : Nat} {h : Heap} {n m : Nat} (q : Nat)
    (hq : esft = true → q = p)
    (hh : HeapAt esft B p h n m) (hn : 0 < n) (hb : n + m + 2 < SIZE_MOD) :
    ∃ h1, SharedPtr.move esft (member B q) h = .ok (member B q, {}, h1) ∧
      HeapAt esft B p h1 n m := by
  cases esft with
  | false => exact ⟨h, by simp [SharedPtr.move, member], hh⟩
  | true =>
    obtain rfl := hq rfl
    obtain ⟨h1, e1, i1⟩ := hh.bindSelf hn hb
    refine ⟨h1, ?_, i1⟩
    simp only [member] at e1
    simp [SharedPtr.move, member, e1]

theorem HeapAt.decrease {esft : Bool} {B p : Nat} {h : Heap} {n m : Nat} (q : Nat)
    (hh : HeapAt esft B p h n m) (hn : 0 < n) (hb : n + m + 2 < SIZE_MOD) :
    ∃ r, SharedPtr.Decrease esft (member B q) h = .ok r ∧
      HeapAt esft B p r.2 (n - 1) m := by
  have hblk := hh.blk
  have hne : ¬ (n + m = 0) := by omega
  have hd := hh.destroyed
  have hc := hh.calls
  have hdl := hh.deletes
  have hn0 : ¬ (n = 0) := by omega
  simp only [groupBlock, hne, if_false, hn, and_true] at hblk
  simp only [hn0, if_false] at hd hc
  simp only [hne, if_false] at hdl
  by_cases h1 : n = 1
  · subst h1
    cases esft with
    | false =>
      by_cases hm : m = 0
      · subst hm
        simp [SharedPtr.Decrease, member, Heap.deref, hblk, ControlBlock.DecStrong,
          ControlBlock.GetStrongCounter, ControlBlock.GetWeakCounter, DeleteObject,
          Heap.setBlock, hd, Heap.deleteBlock]
        constructor <;> simp [groupBlock, hc, hdl, hd]
      · simp [SharedPtr.Decrease, member, Heap.deref, hblk, ControlBlock.DecStrong,
          ControlBlock.GetStrongCounter, ControlBlock.GetWeakCounter, DeleteObject,
          Heap.setBlock, hd, Heap.deleteBlock, hm]
        constructor <;> simp [groupBlock, hc, hdl, hd, hm]
    | true =>
      have hself := hh.selfB rfl hn
      have e3 : m % SIZE_MOD = m := size_id _ (by omega)
      by_cases hm : m = 0
      · subst hm
        simp [SharedPtr.Decrease, member, Heap.deref, hblk, ControlBlock.DecStrong,
          ControlBlock.GetStrongCounter, ControlBlock.GetWeakCounter, DeleteObject,
          Heap.setBlock, hd, Heap.deleteBlock, hself, WeakPtr.Decrease, ControlBlock.DecWeak,
          ControlBlock.GetCounter]
        constructor <;> simp [groupBlock, hc, hdl, hd]
      · simp [SharedPtr.Decrease, member, Heap.deref, hblk, ControlBlock.DecStrong,
          ControlBlock.GetStrongCounter, ControlBlock.GetWeakCounter, DeleteObject,
          Heap.setBlock, hd, Heap.deleteBlock, hself, WeakPtr.Decrease, ControlBlock.DecWeak,
          ControlBlock.GetCounter, e3, hm]
        constructor <;> simp [groupBlock, hc, hdl, hd, hm]
  · have hn1 : ¬ (n - 1 = 0) := by omega
    have hn1m : ¬ (n - 1 + m = 0) := by omega
    have hlt : 0 < n - 1 := by omega
    simp [SharedPtr.Decrease, member, Heap.deref, hblk, ControlBlock.DecStrong,
        ControlBlock.GetStrongCounter, hn0, hn1]
    constructor
    · simp [Heap.setBlock, groupBlock, hn1, hn1m, hlt, hn]
    · simp [Heap.setBlock, hc, hn1]
    · simp [Heap.setBlock, hdl, hn1m]
    · simp [Heap.setBlock, hd, hn1]
    · intro he _; simpa [Heap.setBlock] using hh.selfB he hn
theorem HeapAt.weakIncrease {esft : Bool} {B p : Nat} {h : Heap} {n m : Nat} (w : WeakPtr)
    (hw : w.block_ = some B)
    (hh : HeapAt esft B p h n m) (hn : 0 < n + m) (hb : n + m + 2 < SIZE_MOD) :
    ∃ h1, WeakPtr.Increase w h = .ok h1 ∧ HeapAt esft B p h1 n (m + 1) := by
  have hblk := hh.blk
  have hne : ¬ (n + m = 0) := by omega
  simp only [groupBlock, hne, if_false] at hblk
  have e1 : ∀ k, k ≤ 1 → (m + k + 1) % SIZE_MOD = m + k + 1 := fun k hk => size_id _ (by omega)
  simp only [WeakPtr.Increase, hw, Heap.deref, hblk, Except.ok.injEq, exists_eq_left']
  constructor
  · by_cases h0 : esft = true ∧ 0 < n
    · simp [Heap.setBlock, groupBlock, ControlBlock.IncWeak, h0, e1 1 (le_refl 1)]
      try omega
    · simp [Heap.setBlock, groupBlock, ControlBlock.IncWeak, h0, size_id (m + 1) (by omega)]
  · simp [Heap.setBlock, hh.calls]
  · simp [Heap.setBlock, hh.deletes]; omega
  · simp [Heap.setBlock, hh.destroyed]
  · intro he hn1; simpa [Heap.setBlock] using hh.selfB he hn1

theorem HeapAt.weakDecrease {esft : Bool} {B p : Nat} {h : Heap} {n m : Nat} (w : WeakPtr)
    (hw : w.block_ = some B)
    (hh : HeapAt esft B p h n m) (hm : 0 < m) (hb : n + m + 2 < SIZE_MOD) :
    ∃ h1, WeakPtr.Decrease w h = .ok h1 ∧ HeapAt esft B p h1 n (m - 1) := by
  have hblk := hh.blk
  have hne : ¬ (n + m = 0) := by omega
  have hm0 : ¬ (m = 0) := by omega
  have hdl := hh.deletes
  simp only [groupBlock, hne, if_false] at hblk
  simp only [hne, if_false] at hdl
  by_cases hn : n = 0
  · subst hn
    by_cases hm1 : m = 1
    · subst hm1
      simp [WeakPtr.Decrease, hw, Heap.deref, hblk, ControlBlock.DecWeak, ControlBlock.GetCounter,
        ControlBlock.GetStrongCounter, ControlBlock.GetWeakCounter, Heap.setBlock, Heap.deleteBlock]
      constructor <;> simp [groupBlock, hh.calls, hdl, hh.destroyed]
    · have e : (m - 1) % SIZE_MOD = m - 1 := size_id _ (by omega)
      have hm2 : ¬ (m - 1 = 0) := by omega
      simp [WeakPtr.Decrease, hw, Heap.deref, hblk, ControlBlock.DecWeak, ControlBlock.GetCounter,
        ControlBlock.GetStrongCounter, ControlBlock.GetWeakCounter, Heap.setBlock, Heap.deleteBlock,
        hm0, e, hm2]
      constructor <;> simp [groupBlock, hh.calls, hdl, hh.destroyed, hm2]
  · have hpos : 0 < n := by omega
    by_cases he : esft = true
    · have e : (n + m) % SIZE_MOD = n + m := size_id _ (by omega)
      have hnm : ¬ (n + (m - 1) = 0) := by omega
      simp [WeakPtr.Decrease, hw, Heap.deref, hblk, ControlBlock.DecWeak, ControlBlock.GetCounter,
        ControlBlock.GetStrongCounter, ControlBlock.GetWeakCounter, Heap.setBlock, Heap.deleteBlock,
        he, hpos, e, hn, hne]
      constructor
      · simp [groupBlock, hnm, he, hpos, hn]; omega
      · exact hh.calls
      · simp [hdl, hnm, hn]
      · exact hh.destroyed
      · intro _ _; exact hh.selfB he hpos
    · have e : (n + (m - 1)) % SIZE_MOD = n + (m - 1) := size_id _ (by omega)
      have hnm : ¬ (n + (m - 1) = 0) := by omega
      simp [WeakPtr.Decrease, hw, Heap.deref, hblk, ControlBlock.DecWeak, ControlBlock.GetCounter,
        ControlBlock.GetStrongCounter, ControlBlock.GetWeakCounter, Heap.setBlock, Heap.deleteBlock,
        he, hm0, e, hn]
      constructor
      · simp [groupBlock, hnm, he, hn]
      · exact hh.calls
      · simp [hdl, hnm, hn]
      · exact hh.destroyed
      · intro h1 _; exact absurd h1 (by simp [he])

theorem countP_set_getElem? {α : Type} (q : α → Bool) :
    ∀ (l : List α) (i : Nat) (x y : α), l[i]? = some y →
      (l.set i x).countP q + (if q y = true then 1 else 0)
        = l.countP q + (if q x = true then 1 else 0) := by
  intro l
  induction l with
  | nil => intro i x y h; simp at h
  | cons a t ih =>
    intro i x y h
    cases i with
    | zero =>
      simp at h; subst h
      simp [List.countP_cons]; omega
    | succ k =>
      simp at h
      have := ih k x y h
      simp [List.countP_cons]; omega

theorem countP_eraseIdx_getElem? {α : Type} (q : α → Bool) :
    ∀ (l : List α) (i : Nat) (y : α), l[i]? = some y →
      (l.eraseIdx i).countP q + (if q y = true then 1 else 0) = l.countP q := by
  intro l
  induction l with
  | nil => intro i y h; simp at h
  | cons a t ih =>
    intro i y h
    cases i with
    | zero =>
      simp at h; subst h
      simp [List.countP_cons]
    | succ k =>
      simp at h
      have := ih k y h
      simp [List.countP_cons]; omega

/-! ## One step of a program on a group -/

theorem owns_member (B p : Nat) : owns B (member B p) = true := by
  simp [owns, member]

theorem owns_empty (B : Nat) : owns B ({} : SharedPtr) = false := by
  simp [owns]

theorem owners_pos {B p : Nat} {l : List SharedPtr} (h : member B p ∈ l) : 0 < owners B l :=
  List.countP_pos_iff.mpr ⟨_, h, owns_member B p⟩

theorem watchers_pos {B : Nat} {l : List WeakPtr} {w : WeakPtr} (h : w ∈ l)
    (hw : w.block_ = some B) : 0 < watchers B l :=
  List.countP_pos_iff.mpr ⟨_, h, by simp [watches, hw]⟩

theorem group_bound {B : Nat} {s : State}
    (hb : s.shared.length + s.weak.length + 2 < SIZE_MOD) :
    owners B s.shared + watchers B s.weak + 2 < SIZE_MOD := by
  have h1 : owners B s.shared ≤ s.shared.length := List.countP_le_length _
  have h2 : watchers B s.weak ≤ s.weak.length := List.countP_le_length _
  omega

theorem StepOk.same {esft : Bool} {B p : Nat} {Q : Nat → Prop} {s : State} {op : Op}
    (inv : GroupInv esft B p Q s) (h : step esft s op = .ok s) : StepOk esft B p Q s op :=
  ⟨s, h, inv, by omega, by omega, by omega, fun _ => rfl, fun h0 => h0, fun h0 => by omega⟩

theorem forall_mem_push {α : Type} {P : α → Prop} {l : List α} {x : α}
    (hl : ∀ y ∈ l, P y) (hx : P x) : ∀ y ∈ l ++ [x], P y := by
  intro y hy
  rcases List.mem_append.mp hy with h | h
  · exact hl y h
  · simp at h; subst h; exact hx

theorem forall_mem_set {α : Type} {P : α → Prop} {l : List α} {x : α} (i : Nat)
    (hl : ∀ y ∈ l, P y) (hx : P x) : ∀ y ∈ l.set i x, P y := by
  intro y hy
  rcases List.mem_or_eq_of_mem_set hy with h | h
  · exact hl y h
  · subst h; exact hx

theorem forall_mem_erase {α : Type} {P : α → Prop} {l : List α} (i : Nat)
    (hl : ∀ y ∈ l, P y) : ∀ y ∈ l.eraseIdx i, P y :=
  fun y hy => hl y (List.mem_of_mem_eraseIdx hy)

theorem owners_push (B : Nat) (l : List SharedPtr) (x : SharedPtr) :
    owners B (l ++ [x]) = owners B l + (if owns B x = true then 1 else 0) := by
  simp [owners, List.countP_append, List.countP_cons]

theorem owners_set (B : Nat) (l : List SharedPtr) (i : Nat) (x y : SharedPtr)
    (h : l[i]? = some y) :
    owners B (l.set i x) + (if owns B y = true then 1 else 0)
      = owners B l + (if owns B x = true then 1 else 0) :=
  countP_set_getElem? _ l i x y h

theorem owners_erase (B : Nat) (l : List SharedPtr) (i : Nat) (y : SharedPtr)
    (h : l[i]? = some y) :
    owners B (l.eraseIdx i) + (if owns B y = true then 1 else 0) = owners B l :=
  countP_eraseIdx_getElem? _ l i y h

theorem watchers_push (B : Nat) (l : List WeakPtr) (x : WeakPtr) :
    watchers B (l ++ [x]) = watchers B l + (if watches B x = true then 1 else 0) := by
  simp [watchers, List.countP_append, List.countP_cons]

theorem watchers_set (B : Nat) (l : List WeakPtr) (i : Nat) (x y : WeakPtr)
    (h : l[i]? = some y) :
    watchers B (l.set i x) + (if watches B y = true then 1 else 0)
      = watchers B l + (if watches B x = true then 1 else 0) :=
  countP_set_getElem? _ l i x y h

theorem watchers_erase (B : Nat) (l : List WeakPtr) (i : Nat) (y : WeakPtr)
    (h : l[i]? = some y) :
    watchers B (l.eraseIdx i) + (if watches B y = true then 1 else 0) = watchers B l :=
  countP_eraseIdx_getElem? _ l i y h

theorem length_erase_le {α : Type} (l : List α) (i : Nat) : (l.eraseIdx i).length ≤ l.length := by
  rw [List.length_eraseIdx]; split <;> omega

theorem esft_false_of_empty_src {esft : Bool} {B p : Nat} {s : State} {i : Nat}
    (hsrc : esft = true → ∀ x, s.shared[i]? = some x → x = member B p)
    (hi : s.shared[i]? = some ({} : SharedPtr)) : esft = false := by
  cases esft with
  | false => rfl
  | true =>
    have := hsrc rfl _ hi
    simp [member] at this

theorem observed_eq {esft : Bool} {B p q : Nat} {s : State} {i : Nat}
    (hsrc : esft = true → ∀ x, s.shared[i]? = some x → x = member B p)
    (hi : s.shared[i]? = some (member B q)) : esft = true → q = p := by
  intro he
  have := hsrc he _ hi
  simpa [member] using this

theorem step_sharedCopy {esft : Bool} {B p : Nat} {Q : Nat → Prop} {s : State} (i : Nat)
    (inv : GroupInv esft B p Q s) (hsrc : esft = true → ∀ x, s.shared[i]? = some x → x = member B p)
    (hb : s.shared.length + s.weak.length + 2 < SIZE_MOD) :
    StepOk esft B p Q s (.sharedCopy i) := by
  cases hi : s.shared[i]? with
  | none => exact StepOk.same inv (by simp [step, hi])
  | some x =>
    have hmem := List.getElem?_mem hi
    rcases inv.sharedForm x hmem with ⟨q, hq, hx⟩ | hx
    · subst hx
      obtain ⟨h1, e1, i1⟩ := inv.heap.copy q (observed_eq hsrc hi) (owners_pos hmem) (group_bound hb)
      refine ⟨{ s with heap := h1, shared := s.shared ++ [member B q] }, by simp [step, hi, e1],
        ⟨forall_mem_push inv.sharedForm (Or.inl ⟨q, hq, rfl⟩), inv.weakForm, ?_⟩,
        by simp; omega, by rw [owners_push]; omega, by simp, fun _ => rfl, fun h0 => absurd h0 (Nat.pos_iff_ne_zero.mp (owners_pos hmem)),
        fun h0 => show watchers B s.weak = 0 by omega⟩
      simpa [owners_push, owns_member] using i1
    · subst hx
      have he := esft_false_of_empty_src hsrc hi
      subst he
      refine ⟨{ s with shared := s.shared ++ [({} : SharedPtr)] },
        by simp [step, hi, SharedPtr.copy, SharedPtr.Increase],
        ⟨forall_mem_push inv.sharedForm (Or.inr rfl), inv.weakForm, ?_⟩,
        by simp; omega, by rw [owners_push]; omega, by simp, fun _ => rfl, fun h0 => by simp only [owners_push, owns_empty]; simpa using h0,
        fun h0 => show watchers B s.weak = 0 by omega⟩
      simpa [owners_push, owns_empty] using inv.heap

theorem step_sharedMove {esft : Bool} {B p : Nat} {Q : Nat → Prop} {s : State} (i : Nat)
    (inv : GroupInv esft B p Q s) (hsrc : esft = true → ∀ x, s.shared[i]? = some x → x = member B p)
    (hb : s.shared.length + s.weak.length + 2 < SIZE_MOD) :
    StepOk esft B p Q s (.sharedMove i) := by
  cases hi : s.shared[i]? with
  | none => exact StepOk.same inv (by simp [step, hi])
  | some x =>
    have hmem := List.getElem?_mem hi
    rcases inv.sharedForm x hmem with ⟨q, hq, hx⟩ | hx
    · subst hx
      obtain ⟨h1, e1, i1⟩ := inv.heap.move q (observed_eq hsrc hi) (owners_pos hmem) (group_bound hb)
      have hc := owners_set B s.shared i ({} : SharedPtr) (member B q) hi
      simp [owns_member, owns_empty] at hc
      refine ⟨{ s with heap := h1, shared := s.shared.set i ({} : SharedPtr) ++ [member B q] },
        by simp [step, hi, e1],
        ⟨forall_mem_push (forall_mem_set i inv.sharedForm (Or.inr rfl)) (Or.inl ⟨q, hq, rfl⟩),
          inv.weakForm, ?_⟩,
        by simp; omega, by simp [owners_push, owns_member]; omega, by simp, fun _ => rfl, fun h0 => absurd h0 (Nat.pos_iff_ne_zero.mp (owners_pos hmem)),
        fun h0 => show watchers B s.weak = 0 by omega⟩
      have e : owners B (s.shared.set i ({} : SharedPtr) ++ [member B q]) = owners B s.shared := by
        simp [owners_push, owns_member]; omega
      simpa [e] using i1
    · subst hx
      have he := esft_false_of_empty_src hsrc hi
      subst he
      have hc := owners_set B s.shared i ({} : SharedPtr) ({} : SharedPtr) hi
      simp [owns_empty] at hc
      have e : owners B (s.shared.set i ({} : SharedPtr) ++ [({} : SharedPtr)]) = owners B s.shared := by
        simp [owners_push, owns_empty]; omega
      refine ⟨{ s with shared := s.shared.set i ({} : SharedPtr) ++ [({} : SharedPtr)] },
        by simp [step, hi, SharedPtr.move],
        ⟨forall_mem_push (forall_mem_set i inv.sharedForm (Or.inr rfl)) (Or.inr rfl),
          inv.weakForm, ?_⟩,
        by simp; omega, by rw [e]; omega, by simp, fun _ => rfl, fun h0 => by simp only [e]; omega,
        fun h0 => show watchers B s.weak = 0 by omega⟩
      simpa [e] using inv.heap

theorem decrease_empty (esft : Bool) (h : Heap) :
    SharedPtr.Decrease esft ({} : SharedPtr) h = .ok (({} : SharedPtr), h) := by
  simp [SharedPtr.Decrease]

theorem step_sharedReset {esft : Bool} {B p : Nat} {Q : Nat → Prop} {s : State} (i : Nat)
    (inv : GroupInv esft B p Q s)
    (hb : s.shared.length + s.weak.length + 2 < SIZE_MOD) :
    StepOk esft B p Q s (.sharedReset i) := by
  cases hi : s.shared[i]? with
  | none => exact StepOk.same inv (by simp [step, hi])
  | some x =>
    have hmem := List.getElem?_mem hi
    rcases inv.sharedForm x hmem with ⟨q, hq, hx⟩ | hx
    · subst hx
      obtain ⟨r, e1, i1⟩ := inv.heap.decrease q (owners_pos hmem) (group_bound hb)
      have hc := owners_set B s.shared i ({} : SharedPtr) (member B q) hi
      simp [owns_member, owns_empty] at hc
      have e : owners B (s.shared.set i ({} : SharedPtr)) = owners B s.shared - 1 := by
        omega
      refine ⟨{ s with heap := r.2, shared := s.shared.set i ({} : SharedPtr) },
        by simp [step, hi, SharedPtr.Reset, e1],
        ⟨forall_mem_set i inv.sharedForm (Or.inr rfl), inv.weakForm, ?_⟩,
        by simp, by rw [e]; omega, by simp, fun _ => rfl, fun h0 => absurd h0 (Nat.pos_iff_ne_zero.mp (owners_pos hmem)),
        fun h0 => show watchers B s.weak = 0 by omega⟩
      simpa [e] using i1
    · subst hx
      have hc := owners_set B s.shared i ({} : SharedPtr) ({} : SharedPtr) hi
      simp [owns_empty] at hc
      have e : owners B (s.shared.set i ({} : SharedPtr)) = owners B s.shared := by
        omega
      refine ⟨{ s with shared := s.shared.set i ({} : SharedPtr) },
        by simp [step, hi, SharedPtr.Reset, decrease_empty],
        ⟨forall_mem_set i inv.sharedForm (Or.inr rfl), inv.weakForm, ?_⟩,
        by simp, by rw [e]; omega, by simp, fun _ => rfl, fun h0 => by simp only [e]; omega,
        fun h0 => show watchers B s.weak = 0 by omega⟩
      simpa [e] using inv.heap

theorem step_sharedDestroy {esft : Bool} {B p : Nat} {Q : Nat → Prop} {s : State} (i : Nat)
    (inv : GroupInv esft B p Q s)
    (hb : s.shared.length + s.weak.length + 2 < SIZE_MOD) :
    StepOk esft B p Q s (.sharedDestroy i) := by
  cases hi : s.shared[i]? with
  | none => exact StepOk.same inv (by simp [step, hi])
  | some x =>
    have hmem := List.getElem?_mem hi
    have hlen := length_erase_le s.shared i
    rcases inv.sharedForm x hmem with ⟨q, hq, hx⟩ | hx
    · subst hx
      obtain ⟨r, e1, i1⟩ := inv.heap.decrease q (owners_pos hmem) (group_bound hb)
      have hc := owners_erase B s.shared i (member B q) hi
      simp [owns_member] at hc
      have e : owners B (s.shared.eraseIdx i) = owners B s.shared - 1 := by omega
      refine ⟨{ s with heap := r.2, shared := s.shared.eraseIdx i },
        by simp [step, hi, SharedPtr.destroy, e1],
        ⟨forall_mem_erase i inv.sharedForm, inv.weakForm, ?_⟩,
        by simp only; omega, by rw [e]; omega, by simp, fun _ => rfl, fun h0 => absurd h0 (Nat.pos_iff_ne_zero.mp (owners_pos hmem)),
        fun h0 => show watchers B s.weak = 0 by omega⟩
      simpa [e] using i1
    · subst hx
      have hc := owners_erase B s.shared i ({} : SharedPtr) hi
      simp [owns_empty] at hc
      have e : owners B (s.shared.eraseIdx i) = owners B s.shared := by
        omega
      refine ⟨{ s with shared := s.shared.eraseIdx i },
        by simp [step, hi, SharedPtr.destroy, decrease_empty],
        ⟨forall_mem_erase i inv.sharedForm, inv.weakForm, ?_⟩,
        by simp only; omega, by rw [e]; omega, by simp, fun _ => rfl, fun h0 => by simp only [e]; omega,
        fun h0 => show watchers B s.weak = 0 by omega⟩
      simpa [e] using inv.heap

theorem watches_of {B : Nat} {w : WeakPtr} (hw : w.block_ = some B) : watches B w = true := by
  simp [watches, hw]

theorem watches_none {B : Nat} {w : WeakPtr} (hw : w.block_ = none) : watches B w = false := by
  simp [watches, hw]

theorem weak_increase_none {w : WeakPtr} (hw : w.block_ = none) (h : Heap) :
    WeakPtr.Increase w h = .ok h := by
  simp [WeakPtr.Increase, hw]

theorem weak_decrease_none {w : WeakPtr} (hw : w.block_ = none) (h : Heap) :
    WeakPtr.Decrease w h = .ok h := by
  simp [WeakPtr.Decrease, hw]

theorem step_weakFromShared {esft : Bool} {B p : Nat} {Q : Nat → Prop} {s : State} (i : Nat)
    (inv : GroupInv esft B p Q s)
    (hb : s.shared.length + s.weak.length + 2 < SIZE_MOD) :
    StepOk esft B p Q s (.weakFromShared i) := by
  cases hi : s.shared[i]? with
  | none => exact StepOk.same inv (by simp [step, hi])
  | some x =>
    have hmem := List.getElem?_mem hi
    rcases inv.sharedForm x hmem with ⟨q, hq, hx⟩ | hx
    · subst hx
      have hw : ({ block_ := some B, ptr_ := some q } : WeakPtr).block_ = some B := rfl
      obtain ⟨h1, e1, i1⟩ := inv.heap.weakIncrease _ hw
        (Nat.lt_of_lt_of_le (owners_pos hmem) (Nat.le_add_right _ _)) (group_bound hb)
      refine ⟨{ s with heap := h1, weak := s.weak ++ [{ block_ := some B, ptr_ := some q }] },
        by simp [step, hi, WeakPtr.fromShared, member, e1],
        ⟨inv.sharedForm, forall_mem_push inv.weakForm (Or.inl rfl), ?_⟩,
        by simp; omega, by simp, by rw [watchers_push]; omega,
        fun hh => by simp [Op.isSharedGroupOp] at hh, fun h0 => h0,
        fun h0 => absurd (owners_pos hmem) (by omega)⟩
      simpa [watchers_push, watches_of hw] using i1
    · subst hx
      have hw : ({ block_ := none, ptr_ := none } : WeakPtr).block_ = none := rfl
      refine ⟨{ s with weak := s.weak ++ [{ block_ := none, ptr_ := none }] },
        by simp [step, hi, WeakPtr.fromShared, weak_increase_none hw],
        ⟨inv.sharedForm, forall_mem_push inv.weakForm (Or.inr rfl), ?_⟩,
        by simp; omega, by simp, by rw [watchers_push]; omega,
        fun hh => by simp [Op.isSharedGroupOp] at hh, fun h0 => h0,
        fun h0 => by simp [watchers_push, watches_none hw]; omega⟩
      simpa [watchers_push, watches_none hw] using inv.heap

theorem step_weakCopy {esft : Bool} {B p : Nat} {Q : Nat → Prop} {s : State} (j : Nat)
    (inv : GroupInv esft B p Q s)
    (hb : s.shared.length + s.weak.length + 2 < SIZE_MOD) :
    StepOk esft B p Q s (.weakCopy j) := by
  cases hj : s.weak[j]? with
  | none => exact StepOk.same inv (by simp [step, hj])
  | some w =>
    have hmem := List.getElem?_mem hj
    rcases inv.weakForm w hmem with hw | hw
    · have hw2 : ({ block_ := w.block_, ptr_ := w.ptr_ } : WeakPtr).block_ = some B := hw
      obtain ⟨h1, e1, i1⟩ := inv.heap.weakIncrease _ hw2
        (Nat.lt_of_lt_of_le (watchers_pos hmem hw) (Nat.le_add_left _ _)) (group_bound hb)
      refine ⟨{ s with heap := h1, weak := s.weak ++ [{ block_ := w.block_, ptr_ := w.ptr_ }] },
        by simp [step, hj, WeakPtr.copy, e1],
        ⟨inv.sharedForm, forall_mem_push inv.weakForm (Or.inl hw2), ?_⟩,
        by simp; omega, by simp, by rw [watchers_push]; omega,
        fun hh => by simp [Op.isSharedGroupOp] at hh, fun h0 => h0,
        fun h0 => absurd (watchers_pos hmem hw) (by omega)⟩
      simpa [watchers_push, watches_of hw2] using i1
    · have hw2 : ({ block_ := w.block_, ptr_ := w.ptr_ } : WeakPtr).block_ = none := hw
      refine ⟨{ s with weak := s.weak ++ [{ block_ := w.block_, ptr_ := w.ptr_ }] },
        by simp [step, hj, WeakPtr.copy, weak_increase_none hw2],
        ⟨inv.sharedForm, forall_mem_push inv.weakForm (Or.inr hw2), ?_⟩,
        by simp; omega, by simp, by rw [watchers_push]; omega,
        fun hh => by simp [Op.isSharedGroupOp] at hh, fun h0 => h0,
        fun h0 => by simp [watchers_push, watches_none hw2]; omega⟩
      simpa [watchers_push, watches_none hw2] using inv.heap

theorem step_weakMove {esft : Bool} {B p : Nat} {Q : Nat → Prop} {s : State} (j : Nat)
    (inv : GroupInv esft B p Q s) :
    StepOk esft B p Q s (.weakMove j) := by
  cases hj : s.weak[j]? with
  | none => exact StepOk.same inv (by simp [step, hj])
  | some w =>
    have hmem := List.getElem?_mem hj
    have hn : ({ block_ := none, ptr_ := none } : WeakPtr).block_ = none := rfl
    have hc := watchers_set B s.weak j { block_ := none, ptr_ := none } w hj
    rw [watches_none hn] at hc
    have hform : ({ block_ := w.block_, ptr_ := w.ptr_ } : WeakPtr).block_ = some B ∨
        ({ block_ := w.block_, ptr_ := w.ptr_ } : WeakPtr).block_ = none := inv.weakForm w hmem
    have hwt : watches B { block_ := w.block_, ptr_ := w.ptr_ } = watches B w := rfl
    have e : watchers B (s.weak.set j { block_ := none, ptr_ := none } ++
        [{ block_ := w.block_, ptr_ := w.ptr_ }]) = watchers B s.weak := by
      rw [watchers_push, hwt]; simp at hc; omega
    refine ⟨{ s with weak := s.weak.set j { block_ := none, ptr_ := none } ++
        [{ block_ := w.block_, ptr_ := w.ptr_ }] },
      by simp [step, hj, WeakPtr.move],
      ⟨inv.sharedForm, forall_mem_push (forall_mem_set j inv.weakForm (Or.inr hn)) hform, ?_⟩,
      by simp; omega, by simp, by rw [e]; omega,
      fun hh => by simp [Op.isSharedGroupOp] at hh, fun h0 => h0,
        fun h0 => by simp only [e]; omega⟩
    simpa [e] using inv.heap

theorem step_weakReset {esft : Bool} {B p : Nat} {Q : Nat → Prop} {s : State} (j : Nat)
    (inv : GroupInv esft B p Q s)
    (hb : s.shared.length + s.weak.length + 2 < SIZE_MOD) :
    StepOk esft B p Q s (.weakReset j) := by
  cases hj : s.weak[j]? with
  | none => exact StepOk.same inv (by simp [step, hj])
  | some w =>
    have hmem := List.getElem?_mem hj
    have hn : ({ w with block_ := none } : WeakPtr).block_ = none := rfl
    have hc := watchers_set B s.weak j { w with block_ := none } w hj
    rw [watches_none hn] at hc
    rcases inv.weakForm w hmem with hw | hw
    · obtain ⟨h1, e1, i1⟩ := inv.heap.weakDecrease w hw (watchers_pos hmem hw) (group_bound hb)
      rw [watches_of hw] at hc
      have e : watchers B (s.weak.set j { w with block_ := none }) = watchers B s.weak - 1 := by
        simp at hc; omega
      refine ⟨{ s with heap := h1, weak := s.weak.set j { w with block_ := none } },
        by simp [step, hj, WeakPtr.Reset, e1],
        ⟨inv.sharedForm, forall_mem_set j inv.weakForm (Or.inr hn), ?_⟩,
        by simp, by simp, by rw [e]; omega,
        fun hh => by simp [Op.isSharedGroupOp] at hh, fun h0 => h0,
        fun h0 => by simp only [e]; omega⟩
      simpa [e] using i1
    · rw [watches_none hw] at hc
      have e : watchers B (s.weak.set j { w with block_ := none }) = watchers B s.weak := by
        simp at hc; omega
      refine ⟨{ s with weak := s.weak.set j { w with block_ := none } },
        by simp [step, hj, WeakPtr.Reset, weak_decrease_none hw],
        ⟨inv.sharedForm, forall_mem_set j inv.weakForm (Or.inr hn), ?_⟩,
        by simp, by simp, by rw [e]; omega,
        fun hh => by simp [Op.isSharedGroupOp] at hh, fun h0 => h0,
        fun h0 => by simp only [e]; omega⟩
      simpa [e] using inv.heap

theorem step_weakDestroy {esft : Bool} {B p : Nat} {Q : Nat → Prop} {s : State} (j : Nat)
    (inv : GroupInv esft B p Q s)
    (hb : s.shared.length + s.weak.length + 2 < SIZE_MOD) :
    StepOk esft B p Q s (.weakDestroy j) := by
  cases hj : s.weak[j]? with
  | none => exact StepOk.same inv (by simp [step, hj])
  | some w =>
    have hmem := List.getElem?_mem hj
    have hlen := length_erase_le s.weak j
    have hc := watchers_erase B s.weak j w hj
    rcases inv.weakForm w hmem with hw | hw
    · obtain ⟨h1, e1, i1⟩ := inv.heap.weakDecrease w hw (watchers_pos hmem hw) (group_bound hb)
      rw [watches_of hw] at hc
      have e : watchers B (s.weak.eraseIdx j) = watchers B s.weak - 1 := by
        simp at hc; omega
      refine ⟨{ s with heap := h1, weak := s.weak.eraseIdx j },
        by simp [step, hj, WeakPtr.destroy, e1],
        ⟨inv.sharedForm, forall_mem_erase j inv.weakForm, ?_⟩,
        by simp only; omega, by simp, by rw [e]; omega,
        fun hh => by simp [Op.isSharedGroupOp] at hh, fun h0 => h0,
        fun h0 => by simp only [e]; omega⟩
      simpa [e] using i1
    · rw [watches_none hw] at hc
      have e : watchers B (s.weak.eraseIdx j) = watchers B s.weak := by
        simp at hc; omega
      refine ⟨{ s with weak := s.weak.eraseIdx j },
        by simp [step, hj, WeakPtr.destroy, weak_decrease_none hw],
        ⟨inv.sharedForm, forall_mem_erase j inv.weakForm, ?_⟩,
        by simp only; omega, by simp, by rw [e]; omega,
        fun hh => by simp [Op.isSharedGroupOp] at hh, fun h0 => h0,
        fun h0 => by simp only [e]; omega⟩
      simpa [e] using inv.heap

theorem step_sharedAlias {esft : Bool} {B p : Nat} {Q : Nat → Prop} {s : State} (i q : Nat)
    (inv : GroupInv esft B p Q s) (hq : Q q)
    (hsrc : ∀ x, s.shared[i]? = some x → x ≠ {})
    (hb : s.shared.length + s.weak.length + 2 < SIZE_MOD) :
    StepOk esft B p Q s (.sharedAlias i (some q)) := by
  cases hi : s.shared[i]? with
  | none => exact StepOk.same inv (by simp [step, hi])
  | some x =>
    have hmem := List.getElem?_mem hi
    rcases inv.sharedForm x hmem with ⟨q0, hq0, hx⟩ | hx
    · subst hx
      obtain ⟨h1, e1, i1⟩ := inv.heap.increase q (owners_pos hmem) (group_bound hb)
      simp only [member] at e1
      refine ⟨{ s with heap := h1, shared := s.shared ++ [member B q] },
        by simp [step, hi, SharedPtr.aliasing, member, e1],
        ⟨forall_mem_push inv.sharedForm (Or.inl ⟨q, hq, rfl⟩), inv.weakForm, ?_⟩,
        by simp; omega, by rw [owners_push]; omega, by simp, fun _ => rfl,
        fun h0 => absurd h0 (Nat.pos_iff_ne_zero.mp (owners_pos hmem)),
        fun h0 => show watchers B s.weak = 0 by omega⟩
      simpa [owners_push, owns_member] using i1
    · exact absurd hx (hsrc x hi)

theorem group_step {esft : Bool} {B p : Nat} {Q : Nat → Prop} {s : State} (op : Op)
    (inv : GroupInv esft B p Q s) (hop : op.isAliasGroupOp = true)
    (hsrc : SemPre esft B p Q s op)
    (hb : s.shared.length + s.weak.length + 2 < SIZE_MOD) : StepOk esft B p Q s op := by
  cases op <;> simp [Op.isAliasGroupOp, Op.isGroupOp, Op.isSharedGroupOp] at hop
  case sharedCopy i => exact step_sharedCopy i inv (hsrc.1 i (Or.inl rfl)) hb
  case sharedMove i => exact step_sharedMove i inv (hsrc.1 i (Or.inr rfl)) hb
  case sharedAlias i ptr =>
    obtain ⟨⟨q, hq, hQ⟩, hne⟩ := hsrc.2 i ptr rfl
    subst hq
    exact step_sharedAlias i q inv hQ hne hb
  case sharedReset i => exact step_sharedReset i inv hb
  case sharedDestroy i => exact step_sharedDestroy i inv hb
  case weakFromShared i => exact step_weakFromShared i inv hb
  case weakCopy j => exact step_weakCopy j inv hb
  case weakMove j => exact step_weakMove j inv
  case weakReset j => exact step_weakReset j inv hb
  case weakDestroy j => exact step_weakDestroy j inv hb

/-! ## Programs on a group -/

theorem start_inv (esft viaMake : Bool) (ptr : Nat) (Q : Nat → Prop)
    (hQ : Q (startObj viaMake ptr)) :
    ∃ s0, start esft viaMake ptr = .ok s0 ∧ GroupInv esft 0 (startObj viaMake ptr) Q s0 ∧
      s0.shared = [member 0 (startObj viaMake ptr)] ∧ s0.weak = [] := by
  have key : ∃ s0, start esft viaMake ptr = .ok s0 ∧
      s0.shared = [member 0 (startObj viaMake ptr)] ∧ s0.weak = [] ∧
      HeapAt esft 0 (startObj viaMake ptr) s0.heap 1 0 := by
    cases esft <;> cases viaMake <;>
      simp [start, step, MakeShared, SharedPtr.fromBlock, SharedPtr.fromRaw, Heap.alloc,
        Heap.empty, SharedPtr.bindSelf, WeakPtr.fromShared, WeakPtr.Increase, WeakPtr.moveAssign,
        WeakPtr.Decrease, Heap.deref, Heap.setBlock, Heap.setSelf, ControlBlock.init,
        ControlBlock.IncWeak, startObj, GetPointer, member] <;>
      constructor <;>
      simp [groupBlock, GetPointer, SIZE_MOD]
  obtain ⟨s0, e0, hs, hw, hh⟩ := key
  refine ⟨s0, e0, ⟨?_, ?_, ?_⟩, hs, hw⟩
  · intro x hx
    rw [hs] at hx
    simp at hx
    exact Or.inl ⟨_, hQ, hx⟩
  · intro w hw1
    rw [hw] at hw1
    simp at hw1
  · rw [hs, hw]
    simpa [owners, watchers, owns_member] using hh

theorem group_run {esft : Bool} {B p : Nat} {Q : Nat → Prop} (pre : State → Op → Bool)
    (allowed : Op → Bool) (hallowed : ∀ op, allowed op = true → op.isAliasGroupOp = true)
    (hpre : ∀ s op, allowed op = true → GroupInv esft B p Q s → pre s op = true →
      SemPre esft B p Q s op) :
    ∀ (ops : List Op) (s : State), GroupInv esft B p Q s →
      ops.all allowed = true → legal pre esft s ops = true →
      s.shared.length + s.weak.length + ops.length + 2 < SIZE_MOD →
      ∃ s1, run esft s ops = .ok s1 ∧ GroupInv esft B p Q s1 ∧
        s1.shared.length + s1.weak.length ≤ s.shared.length + s.weak.length + ops.length ∧
        (ops.all Op.isSharedGroupOp = true → s1.weak = s.weak) := by
  intro ops
  induction ops with
  | nil => intro s inv _ _ _; exact ⟨s, rfl, inv, by simp, fun _ => rfl⟩
  | cons op rest ih =>
    intro s inv hops hleg hb
    simp only [List.all_cons, Bool.and_eq_true] at hops
    simp only [legal, Bool.and_eq_true] at hleg
    simp only [List.length_cons] at hb
    obtain ⟨s1, e1, i1, hl1, _, _, hw1, _, _⟩ :=
      group_step op inv (hallowed op hops.1) (hpre s op hops.1 inv hleg.1) (by omega)
    have hleg2 : legal pre esft s1 rest = true := by simpa [e1] using hleg.2
    obtain ⟨s2, e2, i2, hl2, hw2⟩ := ih s1 i1 hops.2 hleg2 (by omega)
    refine ⟨s2, by simp [run, e1, e2], i2, by simp only [List.length_cons]; omega, ?_⟩
    intro hall
    simp only [List.all_cons, Bool.and_eq_true] at hall
    rw [hw2 hall.2, hw1 hall.1]

theorem legal_split (pre : State → Op → Bool) (esft : Bool) (more : List Op) :
    ∀ (ops : List Op) (s : State), legal pre esft s (ops ++ more) = true →
      legal pre esft s ops = true ∧
        ∀ s1, run esft s ops = .ok s1 → legal pre esft s1 more = true := by
  intro ops
  induction ops with
  | nil => intro s h; exact ⟨rfl, fun s1 h1 => by simp [run] at h1; subst h1; simpa using h⟩
  | cons op rest ih =>
    intro s h
    simp only [List.cons_append, legal, Bool.and_eq_true] at h
    cases hs : step esft s op with
    | error e => simp [legal, run, hs, h.1]
    | ok s1 =>
      rw [hs] at h
      obtain ⟨a, b⟩ := ih s1 h.2
      exact ⟨by simp [legal, hs, h.1, a], fun s2 h2 => b s2 (by simpa [run, hs] using h2)⟩

theorem srcOk_sem {esft : Bool} {B p : Nat} (s : State) (op : Op)
    (inv : GroupInv esft B p (fun q => q = p) s) (hop : op.isGroupOp = true)
    (h : op.srcOk esft s = true) : SemPre esft B p (fun q => q = p) s op := by
  constructor
  · intro i hi he x hx
    rcases inv.sharedForm x (List.getElem?_mem hx) with ⟨q, hq, hxq⟩ | hxe
    · rw [hxq, hq]
    · subst hxe
      rcases hi with hi | hi <;> subst hi <;> simp [Op.srcOk, he, hx] at h
  · intro i ptr hi
    subst hi
    simp [Op.isGroupOp, Op.isSharedGroupOp] at hop

theorem aliasOk_sem {esft : Bool} {B p : Nat} (s : State) (op : Op)
    (inv : GroupInv esft B p (fun _ => True) s)
    (h : op.aliasOk esft s = true) : SemPre esft B p (fun _ => True) s op := by
  constructor
  · intro i hi he x hx
    have hmem := List.getElem?_mem hx
    have hobs : x.observesOwned s.heap = true := by
      rcases hi with hi | hi <;> subst hi <;> simpa [Op.aliasOk, he, hx] using h
    rcases inv.sharedForm x hmem with ⟨q, _, hxq⟩ | hxe
    · subst hxq
      have hpos : ¬ (owners B s.shared + watchers B s.weak = 0) := by
        have := owners_pos hmem; omega
      have hblk := inv.heap.blk
      simp only [groupBlock, hpos, if_false] at hblk
      simp [SharedPtr.observesOwned, member, hblk] at hobs
      rw [hobs]
    · subst hxe
      simp [SharedPtr.observesOwned] at hobs
  · intro i ptr hi
    subst hi
    simp only [Op.aliasOk, Bool.and_eq_true] at h
    refine ⟨?_, ?_⟩
    · cases ptr with
      | none => simp at h
      | some q => exact ⟨q, rfl, trivial⟩
    · intro x hx hxe
      subst hxe
      simp [hx] at h

theorem shared_is_group (op : Op) (h : op.isSharedGroupOp = true) : op.isGroupOp = true := by
  cases op <;> simp [Op.isGroupOp, Op.isSharedGroupOp] at h ⊢

theorem group_is_alias (op : Op) (h : op.isGroupOp = true) : op.isAliasGroupOp = true := by
  cases op <;> simp [Op.isAliasGroupOp, Op.isGroupOp, Op.isSharedGroupOp] at h ⊢

theorem strongOf_group {esft : Bool} {B p : Nat} {h : Heap} {n m : Nat}
    (hh : HeapAt esft B p h n m) (hn : 0 < n + m) : strongOf h B = some n := by
  have : ¬ (n + m = 0) := by omega
  simp [strongOf, hh.blk, groupBlock, this, ControlBlock.GetStrongCounter]

theorem weakOf_group {esft : Bool} {B p : Nat} {h : Heap} {n m : Nat}
    (hh : HeapAt esft B p h n m) (hn : 0 < n + m) :
    weakOf h B = some (m + (if esft = true ∧ 0 < n then 1 else 0)) := by
  have : ¬ (n + m = 0) := by omega
  simp [weakOf, hh.blk, groupBlock, this, ControlBlock.GetWeakCounter]

/-- C1. A group of `SharedPtr` handles created by `SharedPtr(T*)` (non-null
pointer) or `MakeShared`, under any sequence of copy constructions, move
constructions, `Reset()` and destructions: the program runs without fault; in
every state reached `DeleteObject()` of the block has been called once if no
handle owns the block any more and not at all otherwise, and the strong counter
is the number of owning handles; and every further operation either calls
`DeleteObject()` exactly once, taking the strong counter from `1` to no owner
left, or does not call it and does not release the last owner. -/
theorem shared_group_deletes_object_once (esft viaMake : Bool) (ptr : Nat)
    (ops : List Op) (op : Op)
    (hops : (ops ++ [op]).all Op.isSharedGroupOp = true)
    (hlegal : legalProgram (Op.srcOk esft) esft viaMake ptr (ops ++ [op]) = true)
    (hlen : ops.length + 4 < SIZE_MOD) :
    ∃ s0 s s1, start esft viaMake ptr = .ok s0 ∧
      s0.shared = [member 0 (startObj viaMake ptr)] ∧
      run esft s0 ops = .ok s ∧ step esft s op = .ok s1 ∧
      s.heap.deleteObjectCalls 0 = (if owners 0 s.shared = 0 then 1 else 0) ∧
      (0 < owners 0 s.shared → strongOf s.heap 0 = some (owners 0 s.shared)) ∧
      ((s1.heap.deleteObjectCalls 0 = s.heap.deleteObjectCalls 0 + 1 ∧
          strongOf s.heap 0 = some 1 ∧ owners 0 s1.shared = 0) ∨
       (s1.heap.deleteObjectCalls 0 = s.heap.deleteObjectCalls 0 ∧
          (owners 0 s1.shared = 0 → owners 0 s.shared = 0))) := by
  obtain ⟨s0, e0, i0, hs0, hw0⟩ :=
    start_inv esft viaMake ptr (fun q => q = startObj viaMake ptr) rfl
  simp only [legalProgram, e0] at hlegal
  obtain ⟨hl1, hl2⟩ := legal_split (Op.srcOk esft) esft [op] ops s0 hlegal
  simp only [List.all_append, Bool.and_eq_true] at hops
  have hlen0 : s0.shared.length + s0.weak.length = 1 := by simp [hs0, hw0]
  obtain ⟨s, e1, i1, hb1, _⟩ := group_run (Op.srcOk esft) Op.isSharedGroupOp
    (fun o ho => group_is_alias o (shared_is_group o ho))
    (fun s o ho inv h => srcOk_sem s o inv (shared_is_group o ho) h)
    ops s0 i0 hops.1 hl1 (by omega)
  have hl3 := hl2 s e1
  simp only [legal, Bool.and_eq_true] at hl3
  have hop : op.isSharedGroupOp = true := by simpa using hops.2
  obtain ⟨s1, e2, i2, _, hown, _, _, hrev, _⟩ :=
    group_step op i1 (group_is_alias op (shared_is_group op hop))
      (srcOk_sem s op i1 (shared_is_group op hop) hl3.1) (by omega)
  refine ⟨s0, s, s1, e0, hs0, e1, e2, i1.heap.calls, ?_, ?_⟩
  · intro hn; exact strongOf_group i1.heap (by omega)
  · rw [i1.heap.calls, i2.heap.calls]
    by_cases h1 : owners 0 s1.shared = 0
    · by_cases h0 : owners 0 s.shared = 0
      · right; simp [h0, h1]
      · left
        have : owners 0 s.shared = 1 := by omega
        refine ⟨by simp [h0, h1], ?_, h1⟩
        rw [strongOf_group i1.heap (by omega), this]
    · right
      have h0 : ¬ (owners 0 s.shared = 0) := fun h => h1 (hrev h)
      simp [h0, h1]

theorem shared_group_deletes_object_once_witness :
    (([Op.sharedCopy 0, Op.sharedMove 1, Op.sharedDestroy 0] ++ [Op.sharedDestroy 1]).all
        Op.isSharedGroupOp = true ∧
      legalProgram (Op.srcOk true) true false 7
        ([Op.sharedCopy 0, Op.sharedMove 1, Op.sharedDestroy 0] ++ [Op.sharedDestroy 1]) = true ∧
      [Op.sharedCopy 0, Op.sharedMove 1, Op.sharedDestroy 0].length + 4 < SIZE_MOD) ∧
    ∃ s0 s s1, start true false 7 = .ok s0 ∧
      s0.shared = [member 0 (startObj false 7)] ∧
      run true s0 [Op.sharedCopy 0, Op.sharedMove 1, Op.sharedDestroy 0] = .ok s ∧
      step true s (Op.sharedDestroy 1) = .ok s1 ∧
      s.heap.deleteObjectCalls 0 = (if owners 0 s.shared = 0 then 1 else 0) ∧
      (0 < owners 0 s.shared → strongOf s.heap 0 = some (owners 0 s.shared)) ∧
      ((s1.heap.deleteObjectCalls 0 = s.heap.deleteObjectCalls 0 + 1 ∧
          strongOf s.heap 0 = some 1 ∧ owners 0 s1.shared = 0) ∨
       (s1.heap.deleteObjectCalls 0 = s.heap.deleteObjectCalls 0 ∧
          (owners 0 s1.shared = 0 → owners 0 s.shared = 0))) :=
  ⟨⟨by decide, by decide, by decide⟩,
    shared_group_deletes_object_once true false 7
      [Op.sharedCopy 0, Op.sharedMove 1, Op.sharedDestroy 0] (Op.sharedDestroy 1)
      (by decide) (by decide) (by decide)⟩

/-- C2 (counterexample). A control block built by `SharedPtr(T*)` from a null
pointer: the handle observes `nullptr` and is not counted, so its destruction
leaves the block alive with strong counter `1`; with a copy and a `WeakPtr`
too, after every handle has been released the block has not been deleted. -/
theorem null_pointer_block_counterexample :
    snapshot 0 (run false emptyState [Op.sharedFromRaw none]) =
      .ok { shared := [{ block_ := some 0, ptr_ := none }], weak := [],
            strong := some 1, weakCount := some 0, deleteObjectCalls := 0, blockDeletes := 0 } ∧
    snapshot 0 (run false emptyState [Op.sharedFromRaw none, Op.sharedDestroy 0]) =
      .ok { shared := [], weak := [],
            strong := some 1, weakCount := some 0, deleteObjectCalls := 0, blockDeletes := 0 } ∧
    snapshot 0 (run false emptyState
        [Op.sharedFromRaw none, Op.weakFromShared 0, Op.sharedCopy 0, Op.sharedDestroy 1,
         Op.sharedDestroy 0, Op.weakDestroy 0]) =
      .ok { shared := [], weak := [],
            strong := some 1, weakCount := some 0, deleteObjectCalls := 0, blockDeletes := 0 } := by
  refine ⟨rfl, rfl, rfl⟩

/-- C2 (amended). A group of `SharedPtr` and `WeakPtr` handles on one control
block, started by `SharedPtr(T*)` with a non-null pointer or by `MakeShared`,
under any sequence of `SharedPtr` copy/move construction, `Reset()`,
destruction and `WeakPtr` construction from a `SharedPtr`, copy, move,
`Reset()`, destruction: the program runs without fault; in every state reached
the block has been deleted once if no strong and no weak handle is left and
not at all otherwise; a deleted block has had its `DeleteObject()` called and
has no weak handle left; a block with a handle left is alive and its counters
are the numbers of handles (the weak one also counts the bound `self_`); and
every further operation either deletes the block exactly once, being the one
that releases the last handle, or does not delete it and does not release the
last handle. -/
theorem control_block_deleted_once (esft viaMake : Bool) (ptr : Nat)
    (ops : List Op) (op : Op)
    (hops : (ops ++ [op]).all Op.isGroupOp = true)
    (hlegal : legalProgram (Op.srcOk esft) esft viaMake ptr (ops ++ [op]) = true)
    (hlen : ops.length + 4 < SIZE_MOD) :
    ∃ s0 s s1, start esft viaMake ptr = .ok s0 ∧
      s0.shared = [member 0 (startObj viaMake ptr)] ∧ s0.weak = [] ∧
      run esft s0 ops = .ok s ∧ step esft s op = .ok s1 ∧
      s.heap.blockDeletes 0 = (if owners 0 s.shared + watchers 0 s.weak = 0 then 1 else 0) ∧
      (s.heap.blockDeletes 0 = 1 →
        s.heap.deleteObjectCalls 0 = 1 ∧ watchers 0 s.weak = 0 ∧ s.heap.blocks 0 = none) ∧
      (0 < owners 0 s.shared + watchers 0 s.weak →
        strongOf s.heap 0 = some (owners 0 s.shared) ∧
        weakOf s.heap 0 = some (watchers 0 s.weak +
          (if esft = true ∧ 0 < owners 0 s.shared then 1 else 0))) ∧
      ((s1.heap.blockDeletes 0 = s.heap.blockDeletes 0 + 1 ∧
          0 < owners 0 s.shared + watchers 0 s.weak ∧
          owners 0 s1.shared + watchers 0 s1.weak = 0 ∧
          s1.heap.deleteObjectCalls 0 = 1 ∧ s1.heap.blocks 0 = none) ∨
       (s1.heap.blockDeletes 0 = s.heap.blockDeletes 0 ∧
          (owners 0 s1.shared + watchers 0 s1.weak = 0 →
            owners 0 s.shared + watchers 0 s.weak = 0))) := by
  obtain ⟨s0, e0, i0, hs0, hw0⟩ :=
    start_inv esft viaMake ptr (fun q => q = startObj viaMake ptr) rfl
  simp only [legalProgram, e0] at hlegal
  obtain ⟨hl1, hl2⟩ := legal_split (Op.srcOk esft) esft [op] ops s0 hlegal
  simp only [List.all_append, Bool.and_eq_true] at hops
  have hlen0 : s0.shared.length + s0.weak.length = 1 := by simp [hs0, hw0]
  obtain ⟨s, e1, i1, hb1, _⟩ := group_run (Op.srcOk esft) Op.isGroupOp
    (fun o ho => group_is_alias o ho)
    (fun s o ho inv h => srcOk_sem s o inv ho h)
    ops s0 i0 hops.1 hl1 (by omega)
  have hl3 := hl2 s e1
  simp only [legal, Bool.and_eq_true] at hl3
  have hop : op.isGroupOp = true := by simpa using hops.2
  obtain ⟨s1, e2, i2, _, _, _, _, hrev, hrevw⟩ :=
    group_step op i1 (group_is_alias op hop) (srcOk_sem s op i1 hop hl3.1) (by omega)
  have hd := i1.heap.deletes
  have hd1 := i2.heap.deletes
  have hblk1 := i2.heap.blk
  have hc1 := i2.heap.calls
  refine ⟨s0, s, s1, e0, hs0, hw0, e1, e2, hd, ?_, ?_, ?_⟩
  · intro h1
    have h0 : owners 0 s.shared + watchers 0 s.weak = 0 := by
      by_contra hne; simp [hne] at hd; omega
    have hn : owners 0 s.shared = 0 := by omega
    refine ⟨by simp [i1.heap.calls, hn], by omega, ?_⟩
    simp [i1.heap.blk, groupBlock, h0]
  · intro hpos
    exact ⟨strongOf_group i1.heap hpos, weakOf_group i1.heap hpos⟩
  · rw [hd, hd1]
    by_cases h1 : owners 0 s1.shared + watchers 0 s1.weak = 0
    · by_cases h0 : owners 0 s.shared + watchers 0 s.weak = 0
      · right; simp [h0, h1]
      · left
        have hn1 : owners 0 s1.shared = 0 := by omega
        refine ⟨by simp [h0, h1], by omega, h1, by simp [hc1, hn1], ?_⟩
        simp [hblk1, groupBlock, h1]
    · right
      have h0 : ¬ (owners 0 s.shared + watchers 0 s.weak = 0) := by
        intro h
        have a := hrev (by omega)
        have b := hrevw h
        omega
      simp [h0, h1]

theorem control_block_deleted_once_witness :
    (([Op.weakFromShared 0, Op.sharedCopy 0, Op.sharedDestroy 0, Op.sharedReset 0] ++
        [Op.weakDestroy 0]).all Op.isGroupOp = true ∧
      legalProgram (Op.srcOk true) true true 0
        ([Op.weakFromShared 0, Op.sharedCopy 0, Op.sharedDestroy 0, Op.sharedReset 0] ++
          [Op.weakDestroy 0]) = true ∧
      [Op.weakFromShared 0, Op.sharedCopy 0, Op.sharedDestroy 0, Op.sharedReset 0].length + 4
        < SIZE_MOD) ∧
    ∃ s0 s s1, start true true 0 = .ok s0 ∧
      s0.shared = [member 0 (startObj true 0)] ∧ s0.weak = [] ∧
      run true s0 [Op.weakFromShared 0, Op.sharedCopy 0, Op.sharedDestroy 0, Op.sharedReset 0]
        = .ok s ∧
      step true s (Op.weakDestroy 0) = .ok s1 ∧
      s.heap.blockDeletes 0 = (if owners 0 s.shared + watchers 0 s.weak = 0 then 1 else 0) ∧
      (s.heap.blockDeletes 0 = 1 →
        s.heap.deleteObjectCalls 0 = 1 ∧ watchers 0 s.weak = 0 ∧ s.heap.blocks 0 = none) ∧
      (0 < owners 0 s.shared + watchers 0 s.weak →
        strongOf s.heap 0 = some (owners 0 s.shared) ∧
        weakOf s.heap 0 = some (watchers 0 s.weak +
          (if true = true ∧ 0 < owners 0 s.shared then 1 else 0))) ∧
      ((s1.heap.blockDeletes 0 = s.heap.blockDeletes 0 + 1 ∧
          0 < owners 0 s.shared + watchers 0 s.weak ∧
          owners 0 s1.shared + watchers 0 s1.weak = 0 ∧
          s1.heap.deleteObjectCalls 0 = 1 ∧ s1.heap.blocks 0 = none) ∨
       (s1.heap.blockDeletes 0 = s.heap.blockDeletes 0 ∧
          (owners 0 s1.shared + watchers 0 s1.weak = 0 →
            owners 0 s.shared + watchers 0 s.weak = 0))) :=
  ⟨⟨by decide, by decide, by decide⟩,
    control_block_deleted_once true true 0
      [Op.weakFromShared 0, Op.sharedCopy 0, Op.sharedDestroy 0, Op.sharedReset 0]
      (Op.weakDestroy 0) (by decide) (by decide) (by decide)⟩

/-! ## Promotion and aliasing -/

theorem expired_false_block {w : WeakPtr} {h : Heap} (he : w.Expired h = .ok false) :
    ∃ B cb, w.block_ = some B ∧ h.blocks B = some cb ∧ cb.strong_counter_ ≠ 0 := by
  unfold WeakPtr.Expired at he
  cases hb : w.block_ with
  | none => simp [hb] at he
  | some B =>
    cases hc : h.blocks B with
    | none => simp [hb, Heap.deref, hc] at he
    | some cb =>
      simp [hb, Heap.deref, hc, ControlBlock.GetStrongCounter] at he
      exact ⟨B, cb, rfl, hc, he⟩

/-- C3. For a `WeakPtr` with `Expired() == true`, `Lock()` returns the empty
`SharedPtr` (`Get()` null, `UseCount()` zero) and leaves the heap, hence every
counter, as it is, and the promoting constructor throws `BadWeakPtr`; for a
`WeakPtr` with `Expired() == false` the promoting constructor returns a handle. -/
theorem expired_promotion (w : WeakPtr) (h : Heap) :
    (w.Expired h = .ok true →
      w.Lock h = .ok ({}, h) ∧ SharedPtr.Get {} = none ∧ SharedPtr.UseCount {} h = .ok 0 ∧
      SharedPtr.promote w h = .error .BadWeakPtr) ∧
    (w.Expired h = .ok false → ∃ r, SharedPtr.promote w h = .ok r) := by
  constructor
  · intro he
    refine ⟨by simp [WeakPtr.Lock, he], rfl, rfl, by simp [SharedPtr.promote, he]⟩
  · intro he
    obtain ⟨B, cb, hb, hc, _⟩ := expired_false_block he
    cases hp : w.ptr_ with
    | none => exact ⟨_, by simp [SharedPtr.promote, he, SharedPtr.Increase, hp]; rfl⟩
    | some q =>
      exact ⟨_, by simp [SharedPtr.promote, he, SharedPtr.Increase, hp, hb, Heap.deref, hc]; rfl⟩

theorem expired_promotion_witness :
    (WeakPtr.Expired {} Heap.empty = .ok true ∧
      WeakPtr.Lock {} Heap.empty = .ok ({}, Heap.empty) ∧
      SharedPtr.promote {} Heap.empty = .error .BadWeakPtr) ∧
    (WeakPtr.Expired { block_ := some 0, ptr_ := some 7 } oneBlockHeap = .ok false ∧
      ∃ r, SharedPtr.promote { block_ := some 0, ptr_ := some 7 } oneBlockHeap = .ok r) :=
  ⟨⟨rfl, ((expired_promotion {} Heap.empty).1 rfl).1,
      ((expired_promotion {} Heap.empty).1 rfl).2.2.2⟩,
    ⟨rfl, (expired_promotion { block_ := some 0, ptr_ := some 7 } oneBlockHeap).2 rfl⟩⟩

theorem builtFrom_fields {s : SharedPtr} {w : WeakPtr} (hb : BuiltFrom s w) :
    w.block_ = s.block_ ∧ w.ptr_ = s.ptr_ := by
  induction hb with
  | direct h w h1 e =>
    cases hi : WeakPtr.Increase { block_ := s.block_, ptr_ := s.ptr_ } h with
    | error x => simp [WeakPtr.fromShared, hi] at e
    | ok h2 => simp [WeakPtr.fromShared, hi] at e; rw [← e.1]; exact ⟨rfl, rfl⟩
  | copy w h w1 h1 _ e ih =>
    cases hi : WeakPtr.Increase { block_ := w.block_, ptr_ := w.ptr_ } h with
    | error x => simp [WeakPtr.copy, hi] at e
    | ok h2 => simp [WeakPtr.copy, hi] at e; rw [← e.1]; exact ih
  | move w _ ih => exact ih
  | copyAssign w self h w1 h1 _ e ih =>
    cases hd : WeakPtr.Decrease self h with
    | error x => simp [WeakPtr.copyAssign, hd] at e
    | ok h2 =>
      cases hi : WeakPtr.Increase { block_ := w.block_, ptr_ := w.ptr_ } h2 with
      | error x => simp [WeakPtr.copyAssign, hd, hi] at e
      | ok h3 => simp [WeakPtr.copyAssign, hd, hi] at e; rw [← e.1]; exact ih
  | moveAssign w self h w1 o h1 _ e ih =>
    cases hd : WeakPtr.Decrease self h with
    | error x => simp [WeakPtr.moveAssign, hd] at e
    | ok h2 => simp [WeakPtr.moveAssign, hd] at e; rw [← e.1]; exact ih

/-- C4 (counterexample). A `SharedPtr` `s` aliasing a live block with a null
observed pointer, `w = WeakPtr(s)`: `w` is not expired (strong counter `1`) and
after `w.Lock()` the strong counter is still `1`. -/
theorem lock_counter_counterexample :
    snapshot 0 (runProgram false false 7 [Op.sharedAlias 0 none, Op.weakFromShared 1]) =
      .ok { shared := [member 0 7, { block_ := some 0, ptr_ := none }],
            weak := [{ block_ := some 0, ptr_ := none }],
            strong := some 1, weakCount := some 1, deleteObjectCalls := 0, blockDeletes := 0 } ∧
    snapshot 0 (runProgram false false 7
        [Op.sharedAlias 0 none, Op.weakFromShared 1, Op.lock 0]) =
      .ok { shared := [member 0 7, { block_ := some 0, ptr_ := none },
                       { block_ := some 0, ptr_ := none }],
            weak := [{ block_ := some 0, ptr_ := none }],
            strong := some 1, weakCount := some 1, deleteObjectCalls := 0, blockDeletes := 0 } := by
  constructor <;> rfl

/-- C4 (amended). A non-expired `WeakPtr` `w` built from a `SharedPtr` `s`
directly or through `WeakPtr` copies, moves and assignments holds a live block;
if the observed pointer of `s` is not null, `w.Lock()` returns a handle with
the block of `s` and of `w` and with `Get()` equal to that of `s`, and the
strong counter of the block becomes one greater (modulo `2 ^ 64`) while the
weak counter stays; if the observed pointer of `s` is null, `w.Lock()` returns
a handle on the same block with a null `Get()` and changes nothing. -/
theorem lock_round_trip (s : SharedPtr) (w : WeakPtr) (h : Heap)
    (hb : BuiltFrom s w) (he : w.Expired h = .ok false) :
    ∃ B cb, w.block_ = some B ∧ h.blocks B = some cb ∧
      (s.ptr_ ≠ none → ∃ p h1, w.Lock h = .ok (p, h1) ∧
        p.block_ = s.block_ ∧ p.block_ = w.block_ ∧ p.Get = s.Get ∧
        strongOf h1 B = some ((cb.strong_counter_ + 1) % SIZE_MOD) ∧
        (cb.strong_counter_ + 1 < SIZE_MOD → strongOf h1 B = some (cb.strong_counter_ + 1)) ∧
        weakOf h1 B = some cb.weak_counter_) ∧
      (s.ptr_ = none → w.Lock h = .ok ({ block_ := w.block_, ptr_ := none }, h)) := by
  obtain ⟨B, cb, hB, hc, _⟩ := expired_false_block he
  obtain ⟨f1, f2⟩ := builtFrom_fields hb
  refine ⟨B, cb, hB, hc, ?_, ?_⟩
  · intro hne
    obtain ⟨q, hq⟩ := Option.ne_none_iff_exists'.mp hne
    have hwq : w.ptr_ = some q := by rw [f2, hq]
    refine ⟨{ block_ := w.block_, ptr_ := w.ptr_ }, h.setBlock B cb.IncStrong, ?_, f1, rfl,
      by simp [SharedPtr.Get, f2], ?_, ?_, ?_⟩
    · simp [WeakPtr.Lock, he, SharedPtr.promote, SharedPtr.Increase, hwq, hB, Heap.deref, hc]
    · simp [strongOf, Heap.setBlock, ControlBlock.IncStrong, ControlBlock.GetStrongCounter]
    · intro hlt
      simp [strongOf, Heap.setBlock, ControlBlock.IncStrong, ControlBlock.GetStrongCounter,
        Nat.mod_eq_of_lt hlt]
    · simp [weakOf, Heap.setBlock, ControlBlock.IncStrong, ControlBlock.GetWeakCounter]
  · intro hn
    have hwq : w.ptr_ = none := by rw [f2, hn]
    simp [WeakPtr.Lock, he, SharedPtr.promote, SharedPtr.Increase, hwq]

theorem lock_round_trip_witness :
    (BuiltFrom (member 0 7) { block_ := some 0, ptr_ := some 7 } ∧
      WeakPtr.Expired { block_ := some 0, ptr_ := some 7 } oneBlockHeap = .ok false) ∧
    ∃ B cb, ({ block_ := some 0, ptr_ := some 7 } : WeakPtr).block_ = some B ∧
      oneBlockHeap.blocks B = some cb ∧
      ((member 0 7).ptr_ ≠ none → ∃ p h1,
        WeakPtr.Lock { block_ := some 0, ptr_ := some 7 } oneBlockHeap = .ok (p, h1) ∧
        p.block_ = (member 0 7).block_ ∧
        p.block_ = ({ block_ := some 0, ptr_ := some 7 } : WeakPtr).block_ ∧
        p.Get = (member 0 7).Get ∧
        strongOf h1 B = some ((cb.strong_counter_ + 1) % SIZE_MOD) ∧
        (cb.strong_counter_ + 1 < SIZE_MOD → strongOf h1 B = some (cb.strong_counter_ + 1)) ∧
        weakOf h1 B = some cb.weak_counter_) ∧
      ((member 0 7).ptr_ = none →
        WeakPtr.Lock { block_ := some 0, ptr_ := some 7 } oneBlockHeap =
          .ok ({ block_ := ({ block_ := some 0, ptr_ := some 7 } : WeakPtr).block_,
                 ptr_ := none }, oneBlockHeap)) :=
  ⟨⟨BuiltFrom.direct oneBlockHeap _ _ rfl, rfl⟩,
    lock_round_trip (member 0 7) { block_ := some 0, ptr_ := some 7 } oneBlockHeap
      (BuiltFrom.direct oneBlockHeap _ _ rfl) rfl⟩

/-- C5 (counterexample). The aliasing constructor called with a null pointer on
the only handle of a live block: the new handle has the block and a null
`Get()`, and the strong counter is `1` as before. Called with a non-null
pointer on an empty handle, it goes through the null `block_` and returns no
handle. -/
theorem aliasing_null_counterexample :
    snapshot 0 (runProgram false false 7 []) =
      .ok { shared := [member 0 7], weak := [],
            strong := some 1, weakCount := some 0, deleteObjectCalls := 0, blockDeletes := 0 } ∧
    snapshot 0 (runProgram false false 7 [Op.sharedAlias 0 none]) =
      .ok { shared := [member 0 7, { block_ := some 0, ptr_ := none }], weak := [],
            strong := some 1, weakCount := some 0, deleteObjectCalls := 0, blockDeletes := 0 } ∧
    SharedPtr.aliasing {} (some 9) Heap.empty = .error .nullDeref := by
  refine ⟨rfl, rfl, rfl⟩

/-- C5 (amended). The aliasing constructor `SharedPtr(other, ptr)`: for a null
`ptr` the new handle has the block of `other` and a null `Get()`, and the heap,
hence every counter, is unchanged; for a non-null `ptr` and an `other` whose
block is alive the new handle has the block of `other` and `Get() == ptr`, the
strong counter of the block becomes one greater (modulo `2 ^ 64`), its weak
counter and every other block stay as they are. -/
theorem aliasing_construction (other : SharedPtr) (ptr : Option Nat) (h : Heap) :
    (ptr = none →
      SharedPtr.aliasing other ptr h = .ok ({ block_ := other.block_, ptr_ := none }, h)) ∧
    (∀ q B cb, ptr = some q → other.block_ = some B → h.blocks B = some cb →
      ∃ a h1, SharedPtr.aliasing other ptr h = .ok (a, h1) ∧
        a.block_ = other.block_ ∧ a.Get = some q ∧
        strongOf h1 B = some ((cb.strong_counter_ + 1) % SIZE_MOD) ∧
        (cb.strong_counter_ + 1 < SIZE_MOD → strongOf h1 B = some (cb.strong_counter_ + 1)) ∧
        weakOf h1 B = some cb.weak_counter_ ∧
        ∀ x, x ≠ B → h1.blocks x = h.blocks x) := by
  constructor
  · intro hp
    subst hp
    simp [SharedPtr.aliasing, SharedPtr.Increase]
  · intro q B cb hp hb hc
    subst hp
    refine ⟨{ block_ := other.block_, ptr_ := some q }, h.setBlock B cb.IncStrong, ?_, rfl, rfl,
      ?_, ?_, ?_, ?_⟩
    · simp [SharedPtr.aliasing, SharedPtr.Increase, hb, Heap.deref, hc]
    · simp [strongOf, Heap.setBlock, ControlBlock.IncStrong, ControlBlock.GetStrongCounter]
    · intro hlt
      simp [strongOf, Heap.setBlock, ControlBlock.IncStrong, ControlBlock.GetStrongCounter,
        Nat.mod_eq_of_lt hlt]
    · simp [weakOf, Heap.setBlock, ControlBlock.IncStrong, ControlBlock.GetWeakCounter]
    · intro x hx
      simp [Heap.setBlock, hx]

theorem aliasing_construction_witness :
    ((some 9 : Option Nat) = some 9 ∧ (member 0 7).block_ = some 0 ∧
      oneBlockHeap.blocks 0 = some (ControlBlock.init (some 7) false)) ∧
    ∃ a h1, SharedPtr.aliasing (member 0 7) (some 9) oneBlockHeap = .ok (a, h1) ∧
      a.block_ = (member 0 7).block_ ∧ a.Get = some 9 ∧
      strongOf h1 0 = some (((ControlBlock.init (some 7) false).strong_counter_ + 1) % SIZE_MOD) ∧
      ((ControlBlock.init (some 7) false).strong_counter_ + 1 < SIZE_MOD →
        strongOf h1 0 = some ((ControlBlock.init (some 7) false).strong_counter_ + 1)) ∧
      weakOf h1 0 = some (ControlBlock.init (some 7) false).weak_counter_ ∧
      ∀ x, x ≠ 0 → h1.blocks x = oneBlockHeap.blocks x :=
  ⟨⟨rfl, rfl, rfl⟩,
    (aliasing_construction (member 0 7) (some 9) oneBlockHeap).2 9 0
      (ControlBlock.init (some 7) false) rfl rfl rfl⟩

theorem getElem?_push_keep {α : Type} (l : List α) (y x : α) (k : Nat)
    (h : l[k]? = some x) : (l ++ [y])[k]? = some x := by
  have hk : k < l.length := (List.getElem?_eq_some.mp h).1
  rw [List.getElem?_append_left hk]; exact h

/-- One operation of a group program leaves the handle of a followed variable
as it is. -/
theorem track_step {esft : Bool} {s s1 : State} (op : Op) (k k1 : Nat) (x : SharedPtr)
    (hop : op.isAliasGroupOp = true) (e : step esft s op = .ok s1)
    (ht : op.track k = some k1) (hx : s.shared[k]? = some x) : s1.shared[k1]? = some x := by
  cases op with
  | sharedCopy i =>
    simp only [Op.track, Option.some.injEq] at ht
    subst ht
    cases hi : s.shared[i]? with
    | none => simp [step, hi] at e; rw [← e]; exact hx
    | some src =>
      cases hc : SharedPtr.copy esft src s.heap with
      | error err => simp [step, hi, hc] at e
      | ok r => simp [step, hi, hc] at e; rw [← e]; exact getElem?_push_keep _ _ _ _ hx
  | sharedAlias i ptr =>
    simp only [Op.track, Option.some.injEq] at ht
    subst ht
    cases hi : s.shared[i]? with
    | none => simp [step, hi] at e; rw [← e]; exact hx
    | some src =>
      cases hc : SharedPtr.aliasing src ptr s.heap with
      | error err => simp [step, hi, hc] at e
      | ok r => simp [step, hi, hc] at e; rw [← e]; exact getElem?_push_keep _ _ _ _ hx
  | sharedMove i =>
    by_cases hik : i = k
    · simp [Op.track, hik] at ht
    · simp only [Op.track, hik, if_false, Option.some.injEq] at ht
      subst ht
      cases hi : s.shared[i]? with
      | none => simp [step, hi] at e; rw [← e]; exact hx
      | some src =>
        cases hc : SharedPtr.move esft src s.heap with
        | error err => simp [step, hi, hc] at e
        | ok r =>
          simp [step, hi, hc] at e; rw [← e]
          exact getElem?_push_keep _ _ _ _ (by simp [List.getElem?_set_ne hik, hx])
  | sharedReset i =>
    by_cases hik : i = k
    · simp [Op.track, hik] at ht
    · simp only [Op.track, hik, if_false, Option.some.injEq] at ht
      subst ht
      cases hi : s.shared[i]? with
      | none => simp [step, hi] at e; rw [← e]; exact hx
      | some src =>
        cases hc : SharedPtr.Reset esft src s.heap with
        | error err => simp [step, hi, hc] at e
        | ok r =>
          simp [step, hi, hc] at e; rw [← e]
          simp [List.getElem?_set_ne hik, hx]
  | sharedDestroy i =>
    by_cases hik : i = k
    · simp [Op.track, hik] at ht
    · cases hi : s.shared[i]? with
      | none =>
        have hge : s.shared.length ≤ i := by
          rcases Nat.lt_or_ge i s.shared.length with h | h
          · rw [List.getElem?_eq_getElem h] at hi; cases hi
          · exact h
        have hk : k < s.shared.length := (List.getElem?_eq_some.mp hx).1
        have hnlt : ¬ i < k := by omega
        simp only [Op.track, hik, hnlt, if_false, Option.some.injEq] at ht
        subst ht
        simp [step, hi] at e; rw [← e]; exact hx
      | some src =>
        cases hc : SharedPtr.destroy esft src s.heap with
        | error err => simp [step, hi, hc] at e
        | ok r =>
          simp [step, hi, hc] at e; rw [← e]
          by_cases hlt : i < k
          · simp only [Op.track, hik, hlt, if_true, if_false, Option.some.injEq] at ht
            subst ht
            show (s.shared.eraseIdx i)[k - 1]? = some x
            rw [List.getElem?_eraseIdx_of_ge _ _ _ (by omega)]
            rw [show k - 1 + 1 = k by omega]; exact hx
          · simp only [Op.track, hik, hlt, if_false, Option.some.injEq] at ht
            subst ht
            show (s.shared.eraseIdx i)[k]? = some x
            rw [List.getElem?_eraseIdx_of_lt _ _ _ (by omega)]; exact hx
  | weakFromShared i =>
    simp only [Op.track, Option.some.injEq] at ht
    subst ht
    cases hi : s.shared[i]? with
    | none => simp [step, hi] at e; rw [← e]; exact hx
    | some src =>
      cases hc : WeakPtr.fromShared src s.heap with
      | error err => simp [step, hi, hc] at e
      | ok r => simp [step, hi, hc] at e; rw [← e]; exact hx
  | weakCopy j =>
    simp only [Op.track, Option.some.injEq] at ht
    subst ht
    cases hi : s.weak[j]? with
    | none => simp [step, hi] at e; rw [← e]; exact hx
    | some src =>
      cases hc : WeakPtr.copy src s.heap with
      | error err => simp [step, hi, hc] at e
      | ok r => simp [step, hi, hc] at e; rw [← e]; exact hx
  | weakMove j =>
    simp only [Op.track, Option.some.injEq] at ht
    subst ht
    cases hi : s.weak[j]? with
    | none => simp [step, hi] at e; rw [← e]; exact hx
    | some src => simp [step, hi] at e; rw [← e]; exact hx
  | weakReset j =>
    simp only [Op.track, Option.some.injEq] at ht
    subst ht
    cases hi : s.weak[j]? with
    | none => simp [step, hi] at e; rw [← e]; exact hx
    | some src =>
      cases hc : WeakPtr.Reset src s.heap with
      | error err => simp [step, hi, hc] at e
      | ok r => simp [step, hi, hc] at e; rw [← e]; exact hx
  | weakDestroy j =>
    simp only [Op.track, Option.some.injEq] at ht
    subst ht
    cases hi : s.weak[j]? with
    | none => simp [step, hi] at e; rw [← e]; exact hx
    | some src =>
      cases hc : WeakPtr.destroy src s.heap with
      | error err => simp [step, hi, hc] at e
      | ok r => simp [step, hi, hc] at e; rw [← e]; exact hx
  | _ => simp [Op.isAliasGroupOp, Op.isGroupOp, Op.isSharedGroupOp] at hop

/-- A group program leaves the handle of a followed variable as it is. -/
theorem track_run {esft : Bool} (x : SharedPtr) :
    ∀ (ops : List Op) (s s1 : State) (k k1 : Nat), ops.all Op.isAliasGroupOp = true →
      run esft s ops = .ok s1 → trackRun k ops = some k1 → s.shared[k]? = some x →
      s1.shared[k1]? = some x := by
  intro ops
  induction ops with
  | nil =>
    intro s s1 k k1 _ e ht hx
    simp [run] at e; simp [trackRun] at ht
    subst e ht; exact hx
  | cons op rest ih =>
    intro s s1 k k1 hall e ht hx
    simp only [List.all_cons, Bool.and_eq_true] at hall
    cases hs : step esft s op with
    | error err => simp [run, hs] at e
    | ok s2 =>
      simp only [run, hs] at e
      cases hk : op.track k with
      | none => simp [trackRun, hk] at ht
      | some k2 =>
        simp only [trackRun, hk] at ht
        exact ih s2 s1 k2 k1 hall.2 e ht (track_step op k k2 x hall.1 hs hk hx)

theorem aliasing_fields {other : SharedPtr} {ptr : Option Nat} {h h1 : Heap} {a : SharedPtr}
    (e : SharedPtr.aliasing other ptr h = .ok (a, h1)) :
    a = { block_ := other.block_, ptr_ := ptr } := by
  cases hi : SharedPtr.Increase { block_ := other.block_, ptr_ := ptr } h with
  | error err => simp [SharedPtr.aliasing, hi] at e
  | ok h2 => simp [SharedPtr.aliasing, hi] at e; exact e.1.symm

/-- C6. A group started by `SharedPtr(T*)` or `MakeShared`, any group program
`pre`, then `a = SharedPtr(parent, q)` for a non-empty handle `parent` of the
table and a non-null `q`, then any group program `ops` that does not release
the variable `a` (it is followed to the index `k`): the aliasing constructor
returns a handle on the block of `parent` with `Get() == q` and takes the
strong counter from the number of owning handles to one more; after `ops` the
variable still holds that handle, `DeleteObject()` has not been called, the
parent object is not destroyed, and the strong counter is the number of owning
handles, at least `1`; and once every other owning handle has been released,
destroying `a` calls `DeleteObject()` and destroys the parent object. -/
theorem alias_keeps_parent_alive (esft viaMake : Bool) (ptr : Nat) (pre : List Op) (i q : Nat)
    (ops : List Op) (k : Nat) (s0 sP : State) (parent : SharedPtr)
    (hstart : start esft viaMake ptr = .ok s0) (hrun : run esft s0 pre = .ok sP)
    (hparent : sP.shared[i]? = some parent)
    (hpre : pre.all Op.isAliasGroupOp = true) (hops : ops.all Op.isAliasGroupOp = true)
    (hlegal : legalProgram (Op.aliasOk esft) esft viaMake ptr
      (pre ++ Op.sharedAlias i (some q) :: ops) = true)
    (hlen : pre.length + ops.length + 5 < SIZE_MOD)
    (htrack : trackRun sP.shared.length ops = some k) :
    ∃ a hA s,
      SharedPtr.aliasing parent (some q) sP.heap = .ok (a, hA) ∧
      a.block_ = parent.block_ ∧ a.block_ = some 0 ∧ a.Get = some q ∧
      step esft sP (.sharedAlias i (some q)) =
        .ok { heap := hA, shared := sP.shared ++ [a], weak := sP.weak } ∧
      strongOf sP.heap 0 = some (owners 0 sP.shared) ∧
      strongOf hA 0 = some (owners 0 sP.shared + 1) ∧
      run esft sP (Op.sharedAlias i (some q) :: ops) = .ok s ∧
      s.shared[k]? = some a ∧
      s.heap.deleteObjectCalls 0 = 0 ∧
      s.heap.destroyed (startObj viaMake ptr) = 0 ∧
      strongOf s.heap 0 = some (owners 0 s.shared) ∧ 1 ≤ owners 0 s.shared ∧
      (owners 0 s.shared = 1 →
        ∃ s1, step esft s (.sharedDestroy k) = .ok s1 ∧
          s1.shared = s.shared.eraseIdx k ∧
          s1.heap.deleteObjectCalls 0 = 1 ∧
          s1.heap.destroyed (startObj viaMake ptr) = 1 ∧ owners 0 s1.shared = 0) := by
  obtain ⟨s0', e0, i0, hs0, hw0⟩ := start_inv esft viaMake ptr (fun _ => True) trivial
  rw [hstart] at e0
  injection e0 with e0
  subst e0
  simp only [legalProgram, hstart] at hlegal
  obtain ⟨hl1, hl2⟩ :=
    legal_split (Op.aliasOk esft) esft (Op.sharedAlias i (some q) :: ops) pre s0 hlegal
  have hlen0 : s0.shared.length + s0.weak.length = 1 := by simp [hs0, hw0]
  obtain ⟨sP', eP, iP, hbP, _⟩ := group_run (Op.aliasOk esft) Op.isAliasGroupOp
    (fun _ ho => ho) (fun s o _ inv h => aliasOk_sem s o inv h)
    pre s0 i0 hpre hl1 (by omega)
  rw [hrun] at eP
  injection eP with eP
  subst eP
  have hlA := hl2 sP hrun
  simp only [legal, Bool.and_eq_true] at hlA
  obtain ⟨sA, eA, iA, hlenA, _⟩ :=
    group_step (Op.sharedAlias i (some q)) iP rfl (aliasOk_sem sP _ iP hlA.1) (by omega)
  have hlO := hlA.2
  rw [eA] at hlO
  -- the parent is a member of the group
  have hpne : parent.ptr_.isSome = true := by
    have := hlA.1
    simpa [Op.aliasOk, hparent] using this
  have hpmem : parent ∈ sP.shared := List.getElem?_mem hparent
  obtain ⟨p0, hp0⟩ : ∃ p0, parent = member 0 p0 := by
    rcases iP.sharedForm parent hpmem with ⟨q0, _, h⟩ | h
    · exact ⟨q0, h⟩
    · subst h; simp at hpne
  have hpb : parent.block_ = some 0 := by rw [hp0]; rfl
  -- what the constructor returns
  cases hal : SharedPtr.aliasing parent (some q) sP.heap with
  | error err => simp [step, hparent, hal] at eA
  | ok r =>
    obtain ⟨a, hA⟩ := r
    have ha := aliasing_fields hal
    have hsA : sA = { heap := hA, shared := sP.shared ++ [a], weak := sP.weak } := by
      simp [step, hparent, hal] at eA; exact eA.symm
    have ham : a = member 0 q := by rw [ha, hpb]; rfl
    have hposP : 0 < owners 0 sP.shared := owners_pos (by rw [← hp0]; exact hpmem)
    have hownA : owners 0 sA.shared = owners 0 sP.shared + 1 := by
      rw [hsA]; simp [owners_push, ham, owns_member]
    have hstrA : strongOf hA 0 = some (owners 0 sP.shared + 1) := by
      have := strongOf_group iA.heap (by omega)
      rw [hownA] at this
      rw [hsA] at this
      exact this
    have hlenA2 : sA.shared.length + sA.weak.length ≤ pre.length + 2 := by omega
    obtain ⟨s, e1, i1, hb1, _⟩ := group_run (Op.aliasOk esft) Op.isAliasGroupOp
      (fun _ ho => ho) (fun s o _ inv h => aliasOk_sem s o inv h)
      ops sA iA hops hlO (by omega)
    have hk : s.shared[k]? = some a :=
      track_run a ops sA s sP.shared.length k hops e1 htrack
        (by rw [hsA]; exact List.getElem?_concat_length _ _)
    have hmem : member 0 q ∈ s.shared := by rw [← ham]; exact List.getElem?_mem hk
    have hpos := owners_pos hmem
    have hn0 : ¬ (owners 0 s.shared = 0) := by omega
    refine ⟨a, hA, s, rfl, by rw [ha], by rw [ha]; exact hpb, by rw [ha]; rfl,
      by rw [eA, hsA], strongOf_group iP.heap (by omega), hstrA,
      by simp [run, eA, e1], hk, by simp [i1.heap.calls, hn0],
      by simp [i1.heap.destroyed, hn0], strongOf_group i1.heap (by omega), hpos, ?_⟩
    intro h1
    obtain ⟨s1, e2, i2, _, _, _, _, _, _⟩ :=
      group_step (.sharedDestroy k) i1 rfl
        ⟨fun i hi => by simp at hi, fun i p hi => by simp at hi⟩ (by omega)
    have ht : s1.shared = s.shared.eraseIdx k := by
      cases hd : SharedPtr.destroy esft a s.heap with
      | error e => simp [step, hk, hd] at e2
      | ok h2 => simp [step, hk, hd] at e2; rw [← e2]
    have hown : owners 0 s1.shared = 0 := by
      have := owners_erase 0 s.shared k a hk
      rw [ham, owns_member] at this
      rw [ht]; simp at this; omega
    exact ⟨s1, e2, ht, by simp [i2.heap.calls, hown], by simp [i2.heap.destroyed, hown], hown⟩

theorem alias_keeps_parent_alive_witness :
    ∃ s0 sP, (start true false 7 = .ok s0 ∧ run true s0 [Op.sharedCopy 0] = .ok sP ∧
      sP.shared[1]? = some (member 0 7) ∧
      [Op.sharedCopy 0].all Op.isAliasGroupOp = true ∧
      [Op.weakFromShared 0, Op.sharedDestroy 0, Op.sharedReset 0].all Op.isAliasGroupOp = true ∧
      legalProgram (Op.aliasOk true) true false 7
        ([Op.sharedCopy 0] ++ Op.sharedAlias 1 (some 9) ::
          [Op.weakFromShared 0, Op.sharedDestroy 0, Op.sharedReset 0]) = true ∧
      [Op.sharedCopy 0].length +
        [Op.weakFromShared 0, Op.sharedDestroy 0, Op.sharedReset 0].length + 5 < SIZE_MOD ∧
      trackRun sP.shared.length [Op.weakFromShared 0, Op.sharedDestroy 0, Op.sharedReset 0] =
        some 1) ∧
    snapshot 0 (run true sP (Op.sharedAlias 1 (some 9) ::
        [Op.weakFromShared 0, Op.sharedDestroy 0, Op.sharedReset 0])) =
      .ok { shared := [{}, member 0 9], weak := [{ block_ := some 0, ptr_ := some 7 }],
            strong := some 1, weakCount := some 2, deleteObjectCalls := 0, blockDeletes := 0 } ∧
    ∃ a hA s,
      SharedPtr.aliasing (member 0 7) (some 9) sP.heap = .ok (a, hA) ∧
      a.block_ = (member 0 7).block_ ∧ a.block_ = some 0 ∧ a.Get = some 9 ∧
      step true sP (.sharedAlias 1 (some 9)) =
        .ok { heap := hA, shared := sP.shared ++ [a], weak := sP.weak } ∧
      strongOf sP.heap 0 = some (owners 0 sP.shared) ∧
      strongOf hA 0 = some (owners 0 sP.shared + 1) ∧
      run true sP (Op.sharedAlias 1 (some 9) ::
        [Op.weakFromShared 0, Op.sharedDestroy 0, Op.sharedReset 0]) = .ok s ∧
      s.shared[1]? = some a ∧
      s.heap.deleteObjectCalls 0 = 0 ∧
      s.heap.destroyed (startObj false 7) = 0 ∧
      strongOf s.heap 0 = some (owners 0 s.shared) ∧ 1 ≤ owners 0 s.shared ∧
      (owners 0 s.shared = 1 →
        ∃ s1, step true s (.sharedDestroy 1) = .ok s1 ∧
          s1.shared = s.shared.eraseIdx 1 ∧
          s1.heap.deleteObjectCalls 0 = 1 ∧
          s1.heap.destroyed (startObj false 7) = 1 ∧ owners 0 s1.shared = 0) :=
  ⟨_, _, ⟨rfl, rfl, rfl, by decide, by decide, by decide, by decide, rfl⟩, rfl,
    alias_keeps_parent_alive true false 7 [Op.sharedCopy 0] 1 9
      [Op.weakFromShared 0, Op.sharedDestroy 0, Op.sharedReset 0] 1 _ _ (member 0 7)
      rfl rfl rfl (by decide) (by decide) (by decide) (by decide) rfl⟩

/-- C7. An object with the self-reference capability placed under shared
ownership by `SharedPtr(T*)` or `MakeShared`, after any sequence of copies (and
of the other group operations) that leaves `n >= 1` owning handles:
`SharedFromThis()` returns a non-empty handle on the same control block
observing the same object, the strong counter goes from `n` to `n + 1`, and
`UseCount()` of the returned handle is `n + 1`. -/
theorem shared_from_this_joins_group (viaMake : Bool) (ptr : Nat) (ops : List Op)
    (hops : ops.all Op.isGroupOp = true)
    (hlegal : legalProgram (Op.srcOk true) true viaMake ptr ops = true)
    (hlen : ops.length + 4 < SIZE_MOD) :
    ∃ s0 s, start true viaMake ptr = .ok s0 ∧
      s0.shared = [member 0 (startObj viaMake ptr)] ∧ run true s0 ops = .ok s ∧
      (1 ≤ owners 0 s.shared →
        strongOf s.heap 0 = some (owners 0 s.shared) ∧
        ∃ h1, SharedFromThis (startObj viaMake ptr) s.heap
            = .ok (member 0 (startObj viaMake ptr), h1) ∧
          (member 0 (startObj viaMake ptr)).toBool = true ∧
          strongOf h1 0 = some (owners 0 s.shared + 1) ∧
          SharedPtr.UseCount (member 0 (startObj viaMake ptr)) h1
            = .ok (owners 0 s.shared + 1)) := by
  obtain ⟨s0, e0, i0, hs0, hw0⟩ :=
    start_inv true viaMake ptr (fun q => q = startObj viaMake ptr) rfl
  simp only [legalProgram, e0] at hlegal
  have hlen0 : s0.shared.length + s0.weak.length = 1 := by simp [hs0, hw0]
  obtain ⟨s, e1, i1, hb1, _⟩ := group_run (Op.srcOk true) Op.isGroupOp
    (fun o ho => group_is_alias o ho)
    (fun s o ho inv h => srcOk_sem s o inv ho h)
    ops s0 i0 hops hlegal (by omega)
  refine ⟨s0, s, e0, hs0, e1, ?_⟩
  intro hn
  have hb := @group_bound 0 s (by omega)
  have hne : ¬ (owners 0 s.shared + watchers 0 s.weak = 0) := by omega
  have hn0 : ¬ (owners 0 s.shared = 0) := by omega
  have hblk := i1.heap.blk
  have hself := i1.heap.selfB rfl (by omega)
  have hd := i1.heap.destroyed
  simp only [groupBlock, hne, if_false] at hblk
  simp only [hn0, if_false] at hd
  have e : (owners 0 s.shared + 1) % SIZE_MOD = owners 0 s.shared + 1 := size_id _ (by omega)
  obtain ⟨cb, hcb, hstrong⟩ : ∃ cb, s.heap.blocks 0 = some cb ∧
      cb.strong_counter_ = owners 0 s.shared := ⟨_, hblk, rfl⟩
  refine ⟨strongOf_group i1.heap (by omega), s.heap.setBlock 0 cb.IncStrong, ?_, rfl, ?_, ?_⟩
  · simp [SharedFromThis, hd, hself, WeakPtr.Lock, WeakPtr.Expired, Heap.deref, hcb,
      ControlBlock.GetStrongCounter, hn0, SharedPtr.promote, SharedPtr.Increase, member, hstrong]
  · simp [strongOf, Heap.setBlock, ControlBlock.IncStrong, ControlBlock.GetStrongCounter, e,
      hstrong]
  · simp [SharedPtr.UseCount, member, Heap.deref, Heap.setBlock, ControlBlock.IncStrong,
      ControlBlock.GetStrongCounter, e, hstrong]

theorem shared_from_this_joins_group_witness :
    ([Op.sharedCopy 0].all Op.isGroupOp = true ∧
      legalProgram (Op.srcOk true) true false 7 [Op.sharedCopy 0] = true ∧
      [Op.sharedCopy 0].length + 4 < SIZE_MOD) ∧
    ∃ s0 s, start true false 7 = .ok s0 ∧
      s0.shared = [member 0 (startObj false 7)] ∧ run true s0 [Op.sharedCopy 0] = .ok s ∧
      (1 ≤ owners 0 s.shared →
        strongOf s.heap 0 = some (owners 0 s.shared) ∧
        ∃ h1, SharedFromThis (startObj false 7) s.heap
            = .ok (member 0 (startObj false 7), h1) ∧
          (member 0 (startObj false 7)).toBool = true ∧
          strongOf h1 0 = some (owners 0 s.shared + 1) ∧
          SharedPtr.UseCount (member 0 (startObj false 7)) h1
            = .ok (owners 0 s.shared + 1)) :=
  ⟨⟨by decide, by decide, by decide⟩,
    shared_from_this_joins_group false 7 [Op.sharedCopy 0] (by decide) (by decide) (by decide)⟩

/-! ## The content of objects is not touched -/

theorem deleteBlock_value {h h1 : Heap} {b : Option Nat} (e : h.deleteBlock b = .ok h1) :
    h1.value = h.value := by
  unfold Heap.deleteBlock at e
  split at e
  · simp at e; rw [← e]
  · split at e
    · simp at e
    · simp at e; rw [← e]

theorem weakIncrease_value {w : WeakPtr} {h h1 : Heap} (e : w.Increase h = .ok h1) :
    h1.value = h.value := by
  unfold WeakPtr.Increase at e
  split at e
  · simp at e; rw [← e]
  · split at e
    · simp at e
    · simp at e; rw [← e]; rfl

theorem weakDecrease_value {w : WeakPtr} {h h1 : Heap} (e : w.Decrease h = .ok h1) :
    h1.value = h.value := by
  unfold WeakPtr.Decrease at e
  split at e
  · simp at e; rw [← e]
  · split at e
    · simp at e
    · simp only at e
      split at e
      · exact (deleteBlock_value e).trans rfl
      · simp at e; rw [← e]; rfl

theorem sharedIncrease_value {x : SharedPtr} {h h1 : Heap} (e : x.Increase h = .ok h1) :
    h1.value = h.value := by
  unfold SharedPtr.Increase at e
  split at e
  · simp at e; rw [← e]
  · split at e
    · simp at e
    · simp at e; rw [← e]; rfl

theorem fromShared_value {x : SharedPtr} {h : Heap} {r : WeakPtr × Heap}
    (e : WeakPtr.fromShared x h = .ok r) : r.2.value = h.value := by
  cases hi : WeakPtr.Increase { block_ := x.block_, ptr_ := x.ptr_ } h with
  | error err => simp [WeakPtr.fromShared, hi] at e
  | ok h3 => simp [WeakPtr.fromShared, hi] at e; rw [← e]; exact weakIncrease_value hi

theorem weakReset_value {w : WeakPtr} {h : Heap} {r : WeakPtr × Heap}
    (e : w.Reset h = .ok r) : r.2.value = h.value := by
  cases hd : w.Decrease h with
  | error err => simp [WeakPtr.Reset, hd] at e
  | ok h3 => simp [WeakPtr.Reset, hd] at e; rw [← e]; exact weakDecrease_value hd

theorem bindSelf_value {x : SharedPtr} {h h1 : Heap} (e : x.bindSelf h = .ok h1) :
    h1.value = h.value := by
  cases hp : x.ptr_ with
  | none => simp [SharedPtr.bindSelf, hp] at e
  | some o =>
    by_cases hdz : 0 < h.destroyed o
    · simp [SharedPtr.bindSelf, hp, hdz] at e
    · cases hf : WeakPtr.fromShared x h with
      | error err => simp [SharedPtr.bindSelf, hp, hdz, hf] at e
      | ok r =>
        have v1 := fromShared_value hf
        cases hd : WeakPtr.Decrease (r.2.self_ o) r.2 with
        | error err => simp [SharedPtr.bindSelf, hp, hdz, hf, WeakPtr.moveAssign, hd] at e
        | ok h3 =>
          simp [SharedPtr.bindSelf, hp, hdz, hf, WeakPtr.moveAssign, hd] at e
          rw [← e]
          exact (weakDecrease_value hd).trans v1

theorem deleteObject_value {a : Nat} {h h1 : Heap} (e : DeleteObject a h = .ok h1) :
    h1.value = h.value := by
  cases hb : h.blocks a with
  | none => simp [DeleteObject, hb] at e
  | some cb =>
    cases ho : cb.obj with
    | none => simp [DeleteObject, hb, ho] at e; rw [← e]
    | some o =>
      by_cases hdz : 0 < h.destroyed o
      · simp [DeleteObject, hb, ho, hdz] at e
      · cases he : cb.objEsft with
        | false => simp [DeleteObject, hb, ho, hdz, he] at e; rw [← e]
        | true =>
          simp only [DeleteObject, hb, ho, hdz, he, if_false, if_true] at e
          split at e
          · simp at e
          · next h2 hd =>
            simp at e; rw [← e]
            exact (weakDecrease_value hd).trans rfl

theorem sharedDecrease_value {esft : Bool} {x : SharedPtr} {h : Heap} {r : SharedPtr × Heap}
    (e : x.Decrease esft h = .ok r) : r.2.value = h.value := by
  cases hp : x.ptr_ with
  | none => simp [SharedPtr.Decrease, hp] at e; rw [← e]
  | some o =>
    cases hdr : h.deref x.block_ with
    | error err => simp [SharedPtr.Decrease, hp, hdr] at e
    | ok ac =>
      obtain ⟨a, cb⟩ := ac
      by_cases hz : cb.DecStrong.GetStrongCounter = 0
      · cases hdo : DeleteObject a (h.setBlock a cb.DecStrong) with
        | error err => simp [SharedPtr.Decrease, hp, hdr, hz, hdo] at e
        | ok h2 =>
          have v2 : h2.value = h.value := (deleteObject_value hdo).trans rfl
          by_cases hc : cb.DecStrong.GetWeakCounter = 0
          · cases esft with
            | false =>
              cases hdb : h2.deleteBlock (some a) with
              | error err => simp [SharedPtr.Decrease, hp, hdr, hz, hdo, hc, hdb] at e
              | ok h3 =>
                simp [SharedPtr.Decrease, hp, hdr, hz, hdo, hc, hdb] at e
                rw [← e]; exact (deleteBlock_value hdb).trans v2
            | true =>
              by_cases hdz : 0 < h2.destroyed o
              · simp [SharedPtr.Decrease, hp, hdr, hz, hdo, hc, hdz] at e
              · cases hex : (h2.self_ o).Expired h2 with
                | error err => simp [SharedPtr.Decrease, hp, hdr, hz, hdo, hc, hdz, hex] at e
                | ok bexp =>
                  cases bexp with
                  | true =>
                    simp [SharedPtr.Decrease, hp, hdr, hz, hdo, hc, hdz, hex] at e
                    rw [← e]; exact v2
                  | false =>
                    cases hr : (h2.self_ o).Reset h2 with
                    | error err =>
                      simp [SharedPtr.Decrease, hp, hdr, hz, hdo, hc, hdz, hex, hr] at e
                    | ok wr =>
                      simp [SharedPtr.Decrease, hp, hdr, hz, hdo, hc, hdz, hex, hr] at e
                      rw [← e]; exact (weakReset_value hr).trans v2
          · simp [SharedPtr.Decrease, hp, hdr, hz, hdo, hc] at e
            rw [← e]; exact v2
      · simp [SharedPtr.Decrease, hp, hdr, hz] at e
        rw [← e]; rfl

/-! ## The `MakeShared` lifecycle -/

theorem step_copy_shape {esft : Bool} {s s1 : State} {i : Nat} {x : SharedPtr}
    (e : step esft s (.sharedCopy i) = .ok s1) (hx : s.shared[i]? = some x) :
    s1.shared = s.shared ++ [{ block_ := x.block_, ptr_ := x.ptr_ }] ∧ s1.weak = s.weak ∧
      s1.heap.value = s.heap.value := by
  cases hb : (if esft = true then SharedPtr.bindSelf { block_ := x.block_, ptr_ := x.ptr_ } s.heap
      else .ok s.heap) with
  | error err => simp [step, hx, SharedPtr.copy, hb] at e
  | ok h1 =>
    have v1 : h1.value = s.heap.value := by
      cases esft with
      | false => simp at hb; rw [← hb]
      | true => simp at hb; exact bindSelf_value hb
    cases hi : SharedPtr.Increase { block_ := x.block_, ptr_ := x.ptr_ } h1 with
    | error err => simp [step, hx, SharedPtr.copy, hb, hi] at e
    | ok h2 =>
      simp [step, hx, SharedPtr.copy, hb, hi] at e
      rw [← e]
      exact ⟨rfl, rfl, (sharedIncrease_value hi).trans v1⟩

theorem step_destroy_shape {esft : Bool} {s s1 : State} {i : Nat} {x : SharedPtr}
    (e : step esft s (.sharedDestroy i) = .ok s1) (hx : s.shared[i]? = some x) :
    s1.shared = s.shared.eraseIdx i ∧ s1.weak = s.weak ∧ s1.heap.value = s.heap.value := by
  cases hd : SharedPtr.Decrease esft x s.heap with
  | error err => simp [step, hx, SharedPtr.destroy, hd] at e
  | ok r =>
    simp [step, hx, SharedPtr.destroy, hd] at e
    rw [← e]
    exact ⟨rfl, rfl, sharedDecrease_value hd⟩

theorem step_weakFromShared_shape {esft : Bool} {s s1 : State} {i : Nat} {x : SharedPtr}
    (e : step esft s (.weakFromShared i) = .ok s1) (hx : s.shared[i]? = some x) :
    s1.shared = s.shared ∧ s1.weak = s.weak ++ [{ block_ := x.block_, ptr_ := x.ptr_ }] ∧
      s1.heap.value = s.heap.value := by
  cases hf : WeakPtr.fromShared x s.heap with
  | error err => simp [step, hx, hf] at e
  | ok r =>
    have v := fromShared_value hf
    have hw : r.1 = { block_ := x.block_, ptr_ := x.ptr_ } := by
      cases hi : WeakPtr.Increase { block_ := x.block_, ptr_ := x.ptr_ } s.heap with
      | error err => simp [WeakPtr.fromShared, hi] at hf
      | ok h3 => simp [WeakPtr.fromShared, hi] at hf; rw [← hf]
    simp [step, hx, hf] at e
    rw [← e]
    exact ⟨rfl, by simp [hw], v⟩

theorem semPre_of_member {esft : Bool} {B p : Nat} {Q : Nat → Prop} {s : State} {i : Nat}
    (op : Op) (hop : op = .sharedCopy i ∨ op.isGroupOp = true ∧ ¬ (∃ j, op = .sharedCopy j) ∧
      ¬ (∃ j, op = .sharedMove j))
    (hx : s.shared[i]? = some (member B p)) : SemPre esft B p Q s op := by
  constructor
  · intro j hj _ x hxj
    rcases hop with h | ⟨_, h1, h2⟩
    · rcases hj with hj | hj
      · rw [h] at hj; injection hj with hij; subst hij
        rw [hx] at hxj; injection hxj with hxj; exact hxj.symm
      · rw [h] at hj; cases hj
    · rcases hj with hj | hj
      · exact absurd ⟨j, hj⟩ h1
      · exact absurd ⟨j, hj⟩ h2
  · intro j ptr hj
    rcases hop with h | ⟨h0, _, _⟩
    · rw [h] at hj; cases hj
    · subst hj; simp [Op.isGroupOp, Op.isSharedGroupOp] at h0

theorem copies_run {esft : Bool} {B p : Nat} {Q : Nat → Prop} :
    ∀ (k : Nat) (s : State), GroupInv esft B p Q s → s.shared[0]? = some (member B p) →
      s.shared.length + s.weak.length + k + 2 < SIZE_MOD →
      ∃ s1, run esft s (List.replicate k (Op.sharedCopy 0)) = .ok s1 ∧ GroupInv esft B p Q s1 ∧
        s1.shared = s.shared ++ List.replicate k (member B p) ∧ s1.weak = s.weak ∧
        s1.heap.value = s.heap.value := by
  intro k
  induction k with
  | zero => intro s inv _ _; exact ⟨s, rfl, inv, by simp, rfl, rfl⟩
  | succ k ih =>
    intro s inv h0 hb
    obtain ⟨s1, e1, i1, _, _, _, _, _, _⟩ :=
      group_step (Op.sharedCopy 0) inv rfl (semPre_of_member _ (Or.inl rfl) h0) (by omega)
    obtain ⟨t1, w1, v1⟩ := step_copy_shape e1 h0
    have h01 : s1.shared[0]? = some (member B p) := by
      rw [t1, List.getElem?_append_left]
      · exact h0
      · exact (List.getElem?_eq_some.mp h0).1
    have hl : s1.shared.length = s.shared.length + 1 := by simp [t1]
    obtain ⟨s2, e2, i2, t2, w2, v2⟩ := ih s1 i1 h01 (by rw [hl, w1]; omega)
    refine ⟨s2, by simp [List.replicate_succ, run, e1, e2], i2, ?_, w2.trans w1, v2.trans v1⟩
    rw [t2, t1, List.replicate_succ, List.append_assoc]
    rfl

theorem drops_run {esft : Bool} {B p : Nat} {Q : Nat → Prop} :
    ∀ (k : Nat) (s : State), GroupInv esft B p Q s →
      s.shared = member B p :: List.replicate k (member B p) →
      s.shared.length + s.weak.length + 2 < SIZE_MOD →
      ∃ s1, run esft s (List.replicate k (Op.sharedDestroy 1)) = .ok s1 ∧
        GroupInv esft B p Q s1 ∧ s1.shared = [member B p] ∧ s1.weak = s.weak ∧
        s1.heap.value = s.heap.value := by
  intro k
  induction k with
  | zero => intro s inv hs _; exact ⟨s, rfl, inv, by simpa using hs, rfl, rfl⟩
  | succ k ih =>
    intro s inv hs hb
    have h1 : s.shared[1]? = some (member B p) := by rw [hs]; simp [List.replicate_succ]
    obtain ⟨s1, e1, i1, hl1, _, _, _, _, _⟩ :=
      group_step (Op.sharedDestroy 1) inv rfl
        ⟨fun i hi => by simp at hi, fun i q hi => by simp at hi⟩ hb
    obtain ⟨t1, w1, v1⟩ := step_destroy_shape e1 h1
    have hs1 : s1.shared = member B p :: List.replicate k (member B p) := by
      rw [t1, hs]; simp [List.replicate_succ]
    have hlen : s1.shared.length ≤ s.shared.length := by
      rw [hs1, hs]; simp
    obtain ⟨s2, e2, i2, t2, w2, v2⟩ := ih s1 i1 hs1 (by rw [w1]; omega)
    exact ⟨s2, by simp [List.replicate_succ, run, e1, e2], i2, t2, w2.trans w1, v2.trans v1⟩

theorem owners_replicate (B p k : Nat) :
    owners B (member B p :: List.replicate k (member B p)) = k + 1 := by
  induction k with
  | zero => simp [owners, owns_member]
  | succ k ih =>
    simp only [owners, List.replicate_succ, List.countP_cons, owns_member, if_true] at ih ⊢
    omega

theorem useCount_member {h : Heap} {B q n : Nat} (hs : strongOf h B = some n) :
    SharedPtr.UseCount (member B q) h = .ok n := by
  unfold strongOf at hs
  cases hb : h.blocks B with
  | none => simp [hb] at hs
  | some cb =>
    simp [hb] at hs
    simp [SharedPtr.UseCount, member, Heap.deref, hb, hs]

theorem start_value (esft : Bool) (v : Nat) :
    ∃ s0, start esft true v = .ok s0 ∧ s0.heap.value 0 = v := by
  cases esft <;>
    simp [start, step, MakeShared, SharedPtr.fromBlock, Heap.alloc,
      Heap.empty, SharedPtr.bindSelf, WeakPtr.fromShared, WeakPtr.Increase, WeakPtr.moveAssign,
      WeakPtr.Decrease, Heap.deref, Heap.setBlock, Heap.setSelf, ControlBlock.init,
      ControlBlock.IncWeak, GetPointer]

theorem semPre_other {esft : Bool} {B p : Nat} {Q : Nat → Prop} (s : State) (op : Op)
    (h1 : ∀ i, op ≠ .sharedCopy i) (h2 : ∀ i, op ≠ .sharedMove i)
    (h3 : ∀ i q, op ≠ .sharedAlias i q) : SemPre esft B p Q s op := by
  refine ⟨fun i hi => ?_, fun i q hi => absurd hi (h3 i q)⟩
  rcases hi with h | h
  · exact absurd h (h1 i)
  · exact absurd h (h2 i)

theorem read_member {h : Heap} {B q : Nat} (hd : h.destroyed q = 0) :
    SharedPtr.read (member B q) h = .ok (h.value q) := by
  simp [SharedPtr.read, member, hd]

/-- C8. The `MakeShared` lifecycle for every value `v` and every number `k` of
copies, for element types with and without the self-reference capability:
after `s = MakeShared<T>(v)`, `UseCount()` is `1` and `*s` reads `v`; a
`WeakPtr` `w` is taken from `s`; after `k` copy constructions from `s`,
`UseCount()` is `k + 1`; after destroying the `k` copies, `UseCount()` is `1`,
`DeleteObject()` has not been called, the object is not destroyed and `*s`
still reads `v`; after destroying `s`, `DeleteObject()` has been called once
and the object destroyed once, `w.Expired()` is true and `w.Lock()` is the
empty handle. -/
theorem make_shared_lifecycle (esft : Bool) (v k : Nat) (hk : k + 8 < SIZE_MOD) :
    ∃ s0 s1 s2 s3 s4,
      start esft true v = .ok s0 ∧ s0.shared = [member 0 0] ∧
      SharedPtr.UseCount (member 0 0) s0.heap = .ok 1 ∧
      SharedPtr.read (member 0 0) s0.heap = .ok v ∧
      step esft s0 (.weakFromShared 0) = .ok s1 ∧
      s1.weak = [{ block_ := some 0, ptr_ := some 0 }] ∧
      run esft s1 (List.replicate k (Op.sharedCopy 0)) = .ok s2 ∧
      s2.shared = member 0 0 :: List.replicate k (member 0 0) ∧
      SharedPtr.UseCount (member 0 0) s2.heap = .ok (k + 1) ∧
      run esft s2 (List.replicate k (Op.sharedDestroy 1)) = .ok s3 ∧
      s3.shared = [member 0 0] ∧
      SharedPtr.UseCount (member 0 0) s3.heap = .ok 1 ∧
      s3.heap.deleteObjectCalls 0 = 0 ∧ s3.heap.destroyed 0 = 0 ∧
      SharedPtr.read (member 0 0) s3.heap = .ok v ∧
      step esft s3 (.sharedDestroy 0) = .ok s4 ∧ s4.shared = [] ∧
      s4.heap.deleteObjectCalls 0 = 1 ∧ s4.heap.destroyed 0 = 1 ∧
      s4.weak = [{ block_ := some 0, ptr_ := some 0 }] ∧
      WeakPtr.Expired { block_ := some 0, ptr_ := some 0 } s4.heap = .ok true ∧
      WeakPtr.Lock { block_ := some 0, ptr_ := some 0 } s4.heap = .ok ({}, s4.heap) := by
  obtain ⟨s0, e0, i0, hs0, hw0⟩ := start_inv esft true v (fun q => q = startObj true v) rfl
  have hobj : startObj true v = 0 := rfl
  rw [hobj] at i0 hs0
  obtain ⟨s0', e0', hv0'⟩ := start_value esft v
  have hv0 : s0.heap.value 0 = v := by
    rw [e0] at e0'; injection e0' with h; rw [h]; exact hv0'
  have hnopre : ∀ (s : State) (op : Op), (∀ i, op ≠ .sharedCopy i) → (∀ i, op ≠ .sharedMove i) →
      (∀ i q, op ≠ .sharedAlias i q) → SemPre esft 0 0 (fun q => q = 0) s op :=
    fun s op h1 h2 h3 => semPre_other s op h1 h2 h3
  -- the initial state
  have hh0 := i0.heap
  rw [hs0, hw0] at hh0
  have o1 : owners 0 [member 0 0] = 1 := by simp [owners, owns_member]
  have w0 : watchers 0 ([] : List WeakPtr) = 0 := rfl
  rw [o1, w0] at hh0
  have hidx0 : s0.shared[0]? = some (member 0 0) := by rw [hs0]; rfl
  -- taking the weak pointer
  obtain ⟨s1, e1, i1, _, _, _, _, _, _⟩ :=
    group_step (Op.weakFromShared 0) i0 rfl
      (hnopre s0 _ (by simp) (by simp) (by simp)) (by rw [hs0, hw0]; simp; omega)
  obtain ⟨t1, w1, v1⟩ := step_weakFromShared_shape e1 hidx0
  rw [hw0] at w1
  simp only [List.nil_append, member] at w1
  have hidx1 : s1.shared[0]? = some (member 0 0) := by rw [t1]; exact hidx0
  -- the copies
  obtain ⟨s2, e2, i2, t2, w2, v2⟩ := copies_run k s1 i1 hidx1 (by rw [t1, hs0, w1]; simp; omega)
  rw [t1, hs0] at t2
  simp only [List.singleton_append] at t2
  have hh2 := i2.heap
  have ow : watchers 0 s2.weak = 1 := by rw [w2, w1]; rfl
  rw [t2, owners_replicate, ow] at hh2
  -- destroying the copies
  obtain ⟨s3, e3, i3, t3, w3, v3⟩ := drops_run k s2 i2 t2 (by rw [t2, w2, w1]; simp; omega)
  have hh3 := i3.heap
  have ow3 : watchers 0 s3.weak = 1 := by rw [w3, w2, w1]; rfl
  rw [t3, o1, ow3] at hh3
  have hidx3 : s3.shared[0]? = some (member 0 0) := by rw [t3]; rfl
  -- destroying the original
  obtain ⟨s4, e4, i4, _, _, _, _, _, _⟩ :=
    group_step (Op.sharedDestroy 0) i3 rfl
      (hnopre s3 _ (by simp) (by simp) (by simp)) (by rw [t3, w3, w2, w1]; simp; omega)
  obtain ⟨t4, w4, v4⟩ := step_destroy_shape e4 hidx3
  rw [t3] at t4
  simp only [List.eraseIdx_cons_zero] at t4
  have hh4 := i4.heap
  have ow4 : watchers 0 s4.weak = 1 := by rw [w4, w3, w2, w1]; rfl
  have o4 : owners 0 s4.shared = 0 := by rw [t4]; rfl
  rw [o4, ow4] at hh4
  have hblk4 := hh4.blk
  simp [groupBlock] at hblk4
  refine ⟨s0, s1, s2, s3, s4, e0, hs0, useCount_member (strongOf_group hh0 (by omega)), ?_,
    e1, w1, e2, t2, useCount_member (strongOf_group hh2 (by omega)), e3, t3,
    useCount_member (strongOf_group hh3 (by omega)), by simpa using hh3.calls,
    by simpa using hh3.destroyed, ?_, e4, t4, by simpa using hh4.calls,
    by simpa using hh4.destroyed, by rw [w4, w3, w2, w1], ?_, ?_⟩
  · rw [read_member (by simpa using hh0.destroyed), hv0]
  · rw [read_member (by simpa using hh3.destroyed), v3, v2, v1, hv0]
  · simp [WeakPtr.Expired, Heap.deref, hblk4, ControlBlock.GetStrongCounter]
  · simp [WeakPtr.Lock, WeakPtr.Expired, Heap.deref, hblk4, ControlBlock.GetStrongCounter]

theorem make_shared_lifecycle_witness :
    (2 + 8 < SIZE_MOD) ∧
    ∃ s0 s1 s2 s3 s4,
      start false true 5 = .ok s0 ∧ s0.shared = [member 0 0] ∧
      SharedPtr.UseCount (member 0 0) s0.heap = .ok 1 ∧
      SharedPtr.read (member 0 0) s0.heap = .ok 5 ∧
      step false s0 (.weakFromShared 0) = .ok s1 ∧
      s1.weak = [{ block_ := some 0, ptr_ := some 0 }] ∧
      run false s1 (List.replicate 2 (Op.sharedCopy 0)) = .ok s2 ∧
      s2.shared = member 0 0 :: List.replicate 2 (member 0 0) ∧
      SharedPtr.UseCount (member 0 0) s2.heap = .ok (2 + 1) ∧
      run false s2 (List.replicate 2 (Op.sharedDestroy 1)) = .ok s3 ∧
      s3.shared = [member 0 0] ∧
      SharedPtr.UseCount (member 0 0) s3.heap = .ok 1 ∧
      s3.heap.deleteObjectCalls 0 = 0 ∧ s3.heap.destroyed 0 = 0 ∧
      SharedPtr.read (member 0 0) s3.heap = .ok 5 ∧
      step false s3 (.sharedDestroy 0) = .ok s4 ∧ s4.shared = [] ∧
      s4.heap.deleteObjectCalls 0 = 1 ∧ s4.heap.destroyed 0 = 1 ∧
      s4.weak = [{ block_ := some 0, ptr_ := some 0 }] ∧
      WeakPtr.Expired { block_ := some 0, ptr_ := some 0 } s4.heap = .ok true ∧
      WeakPtr.Lock { block_ := some 0, ptr_ := some 0 } s4.heap = .ok ({}, s4.heap) :=
  ⟨by decide, make_shared_lifecycle false 5 2 (by decide)⟩

/-! ## Copy and move construction -/

/-- C9 (the code at the failing input). Copy construction from an empty
`SharedPtr` whose element type has the self-reference capability goes through
the null `ptr_` in `ptr_->self_ = *this`, in every heap; for an element type
without the capability the same copy returns the empty handle and leaves the
heap as it is. -/
theorem copy_of_empty_handle (h : Heap) :
    SharedPtr.copy true {} h = .error .nullDeref ∧
    SharedPtr.copy false {} h = .ok ({}, h) := by
  constructor
  · simp [SharedPtr.copy, SharedPtr.bindSelf]
  · simp [SharedPtr.copy, SharedPtr.Increase]

/-- C10 (counterexample). An element type with the self-reference capability:
`a.Reset(new T)` installs a block with strong counter `1` and weak counter `0`;
move-constructing a handle from `a` leaves the strong counter at `1` and takes
the weak counter of the transferred block to `1`. -/
theorem move_construction_counterexample :
    snapshot 0 (run true emptyState [Op.sharedDefault, Op.sharedResetPtr 0 (some 7)]) =
      .ok { shared := [member 0 7], weak := [],
            strong := some 1, weakCount := some 0, deleteObjectCalls := 0, blockDeletes := 0 } ∧
    snapshot 0 (run true emptyState
        [Op.sharedDefault, Op.sharedResetPtr 0 (some 7), Op.sharedMove 0]) =
      .ok { shared := [{}, member 0 7], weak := [],
            strong := some 1, weakCount := some 1, deleteObjectCalls := 0, blockDeletes := 0 } := by
  constructor <;> rfl

/-- C10 (amended). Move construction for an element type without the
self-reference capability returns a handle with the block and observed pointer
of `src`, leaves `src` empty (null block, null `Get()`, `UseCount()` zero) and
leaves the heap, hence every counter, as it is. Move assignment into a distinct
`dst`, for every element type, is the release of the reference `dst` held
followed by the same transfer: nothing changes when `dst` was empty, and when
`dst` held one of at least two strong references of its block that block loses
exactly one strong reference and nothing else changes. Move construction for an
element type with the self-reference capability from a non-empty `src` on a
live block also re-binds `self_` of the observed object: the strong counter is
unchanged, and the weak counter is unchanged when `self_` was bound to this
block and one greater when `self_` was unbound. -/
theorem move_transfers_ownership :
    (∀ (src : SharedPtr) (h : Heap),
      SharedPtr.move false src h
        = .ok ({ block_ := src.block_, ptr_ := src.ptr_ }, { block_ := none, ptr_ := none }, h)) ∧
    (SharedPtr.Get { block_ := none, ptr_ := none } = none ∧
      ∀ h, SharedPtr.UseCount { block_ := none, ptr_ := none } h = .ok 0) ∧
    (∀ (esft : Bool) (dst src : SharedPtr) (h : Heap) (r : SharedPtr × Heap),
      dst.Decrease esft h = .ok r →
      SharedPtr.moveAssign esft dst src h
        = .ok ({ block_ := src.block_, ptr_ := src.ptr_ },
               { block_ := none, ptr_ := none }, r.2)) ∧
    (∀ (esft : Bool) (dst src : SharedPtr) (h : Heap), dst.ptr_ = none →
      SharedPtr.moveAssign esft dst src h
        = .ok ({ block_ := src.block_, ptr_ := src.ptr_ }, { block_ := none, ptr_ := none }, h)) ∧
    (∀ (esft : Bool) (dst src : SharedPtr) (h : Heap) (Bd q : Nat) (cb : ControlBlock),
      dst.block_ = some Bd → dst.ptr_ = some q → h.blocks Bd = some cb →
      2 ≤ cb.strong_counter_ →
      ∃ h1, SharedPtr.moveAssign esft dst src h
          = .ok ({ block_ := src.block_, ptr_ := src.ptr_ },
                 { block_ := none, ptr_ := none }, h1) ∧
        strongOf h1 Bd = some (cb.strong_counter_ - 1) ∧
        weakOf h1 Bd = some cb.weak_counter_ ∧
        ∀ x, x ≠ Bd → h1.blocks x = h.blocks x) ∧
    (∀ (src : SharedPtr) (h : Heap) (B o : Nat) (cb : ControlBlock),
      src.block_ = some B → src.ptr_ = some o → h.blocks B = some cb →
      h.destroyed o = 0 → 0 < cb.strong_counter_ →
      cb.strong_counter_ + cb.weak_counter_ + 1 < SIZE_MOD →
      ((h.self_ o).block_ = some B ∨ (h.self_ o).block_ = none) →
      ∃ h1, SharedPtr.move true src h
          = .ok ({ block_ := some B, ptr_ := some o }, { block_ := none, ptr_ := none }, h1) ∧
        strongOf h1 B = some cb.strong_counter_ ∧
        weakOf h1 B = some (if (h.self_ o).block_ = some B then cb.weak_counter_
                            else cb.weak_counter_ + 1) ∧
        h1.self_ o = { block_ := some B, ptr_ := some o }) := by
  refine ⟨?_, ⟨rfl, fun h => rfl⟩, ?_, ?_, ?_, ?_⟩
  · intro src h
    simp [SharedPtr.move]
  · intro esft dst src h r hr
    simp [SharedPtr.moveAssign, hr]
  · intro esft dst src h hp
    simp [SharedPtr.moveAssign, SharedPtr.Decrease, hp]
  · intro esft dst src h Bd q cb hb hp hc hn
    have h0 : ¬ (cb.strong_counter_ = 0) := by omega
    have h1 : ¬ (cb.strong_counter_ - 1 = 0) := by omega
    refine ⟨h.setBlock Bd cb.DecStrong, ?_, ?_, ?_, ?_⟩
    · simp [SharedPtr.moveAssign, SharedPtr.Decrease, hp, hb, Heap.deref, hc,
        ControlBlock.DecStrong, ControlBlock.GetStrongCounter, h0, h1]
    · simp [strongOf, Heap.setBlock, ControlBlock.DecStrong, ControlBlock.GetStrongCounter, h0]
    · simp [weakOf, Heap.setBlock, ControlBlock.DecStrong, ControlBlock.GetWeakCounter]
    · intro x hx
      simp [Heap.setBlock, hx]
  · intro src h B o cb hb hp hc hd hs hlt hself
    have e1 : (cb.weak_counter_ + 1) % SIZE_MOD = cb.weak_counter_ + 1 := size_id _ (by omega)
    have e2 : (cb.strong_counter_ + cb.weak_counter_) % SIZE_MOD
        = cb.strong_counter_ + cb.weak_counter_ := size_id _ (by omega)
    have e3 : ¬ (cb.strong_counter_ + cb.weak_counter_ = 0) := by omega
    rcases hself with hw | hw
    · refine ⟨((h.setBlock B cb.IncWeak).setBlock B cb.IncWeak.DecWeak).setSelf o
          { block_ := some B, ptr_ := some o }, ?_, ?_, ?_, ?_⟩
      · simp [SharedPtr.move, SharedPtr.bindSelf, hp, hd, WeakPtr.fromShared, WeakPtr.Increase,
          hb, Heap.deref, hc, WeakPtr.moveAssign, WeakPtr.Decrease, Heap.setBlock, hw,
          ControlBlock.IncWeak, ControlBlock.DecWeak, ControlBlock.GetCounter,
          ControlBlock.GetStrongCounter, ControlBlock.GetWeakCounter, e1, e2, e3]
      · simp [strongOf, Heap.setBlock, Heap.setSelf, ControlBlock.IncWeak, ControlBlock.DecWeak,
          ControlBlock.GetStrongCounter]
      · simp [weakOf, Heap.setBlock, Heap.setSelf, ControlBlock.IncWeak, ControlBlock.DecWeak,
          ControlBlock.GetWeakCounter, e1, hw]
      · simp [Heap.setSelf]
    · refine ⟨(h.setBlock B cb.IncWeak).setSelf o { block_ := some B, ptr_ := some o },
        ?_, ?_, ?_, ?_⟩
      · simp [SharedPtr.move, SharedPtr.bindSelf, hp, hd, WeakPtr.fromShared, WeakPtr.Increase,
          hb, Heap.deref, hc, WeakPtr.moveAssign, WeakPtr.Decrease, Heap.setBlock, hw]
      · simp [strongOf, Heap.setBlock, Heap.setSelf, ControlBlock.IncWeak,
          ControlBlock.GetStrongCounter]
      · simp [weakOf, Heap.setBlock, Heap.setSelf, ControlBlock.IncWeak,
          ControlBlock.GetWeakCounter, e1, hw]
      · simp [Heap.setSelf]

theorem move_transfers_ownership_witness :
    SharedPtr.move false (member 0 7) oneBlockHeap
      = .ok ({ block_ := some 0, ptr_ := some 7 }, { block_ := none, ptr_ := none },
             oneBlockHeap) ∧
    SharedPtr.moveAssign false {} (member 0 7) oneBlockHeap
      = .ok ({ block_ := some 0, ptr_ := some 7 }, { block_ := none, ptr_ := none },
             oneBlockHeap) :=
  ⟨move_transfers_ownership.1 (member 0 7) oneBlockHeap,
    move_transfers_ownership.2.2.2.1 false {} (member 0 7) oneBlockHeap rfl⟩

/-! ## Release of a block installed by `Reset(T*)` -/

/-- C11 (the code at the failing input). An element type with the
self-reference capability: `a.Reset(new T)` installs a block with strong
counter `1` and weak counter `0` and binds no `self_`. Releasing `a` takes the
strong counter to `0`, calls `DeleteObject()` and then reads `ptr_->self_` of
the object just destroyed. With a second handle observing another live object
through the same block, the last release calls `DeleteObject()`, leaves both
counters at `0` and does not delete the block. For an element type without the
capability the same release deletes the block. -/
theorem release_of_reset_block :
    snapshot 0 (run true emptyState [Op.sharedDefault, Op.sharedResetPtr 0 (some 7)]) =
      .ok { shared := [member 0 7], weak := [],
            strong := some 1, weakCount := some 0, deleteObjectCalls := 0, blockDeletes := 0 } ∧
    snapshot 0 (run true emptyState
        [Op.sharedDefault, Op.sharedResetPtr 0 (some 7), Op.sharedReset 0]) =
      .error .useAfterFree ∧
    snapshot 0 (run true emptyState
        [Op.sharedDefault, Op.sharedResetPtr 0 (some 7), Op.sharedDestroy 0]) =
      .error .useAfterFree ∧
    snapshot 0 (run true emptyState
        [Op.sharedDefault, Op.sharedResetPtr 0 (some 7), Op.sharedAlias 0 (some 9),
         Op.sharedReset 0, Op.sharedReset 1]) =
      .ok { shared := [{}, {}], weak := [],
            strong := some 0, weakCount := some 0, deleteObjectCalls := 1, blockDeletes := 0 } ∧
    snapshot 0 (run false emptyState
        [Op.sharedDefault, Op.sharedResetPtr 0 (some 7), Op.sharedReset 0]) =
      .ok { shared := [{}], weak := [],
            strong := none, weakCount := none, deleteObjectCalls := 1, blockDeletes := 1 } := by
  refine ⟨rfl, rfl, rfl, rfl, rfl⟩

/-! ## The strong counter after it reached zero -/

/-- C12 (the code at the failing input). A handle `n = SharedPtr(a, nullptr)`
is not counted; a `WeakPtr` keeps the block; releasing `a` takes the strong
counter to `0` and calls `DeleteObject()`; the aliasing constructor
`SharedPtr(n, q)` with a non-null `q` then takes the strong counter from `0` to
`1`; releasing that handle calls `DeleteObject()` on the object already
destroyed. -/
theorem strong_counter_revived :
    snapshot 0 (runProgram false false 7
        [Op.sharedAlias 0 none, Op.weakFromShared 0, Op.sharedReset 0]) =
      .ok { shared := [{}, { block_ := some 0, ptr_ := none }],
            weak := [{ block_ := some 0, ptr_ := some 7 }],
            strong := some 0, weakCount := some 1, deleteObjectCalls := 1, blockDeletes := 0 } ∧
    snapshot 0 (runProgram false false 7
        [Op.sharedAlias 0 none, Op.weakFromShared 0, Op.sharedReset 0,
         Op.sharedAlias 1 (some 9)]) =
      .ok { shared := [{}, { block_ := some 0, ptr_ := none }, member 0 9],
            weak := [{ block_ := some 0, ptr_ := some 7 }],
            strong := some 1, weakCount := some 1, deleteObjectCalls := 1, blockDeletes := 0 } ∧
    snapshot 0 (runProgram false false 7
        [Op.sharedAlias 0 none, Op.weakFromShared 0, Op.sharedReset 0,
         Op.sharedAlias 1 (some 9), Op.sharedReset 2]) =
      .error .useAfterFree := by
  refine ⟨rfl, rfl, rfl⟩

/-! ## Construction paths and the back-reference -/

/-- C14 (the code at the failing input). An element type with the
self-reference capability. The aliasing constructor `SharedPtr(a, q)` leaves
`self_` of the object at `q` unbound (the weak counter stays `1`), and
`SharedFromThis()` of that object returns the empty handle, while
`SharedFromThis()` of the object given to `SharedPtr(T*)` returns a handle of
the group. A block installed by `Reset(T*)` and a handle promoted from a
`WeakPtr` on it: the weak counter is `1` (the `WeakPtr` alone), and
`SharedFromThis()` of the object returns the empty handle. -/
theorem back_reference_unbound :
    snapshot 0 (runProgram true false 7 [Op.sharedAlias 0 (some 9)]) =
      .ok { shared := [member 0 7, member 0 9], weak := [],
            strong := some 2, weakCount := some 1, deleteObjectCalls := 0, blockDeletes := 0 } ∧
    snapshot 0 (runProgram true false 7 [Op.sharedAlias 0 (some 9), Op.sharedFromThis 9]) =
      .ok { shared := [member 0 7, member 0 9, {}], weak := [],
            strong := some 2, weakCount := some 1, deleteObjectCalls := 0, blockDeletes := 0 } ∧
    snapshot 0 (runProgram true false 7 [Op.sharedFromThis 7]) =
      .ok { shared := [member 0 7, member 0 7], weak := [],
            strong := some 2, weakCount := some 1, deleteObjectCalls := 0, blockDeletes := 0 } ∧
    snapshot 0 (run true emptyState
        [Op.sharedDefault, Op.sharedResetPtr 0 (some 7), Op.weakFromShared 0,
         Op.sharedPromote 0, Op.sharedFromThis 7]) =
      .ok { shared := [member 0 7, member 0 7, {}],
            weak := [{ block_ := some 0, ptr_ := some 7 }],
            strong := some 2, weakCount := some 1, deleteObjectCalls := 0, blockDeletes := 0 } := by
  refine ⟨rfl, rfl, rfl, rfl⟩

/-! ## The handle invariant -/

theorem wellHeld_empty : WellHeld ({} : SharedPtr) := fun h => absurd rfl h

theorem wellHeld_fields {x y : SharedPtr} (hx : WellHeld x) (hb : y.block_ = x.block_)
    (hp : y.ptr_ = x.ptr_) : WellHeld y := by
  intro h; rw [hb]; exact hx (by rw [← hp]; exact h)

theorem wellHeld_of_block {x : SharedPtr} (h : x.block_ ≠ none) : WellHeld x := fun _ => h

theorem wellHeld_of_null {x : SharedPtr} (h : x.ptr_ = none) : WellHeld x :=
  fun hp => absurd h hp

theorem sharedIncrease_block {x : SharedPtr} {h h1 : Heap} (e : x.Increase h = .ok h1) :
    WellHeld x := by
  intro hp
  obtain ⟨q, hq⟩ := Option.ne_none_iff_exists'.mp hp
  cases hb : x.block_ with
  | none => simp [SharedPtr.Increase, hq, hb, Heap.deref] at e
  | some B => simp

theorem decrease_result {esft : Bool} {x : SharedPtr} {h : Heap} {r : SharedPtr × Heap}
    (e : x.Decrease esft h = .ok r) : r.1 = x ∨ r.1.ptr_ = none := by
  cases hp : x.ptr_ with
  | none => simp [SharedPtr.Decrease, hp] at e; rw [← e]; exact Or.inl rfl
  | some o =>
    cases hdr : h.deref x.block_ with
    | error err => simp [SharedPtr.Decrease, hp, hdr] at e
    | ok ac =>
      obtain ⟨a, cb⟩ := ac
      by_cases hz : cb.DecStrong.GetStrongCounter = 0
      · cases hdo : DeleteObject a (h.setBlock a cb.DecStrong) with
        | error err => simp [SharedPtr.Decrease, hp, hdr, hz, hdo] at e
        | ok h2 =>
          by_cases hc : cb.DecStrong.GetWeakCounter = 0
          · cases esft with
            | false =>
              cases hdb : h2.deleteBlock (some a) with
              | error err => simp [SharedPtr.Decrease, hp, hdr, hz, hdo, hc, hdb] at e
              | ok h3 =>
                simp [SharedPtr.Decrease, hp, hdr, hz, hdo, hc, hdb] at e
                rw [← e]; exact Or.inr rfl
            | true =>
              by_cases hdz : 0 < h2.destroyed o
              · simp [SharedPtr.Decrease, hp, hdr, hz, hdo, hc, hdz] at e
              · cases hex : (h2.self_ o).Expired h2 with
                | error err => simp [SharedPtr.Decrease, hp, hdr, hz, hdo, hc, hdz, hex] at e
                | ok bexp =>
                  cases bexp with
                  | true =>
                    simp [SharedPtr.Decrease, hp, hdr, hz, hdo, hc, hdz, hex] at e
                    rw [← e]; exact Or.inr rfl
                  | false =>
                    cases hr : (h2.self_ o).Reset h2 with
                    | error err =>
                      simp [SharedPtr.Decrease, hp, hdr, hz, hdo, hc, hdz, hex, hr] at e
                    | ok wr =>
                      simp [SharedPtr.Decrease, hp, hdr, hz, hdo, hc, hdz, hex, hr] at e
                      rw [← e]; exact Or.inr rfl
          · simp [SharedPtr.Decrease, hp, hdr, hz, hdo, hc] at e
            rw [← e]; exact Or.inr rfl
      · simp [SharedPtr.Decrease, hp, hdr, hz] at e
        rw [← e]; exact Or.inl rfl

theorem copy_result {esft : Bool} {x : SharedPtr} {h : Heap} {r : SharedPtr × Heap}
    (e : SharedPtr.copy esft x h = .ok r) : r.1 = { block_ := x.block_, ptr_ := x.ptr_ } := by
  unfold SharedPtr.copy at e
  simp only at e
  split at e
  · simp at e
  · split at e
    · simp at e
    · simp at e; rw [← e]

theorem move_result {esft : Bool} {x : SharedPtr} {h : Heap} {r : SharedPtr × SharedPtr × Heap}
    (e : SharedPtr.move esft x h = .ok r) :
    r.1 = { block_ := x.block_, ptr_ := x.ptr_ } ∧ r.2.1 = {} := by
  unfold SharedPtr.move at e
  simp only at e
  split at e
  · simp at e
  · simp at e; rw [← e]; exact ⟨rfl, rfl⟩

theorem fromRaw_result {esft : Bool} {ptr : Option Nat} {h : Heap} {r : SharedPtr × Heap}
    (e : SharedPtr.fromRaw esft ptr h = .ok r) : r.1.block_ ≠ none := by
  unfold SharedPtr.fromRaw at e
  simp only [Heap.alloc] at e
  split at e
  · split at e
    · simp at e
    · simp at e; rw [← e]; simp
  · simp at e; rw [← e]; simp

theorem makeShared_result {esft : Bool} {v : Nat} {h : Heap} {r : SharedPtr × Heap}
    (e : MakeShared esft v h = .ok r) : r.1.block_ ≠ none := by
  unfold MakeShared SharedPtr.fromBlock at e
  simp only [Heap.alloc] at e
  split at e
  · split at e
    · simp at e
    · simp at e; rw [← e]; simp
  · simp at e; rw [← e]; simp

theorem aliasing_result {x : SharedPtr} {ptr : Option Nat} {h : Heap} {r : SharedPtr × Heap}
    (e : SharedPtr.aliasing x ptr h = .ok r) : WellHeld r.1 := by
  cases hi : SharedPtr.Increase { block_ := x.block_, ptr_ := ptr } h with
  | error err => simp [SharedPtr.aliasing, hi] at e
  | ok h1 =>
    simp [SharedPtr.aliasing, hi] at e
    rw [← e]
    exact sharedIncrease_block hi

theorem promote_result {w : WeakPtr} {h : Heap} {r : SharedPtr × Heap}
    (e : SharedPtr.promote w h = .ok r) : WellHeld r.1 := by
  cases hx : w.Expired h with
  | error err => simp [SharedPtr.promote, hx] at e
  | ok b =>
    cases b with
    | true => simp [SharedPtr.promote, hx] at e
    | false =>
      cases hi : SharedPtr.Increase { block_ := w.block_, ptr_ := w.ptr_ } h with
      | error err => simp [SharedPtr.promote, hx, hi] at e
      | ok h1 =>
        simp [SharedPtr.promote, hx, hi] at e
        rw [← e]
        exact sharedIncrease_block hi

theorem lock_result {w : WeakPtr} {h : Heap} {r : SharedPtr × Heap}
    (e : w.Lock h = .ok r) : WellHeld r.1 := by
  cases hx : w.Expired h with
  | error err => simp [WeakPtr.Lock, hx] at e
  | ok b =>
    cases b with
    | true => simp [WeakPtr.Lock, hx] at e; rw [← e]; exact wellHeld_empty
    | false => simp [WeakPtr.Lock, hx] at e; exact promote_result e

theorem copyAssign_result {esft : Bool} {x : SharedPtr} {other : Option SharedPtr} {h : Heap}
    {r : SharedPtr × Heap} (e : SharedPtr.copyAssign esft x other h = .ok r)
    (hx : WellHeld x) (ho : ∀ o, other = some o → WellHeld o) : WellHeld r.1 := by
  cases hd : x.Decrease esft h with
  | error err => simp [SharedPtr.copyAssign, hd] at e
  | ok d =>
    have hd1 : WellHeld d.1 := by
      rcases decrease_result hd with h1 | h1
      · rw [h1]; exact hx
      · exact wellHeld_of_null h1
    have hsrc : WellHeld (other.getD d.1) := by
      cases other with
      | none => exact hd1
      | some o => exact ho o rfl
    cases hi : SharedPtr.Increase
        { block_ := (other.getD d.1).block_, ptr_ := (other.getD d.1).ptr_ } d.2 with
    | error err => simp [SharedPtr.copyAssign, hd, hi] at e
    | ok h1 =>
      simp [SharedPtr.copyAssign, hd, hi] at e
      rw [← e]
      exact wellHeld_fields hsrc rfl rfl

theorem moveAssign_result {esft : Bool} {x o : SharedPtr} {h : Heap}
    {r : SharedPtr × SharedPtr × Heap} (e : SharedPtr.moveAssign esft x o h = .ok r) :
    r.1 = { block_ := o.block_, ptr_ := o.ptr_ } ∧ r.2.1 = {} := by
  cases hd : x.Decrease esft h with
  | error err => simp [SharedPtr.moveAssign, hd] at e
  | ok d => simp [SharedPtr.moveAssign, hd] at e; rw [← e]; exact ⟨rfl, rfl⟩

theorem moveAssignSelf_result {esft : Bool} {x : SharedPtr} {h : Heap}
    {r : SharedPtr × Heap} (e : SharedPtr.moveAssignSelf esft x h = .ok r) : r.1 = {} := by
  cases hd : x.Decrease esft h with
  | error err => simp [SharedPtr.moveAssignSelf, hd] at e
  | ok d => simp [SharedPtr.moveAssignSelf, hd] at e; rw [← e]

theorem reset_result {esft : Bool} {x : SharedPtr} {h : Heap}
    {r : SharedPtr × Heap} (e : SharedPtr.Reset esft x h = .ok r) : r.1 = {} := by
  cases hd : x.Decrease esft h with
  | error err => simp [SharedPtr.Reset, hd] at e
  | ok d => simp [SharedPtr.Reset, hd] at e; rw [← e]

theorem resetPtr_result {esft e2 : Bool} {x : SharedPtr} {ptr : Option Nat} {h : Heap}
    {r : SharedPtr × Heap} (e : SharedPtr.ResetPtr esft e2 x ptr h = .ok r) :
    r.1.block_ ≠ none := by
  cases hd : x.Decrease esft h with
  | error err => simp [SharedPtr.ResetPtr, hd] at e
  | ok d => simp [SharedPtr.ResetPtr, hd, Heap.alloc] at e; rw [← e]; simp

theorem sharedFromThis_result {o : Nat} {h : Heap} {r : SharedPtr × Heap}
    (e : SharedFromThis o h = .ok r) : WellHeld r.1 := by
  unfold SharedFromThis at e
  split at e
  · simp at e
  · exact lock_result e

theorem step_wellHeld {esft : Bool} {s s1 : State} (op : Op)
    (inv : ∀ x ∈ s.shared, WellHeld x) (e : step esft s op = .ok s1) :
    ∀ x ∈ s1.shared, WellHeld x := by
  cases op with
  | sharedDefault =>
    simp [step] at e; rw [← e]
    exact forall_mem_push inv wellHeld_empty
  | sharedFromRaw ptr =>
    cases hr : SharedPtr.fromRaw esft ptr s.heap with
    | error err => simp [step, hr] at e
    | ok r =>
      simp [step, hr] at e; rw [← e]
      exact forall_mem_push inv (wellHeld_of_block (fromRaw_result hr))
  | makeShared v =>
    cases hr : MakeShared esft v s.heap with
    | error err => simp [step, hr] at e
    | ok r =>
      simp [step, hr] at e; rw [← e]
      exact forall_mem_push inv (wellHeld_of_block (makeShared_result hr))
  | sharedCopy i =>
    cases hi : s.shared[i]? with
    | none => simp [step, hi] at e; rw [← e]; exact inv
    | some a =>
      cases hr : SharedPtr.copy esft a s.heap with
      | error err => simp [step, hi, hr] at e
      | ok r =>
        simp [step, hi, hr] at e; rw [← e]
        refine forall_mem_push inv ?_
        rw [copy_result hr]
        exact wellHeld_fields (inv a (List.getElem?_mem hi)) rfl rfl
  | sharedMove i =>
    cases hi : s.shared[i]? with
    | none => simp [step, hi] at e; rw [← e]; exact inv
    | some a =>
      cases hr : SharedPtr.move esft a s.heap with
      | error err => simp [step, hi, hr] at e
      | ok r =>
        simp [step, hi, hr] at e; rw [← e]
        obtain ⟨r1, r2⟩ := move_result hr
        refine forall_mem_push (forall_mem_set i inv ?_) ?_
        · rw [r2]; exact wellHeld_empty
        · rw [r1]; exact wellHeld_fields (inv a (List.getElem?_mem hi)) rfl rfl
  | sharedAlias i ptr =>
    cases hi : s.shared[i]? with
    | none => simp [step, hi] at e; rw [← e]; exact inv
    | some a =>
      cases hr : SharedPtr.aliasing a ptr s.heap with
      | error err => simp [step, hi, hr] at e
      | ok r =>
        simp [step, hi, hr] at e; rw [← e]
        exact forall_mem_push inv (aliasing_result hr)
  | sharedPromote j =>
    cases hj : s.weak[j]? with
    | none => simp [step, hj] at e; rw [← e]; exact inv
    | some w =>
      cases hr : SharedPtr.promote w s.heap with
      | error err => simp [step, hj, hr] at e
      | ok r =>
        simp [step, hj, hr] at e; rw [← e]
        exact forall_mem_push inv (promote_result hr)
  | sharedAssign i j =>
    cases hi : s.shared[i]? with
    | none => simp [step, hi] at e; rw [← e]; exact inv
    | some a =>
      cases hj : s.shared[j]? with
      | none => simp [step, hi, hj] at e; rw [← e]; exact inv
      | some b =>
        cases hr : SharedPtr.copyAssign esft a (if i = j then none else some b) s.heap with
        | error err => simp [step, hi, hj, hr] at e
        | ok r =>
          simp [step, hi, hj, hr] at e; rw [← e]
          refine forall_mem_set i inv (copyAssign_result hr (inv a (List.getElem?_mem hi)) ?_)
          intro o ho
          split at ho
          · simp at ho
          · simp at ho; rw [← ho]; exact inv b (List.getElem?_mem hj)
  | sharedMoveAssign i j =>
    cases hi : s.shared[i]? with
    | none => simp [step, hi] at e; rw [← e]; exact inv
    | some a =>
      cases hj : s.shared[j]? with
      | none => simp [step, hi, hj] at e; rw [← e]; exact inv
      | some b =>
        by_cases hij : i = j
        · subst hij
          rw [hi] at hj; injection hj with hab; subst hab
          cases hr : SharedPtr.moveAssignSelf esft a s.heap with
          | error err => simp [step, hi, hr] at e
          | ok r =>
            simp [step, hi, hr] at e; rw [← e]
            refine forall_mem_set i inv ?_
            rw [moveAssignSelf_result hr]; exact wellHeld_empty
        · cases hr : SharedPtr.moveAssign esft a b s.heap with
          | error err => simp [step, hi, hj, hij, hr] at e
          | ok r =>
            simp [step, hi, hj, hij, hr] at e; rw [← e]
            obtain ⟨r1, r2⟩ := moveAssign_result hr
            refine forall_mem_set j (forall_mem_set i inv ?_) ?_
            · rw [r1]; exact wellHeld_fields (inv b (List.getElem?_mem hj)) rfl rfl
            · rw [r2]; exact wellHeld_empty
  | sharedDestroy i =>
    cases hi : s.shared[i]? with
    | none => simp [step, hi] at e; rw [← e]; exact inv
    | some a =>
      cases hr : SharedPtr.destroy esft a s.heap with
      | error err => simp [step, hi, hr] at e
      | ok r =>
        simp [step, hi, hr] at e; rw [← e]
        exact forall_mem_erase i inv
  | sharedReset i =>
    cases hi : s.shared[i]? with
    | none => simp [step, hi] at e; rw [← e]; exact inv
    | some a =>
      cases hr : SharedPtr.Reset esft a s.heap with
      | error err => simp [step, hi, hr] at e
      | ok r =>
        simp [step, hi, hr] at e; rw [← e]
        refine forall_mem_set i inv ?_
        rw [reset_result hr]; exact wellHeld_empty
  | sharedResetPtr i ptr =>
    cases hi : s.shared[i]? with
    | none => simp [step, hi] at e; rw [← e]; exact inv
    | some a =>
      cases hr : SharedPtr.ResetPtr esft esft a ptr s.heap with
      | error err => simp [step, hi, hr] at e
      | ok r =>
        simp [step, hi, hr] at e; rw [← e]
        exact forall_mem_set i inv (wellHeld_of_block (resetPtr_result hr))
  | sharedSwap i j =>
    cases hi : s.shared[i]? with
    | none => simp [step, hi] at e; rw [← e]; exact inv
    | some a =>
      cases hj : s.shared[j]? with
      | none => simp [step, hi, hj] at e; rw [← e]; exact inv
      | some b =>
        simp [step, hi, hj] at e; rw [← e]
        refine forall_mem_set j (forall_mem_set i inv ?_) ?_
        · exact wellHeld_fields (inv b (List.getElem?_mem hj)) rfl rfl
        · exact wellHeld_fields (inv a (List.getElem?_mem hi)) rfl rfl
  | weakDefault => simp [step] at e; rw [← e]; exact inv
  | weakCopy j =>
    cases hj : s.weak[j]? with
    | none => simp [step, hj] at e; rw [← e]; exact inv
    | some w =>
      cases hr : WeakPtr.copy w s.heap with
      | error err => simp [step, hj, hr] at e
      | ok r => simp [step, hj, hr] at e; rw [← e]; exact inv
  | weakMove j =>
    cases hj : s.weak[j]? with
    | none => simp [step, hj] at e; rw [← e]; exact inv
    | some w => simp [step, hj] at e; rw [← e]; exact inv
  | weakFromShared i =>
    cases hi : s.shared[i]? with
    | none => simp [step, hi] at e; rw [← e]; exact inv
    | some a =>
      cases hr : WeakPtr.fromShared a s.heap with
      | error err => simp [step, hi, hr] at e
      | ok r => simp [step, hi, hr] at e; rw [← e]; exact inv
  | weakAssign j k =>
    cases hj : s.weak[j]? with
    | none => simp [step, hj] at e; rw [← e]; exact inv
    | some a =>
      cases hk : s.weak[k]? with
      | none => simp [step, hj, hk] at e; rw [← e]; exact inv
      | some b =>
        cases hr : WeakPtr.copyAssign a (if j = k then none else some b) s.heap with
        | error err => simp [step, hj, hk, hr] at e
        | ok r => simp [step, hj, hk, hr] at e; rw [← e]; exact inv
  | weakMoveAssign j k =>
    cases hj : s.weak[j]? with
    | none => simp [step, hj] at e; rw [← e]; exact inv
    | some a =>
      cases hk : s.weak[k]? with
      | none => simp [step, hj, hk] at e; rw [← e]; exact inv
      | some b =>
        by_cases hjk : j = k
        · subst hjk
          rw [hj] at hk; injection hk with hab; subst hab
          cases hr : WeakPtr.moveAssignSelf a s.heap with
          | error err => simp [step, hj, hr] at e
          | ok r => simp [step, hj, hr] at e; rw [← e]; exact inv
        · cases hr : WeakPtr.moveAssign a b s.heap with
          | error err => simp [step, hj, hk, hjk, hr] at e
          | ok r => simp [step, hj, hk, hjk, hr] at e; rw [← e]; exact inv
  | weakDestroy j =>
    cases hj : s.weak[j]? with
    | none => simp [step, hj] at e; rw [← e]; exact inv
    | some w =>
      cases hr : WeakPtr.destroy w s.heap with
      | error err => simp [step, hj, hr] at e
      | ok r => simp [step, hj, hr] at e; rw [← e]; exact inv
  | weakReset j =>
    cases hj : s.weak[j]? with
    | none => simp [step, hj] at e; rw [← e]; exact inv
    | some w =>
      cases hr : WeakPtr.Reset w s.heap with
      | error err => simp [step, hj, hr] at e
      | ok r => simp [step, hj, hr] at e; rw [← e]; exact inv
  | weakSwap j k =>
    cases hj : s.weak[j]? with
    | none => simp [step, hj] at e; rw [← e]; exact inv
    | some a =>
      cases hk : s.weak[k]? with
      | none => simp [step, hj, hk] at e; rw [← e]; exact inv
      | some b => simp [step, hj, hk] at e; rw [← e]; exact inv
  | lock j =>
    cases hj : s.weak[j]? with
    | none => simp [step, hj] at e; rw [← e]; exact inv
    | some w =>
      cases hr : WeakPtr.Lock w s.heap with
      | error err => simp [step, hj, hr] at e
      | ok r =>
        simp [step, hj, hr] at e; rw [← e]
        exact forall_mem_push inv (lock_result hr)
  | sharedFromThis o =>
    cases hr : SharedFromThis o s.heap with
    | error err => simp [step, hr] at e
    | ok r =>
      simp [step, hr] at e; rw [← e]
      exact forall_mem_push inv (sharedFromThis_result hr)
  | weakFromThis o =>
    cases hr : WeakFromThis o s.heap with
    | error err => simp [step, hr] at e
    | ok r => simp [step, hr] at e; rw [← e]; exact inv

theorem run_wellHeld {esft : Bool} :
    ∀ (ops : List Op) (s s1 : State), (∀ x ∈ s.shared, WellHeld x) →
      run esft s ops = .ok s1 → ∀ x ∈ s1.shared, WellHeld x := by
  intro ops
  induction ops with
  | nil => intro s s1 inv e; simp [run] at e; rw [← e]; exact inv
  | cons op rest ih =>
    intro s s1 inv e
    cases hs : step esft s op with
    | error err => simp [run, hs] at e
    | ok s2 =>
      simp [run, hs] at e
      exact ih s2 s1 (step_wellHeld op inv hs) e

/-- C13. In every state a program of the public `SharedPtr` and `WeakPtr`
operations reaches from no handle at all (default, raw-pointer and `MakeShared`
construction, copy, move, aliasing with any source and any pointer, promotion,
copy and move assignment, also of a handle to itself, destruction, `Reset()`,
`Reset(T*)`, `Swap`, `Lock()`, `SharedFromThis()`, and every `WeakPtr`
operation), for element types with and without the self-reference capability,
every `SharedPtr` with a non-null observed pointer has a non-null control
block. -/
theorem handle_invariant (esft : Bool) (ops : List Op) (s : State)
    (h : run esft emptyState ops = .ok s) :
    ∀ x ∈ s.shared, x.ptr_ ≠ none → x.block_ ≠ none :=
  run_wellHeld ops emptyState s (fun x hx => by simp [emptyState] at hx) h

theorem handle_invariant_witness :
    ∃ s, run false emptyState
        [Op.sharedFromRaw (some 7), Op.sharedAlias 0 (some 9), Op.sharedAlias 0 none,
         Op.weakFromShared 1, Op.sharedReset 0, Op.lock 0, Op.sharedSwap 1 2] = .ok s ∧
      ∀ x ∈ s.shared, x.ptr_ ≠ none → x.block_ ≠ none := by
  cases hr : run false emptyState
      [Op.sharedFromRaw (some 7), Op.sharedAlias 0 (some 9), Op.sharedAlias 0 none,
       Op.weakFromShared 1, Op.sharedReset 0, Op.lock 0, Op.sharedSwap 1 2] with
  | error err =>
    have h1 : Except.isOk (run false emptyState
        [Op.sharedFromRaw (some 7), Op.sharedAlias 0 (some 9), Op.sharedAlias 0 none,
         Op.weakFromShared 1, Op.sharedReset 0, Op.lock 0, Op.sharedSwap 1 2]) = true := rfl
    rw [hr] at h1
    exact absurd h1 (by simp [Except.isOk, Except.toBool])
  | ok s => exact ⟨s, rfl, handle_invariant false _ s hr⟩

/-! ## `Expired()` -/

/-- C15. `WeakPtr::Expired()`, for a handle whose block pointer is null or
points to a live block, returns true if and only if the block pointer is null
or the strong counter of the block is `0`. For a group under any program of
aliasing constructions (non-empty source, non-null pointer), `SharedPtr`
copy/move constructions, `Reset()`, destructions and `WeakPtr` operations,
`Expired()` of every `WeakPtr` of the group is defined and is false exactly
while a strong handle of the group with a non-null observed pointer is held. -/
theorem expired_iff (esft viaMake : Bool) (ptr : Nat) (ops : List Op)
    (hops : ops.all Op.isAliasGroupOp = true)
    (hlegal : legalProgram (Op.aliasOk esft) esft viaMake ptr ops = true)
    (hlen : ops.length + 4 < SIZE_MOD) :
    (∀ (w : WeakPtr) (h : Heap),
      (w.block_ = none ∨ ∃ B cb, w.block_ = some B ∧ h.blocks B = some cb) →
      ∃ b, w.Expired h = .ok b ∧
        (b = true ↔ (w.block_ = none ∨
          ∃ B cb, w.block_ = some B ∧ h.blocks B = some cb ∧ cb.strong_counter_ = 0))) ∧
    ∃ s0 s, start esft viaMake ptr = .ok s0 ∧ run esft s0 ops = .ok s ∧
      ∀ w ∈ s.weak, w.block_ = some 0 →
        strongOf s.heap 0 = some (owners 0 s.shared) ∧
        w.Expired s.heap = .ok (decide (owners 0 s.shared = 0)) := by
  constructor
  · intro w h hw
    rcases hw with hn | ⟨B, cb, hB, hc⟩
    · exact ⟨true, by simp [WeakPtr.Expired, hn], by simp [hn]⟩
    · refine ⟨decide (cb.strong_counter_ = 0),
        by simp [WeakPtr.Expired, hB, Heap.deref, hc, ControlBlock.GetStrongCounter], ?_⟩
      constructor
      · intro hb
        exact Or.inr ⟨B, cb, hB, hc, by simpa using hb⟩
      · intro hb
        rcases hb with hn | ⟨B1, cb1, hB1, hc1, hz⟩
        · rw [hn] at hB; cases hB
        · rw [hB] at hB1; injection hB1 with hBB; subst hBB
          rw [hc] at hc1; injection hc1 with hcc; subst hcc
          simpa using hz
  · obtain ⟨s0, e0, i0, hs0, hw0⟩ := start_inv esft viaMake ptr (fun _ => True) trivial
    simp only [legalProgram, e0] at hlegal
    have hlen0 : s0.shared.length + s0.weak.length = 1 := by simp [hs0, hw0]
    obtain ⟨s, e1, i1, _, _⟩ := group_run (Op.aliasOk esft) Op.isAliasGroupOp
      (fun _ ho => ho) (fun s o _ inv h => aliasOk_sem s o inv h)
      ops s0 i0 hops hlegal (by omega)
    refine ⟨s0, s, e0, e1, ?_⟩
    intro w hmem hw
    have hpos := watchers_pos hmem hw
    have hne : ¬ (owners 0 s.shared + watchers 0 s.weak = 0) := by omega
    have hblk := i1.heap.blk
    simp only [groupBlock, hne, if_false] at hblk
    refine ⟨strongOf_group i1.heap (by omega), ?_⟩
    simp [WeakPtr.Expired, hw, Heap.deref, hblk, ControlBlock.GetStrongCounter]

theorem expired_iff_witness :
    ([Op.weakFromShared 0, Op.sharedCopy 0, Op.sharedDestroy 0].all Op.isAliasGroupOp = true ∧
      legalProgram (Op.aliasOk false) false false 7
        [Op.weakFromShared 0, Op.sharedCopy 0, Op.sharedDestroy 0] = true ∧
      [Op.weakFromShared 0, Op.sharedCopy 0, Op.sharedDestroy 0].length + 4 < SIZE_MOD) ∧
    ∃ s0 s, start false false 7 = .ok s0 ∧
      run false s0 [Op.weakFromShared 0, Op.sharedCopy 0, Op.sharedDestroy 0] = .ok s ∧
      ∀ w ∈ s.weak, w.block_ = some 0 →
        strongOf s.heap 0 = some (owners 0 s.shared) ∧
        w.Expired s.heap = .ok (decide (owners 0 s.shared = 0)) :=
  ⟨⟨by decide, by decide, by decide⟩,
    (expired_iff false false 7 [Op.weakFromShared 0, Op.sharedCopy 0, Op.sharedDestroy 0]
      (by decide) (by decide) (by decide)).2⟩

/-! ## `WeakPtr` operations and the strong counter -/

theorem strongSame_refl (h : Heap) : StrongSame h h :=
  ⟨fun _ cb1 h1 => ⟨cb1, h1, rfl⟩, rfl, rfl⟩

theorem strongSame_trans {h h1 h2 : Heap} (a : StrongSame h h1) (b : StrongSame h1 h2) :
    StrongSame h h2 := by
  refine ⟨fun B cb2 h2b => ?_, b.2.1.trans a.2.1, b.2.2.trans a.2.2⟩
  obtain ⟨cb1, h1b, e1⟩ := b.1 B cb2 h2b
  obtain ⟨cb, hb, e0⟩ := a.1 B cb1 h1b
  exact ⟨cb, hb, e0.trans e1⟩

theorem deleteBlock_strong {h h1 : Heap} {b : Option Nat} (e : h.deleteBlock b = .ok h1) :
    StrongSame h h1 := by
  cases b with
  | none => simp [Heap.deleteBlock] at e; rw [← e]; exact strongSame_refl h
  | some a =>
    cases hb : h.blocks a with
    | none => simp [Heap.deleteBlock, hb] at e
    | some cb =>
      simp [Heap.deleteBlock, hb] at e
      rw [← e]
      refine ⟨fun B cb1 h1b => ?_, rfl, rfl⟩
      by_cases hB : B = a
      · simp [hB] at h1b
      · simp [hB] at h1b; exact ⟨cb1, h1b, rfl⟩

theorem setWeak_strong {h : Heap} {a : Nat} {cb cb1 : ControlBlock} (hb : h.blocks a = some cb)
    (hs : cb1.strong_counter_ = cb.strong_counter_) : StrongSame h (h.setBlock a cb1) := by
  refine ⟨fun B cb2 h2 => ?_, rfl, rfl⟩
  by_cases hB : B = a
  · subst hB
    simp [Heap.setBlock] at h2
    exact ⟨cb, hb, by rw [← h2]; exact hs.symm⟩
  · simp [Heap.setBlock, hB] at h2
    exact ⟨cb2, h2, rfl⟩

theorem weakIncrease_strong {w : WeakPtr} {h h1 : Heap} (e : w.Increase h = .ok h1) :
    StrongSame h h1 := by
  cases hw : w.block_ with
  | none => simp [WeakPtr.Increase, hw] at e; rw [← e]; exact strongSame_refl h
  | some a =>
    cases hb : h.blocks a with
    | none => simp [WeakPtr.Increase, hw, Heap.deref, hb] at e
    | some cb =>
      simp [WeakPtr.Increase, hw, Heap.deref, hb] at e
      rw [← e]
      exact setWeak_strong hb rfl

theorem weakDecrease_strong {w : WeakPtr} {h h1 : Heap} (e : w.Decrease h = .ok h1) :
    StrongSame h h1 := by
  cases hw : w.block_ with
  | none => simp [WeakPtr.Decrease, hw] at e; rw [← e]; exact strongSame_refl h
  | some a =>
    cases hb : h.blocks a with
    | none => simp [WeakPtr.Decrease, hw, Heap.deref, hb] at e
    | some cb =>
      have s1 : StrongSame h (h.setBlock a cb.DecWeak) := setWeak_strong hb rfl
      by_cases hz : cb.DecWeak.GetCounter = 0
      · simp only [WeakPtr.Decrease, hw, Heap.deref, hb, hz, if_true] at e
        exact strongSame_trans s1 (deleteBlock_strong e)
      · simp [WeakPtr.Decrease, hw, Heap.deref, hb, hz] at e
        rw [← e]; exact s1

theorem fromShared_strong {x : SharedPtr} {h : Heap} {r : WeakPtr × Heap}
    (e : WeakPtr.fromShared x h = .ok r) : StrongSame h r.2 := by
  cases hi : WeakPtr.Increase { block_ := x.block_, ptr_ := x.ptr_ } h with
  | error err => simp [WeakPtr.fromShared, hi] at e
  | ok h3 => simp [WeakPtr.fromShared, hi] at e; rw [← e]; exact weakIncrease_strong hi

theorem weakCopy_strong {w : WeakPtr} {h : Heap} {r : WeakPtr × Heap}
    (e : WeakPtr.copy w h = .ok r) : StrongSame h r.2 := by
  cases hi : WeakPtr.Increase { block_ := w.block_, ptr_ := w.ptr_ } h with
  | error err => simp [WeakPtr.copy, hi] at e
  | ok h3 => simp [WeakPtr.copy, hi] at e; rw [← e]; exact weakIncrease_strong hi

theorem weakCopyAssign_strong {w : WeakPtr} {o : Option WeakPtr} {h : Heap} {r : WeakPtr × Heap}
    (e : WeakPtr.copyAssign w o h = .ok r) : StrongSame h r.2 := by
  cases hd : w.Decrease h with
  | error err => simp [WeakPtr.copyAssign, hd] at e
  | ok h2 =>
    cases hi : WeakPtr.Increase
        { block_ := (o.getD w).block_, ptr_ := (o.getD w).ptr_ } h2 with
    | error err => simp [WeakPtr.copyAssign, hd, hi] at e
    | ok h3 =>
      simp [WeakPtr.copyAssign, hd, hi] at e; rw [← e]
      exact strongSame_trans (weakDecrease_strong hd) (weakIncrease_strong hi)

theorem weakMoveAssign_strong {w o : WeakPtr} {h : Heap} {r : WeakPtr × WeakPtr × Heap}
    (e : WeakPtr.moveAssign w o h = .ok r) : StrongSame h r.2.2 := by
  cases hd : w.Decrease h with
  | error err => simp [WeakPtr.moveAssign, hd] at e
  | ok h2 => simp [WeakPtr.moveAssign, hd] at e; rw [← e]; exact weakDecrease_strong hd

theorem weakMoveAssignSelf_strong {w : WeakPtr} {h : Heap} {r : WeakPtr × Heap}
    (e : WeakPtr.moveAssignSelf w h = .ok r) : StrongSame h r.2 := by
  cases hd : w.Decrease h with
  | error err => simp [WeakPtr.moveAssignSelf, hd] at e
  | ok h2 => simp [WeakPtr.moveAssignSelf, hd] at e; rw [← e]; exact weakDecrease_strong hd

theorem weakReset_strong {w : WeakPtr} {h : Heap} {r : WeakPtr × Heap}
    (e : w.Reset h = .ok r) : StrongSame h r.2 := by
  cases hd : w.Decrease h with
  | error err => simp [WeakPtr.Reset, hd] at e
  | ok h2 => simp [WeakPtr.Reset, hd] at e; rw [← e]; exact weakDecrease_strong hd

theorem weakFromThis_strong {o : Nat} {h : Heap} {r : WeakPtr × Heap}
    (e : WeakFromThis o h = .ok r) : StrongSame h r.2 := by
  unfold WeakFromThis at e
  split at e
  · simp at e
  · exact weakCopy_strong e

theorem step_weak_strong {esft : Bool} {s s1 : State} (op : Op) (hop : op.isWeakOp = true)
    (e : step esft s op = .ok s1) : StrongSame s.heap s1.heap ∧ s1.shared = s.shared := by
  cases op <;> simp [Op.isWeakOp] at hop
  case weakDefault => simp [step] at e; rw [← e]; exact ⟨strongSame_refl _, rfl⟩
  case weakCopy j =>
    cases hj : s.weak[j]? with
    | none => simp [step, hj] at e; rw [← e]; exact ⟨strongSame_refl _, rfl⟩
    | some w =>
      cases hr : WeakPtr.copy w s.heap with
      | error err => simp [step, hj, hr] at e
      | ok r => simp [step, hj, hr] at e; rw [← e]; exact ⟨weakCopy_strong hr, rfl⟩
  case weakMove j =>
    cases hj : s.weak[j]? with
    | none => simp [step, hj] at e; rw [← e]; exact ⟨strongSame_refl _, rfl⟩
    | some w => simp [step, hj] at e; rw [← e]; exact ⟨strongSame_refl _, rfl⟩
  case weakFromShared i =>
    cases hi : s.shared[i]? with
    | none => simp [step, hi] at e; rw [← e]; exact ⟨strongSame_refl _, rfl⟩
    | some a =>
      cases hr : WeakPtr.fromShared a s.heap with
      | error err => simp [step, hi, hr] at e
      | ok r => simp [step, hi, hr] at e; rw [← e]; exact ⟨fromShared_strong hr, rfl⟩
  case weakAssign j k =>
    cases hj : s.weak[j]? with
    | none => simp [step, hj] at e; rw [← e]; exact ⟨strongSame_refl _, rfl⟩
    | some a =>
      cases hk : s.weak[k]? with
      | none => simp [step, hj, hk] at e; rw [← e]; exact ⟨strongSame_refl _, rfl⟩
      | some b =>
        cases hr : WeakPtr.copyAssign a (if j = k then none else some b) s.heap with
        | error err => simp [step, hj, hk, hr] at e
        | ok r =>
          simp [step, hj, hk, hr] at e; rw [← e]; exact ⟨weakCopyAssign_strong hr, rfl⟩
  case weakMoveAssign j k =>
    cases hj : s.weak[j]? with
    | none => simp [step, hj] at e; rw [← e]; exact ⟨strongSame_refl _, rfl⟩
    | some a =>
      cases hk : s.weak[k]? with
      | none => simp [step, hj, hk] at e; rw [← e]; exact ⟨strongSame_refl _, rfl⟩
      | some b =>
        by_cases hjk : j = k
        · subst hjk
          rw [hj] at hk; injection hk with hab; subst hab
          cases hr : WeakPtr.moveAssignSelf a s.heap with
          | error err => simp [step, hj, hr] at e
          | ok r =>
            simp [step, hj, hr] at e; rw [← e]; exact ⟨weakMoveAssignSelf_strong hr, rfl⟩
        · cases hr : WeakPtr.moveAssign a b s.heap with
          | error err => simp [step, hj, hk, hjk, hr] at e
          | ok r =>
            simp [step, hj, hk, hjk, hr] at e; rw [← e]; exact ⟨weakMoveAssign_strong hr, rfl⟩
  case weakDestroy j =>
    cases hj : s.weak[j]? with
    | none => simp [step, hj] at e; rw [← e]; exact ⟨strongSame_refl _, rfl⟩
    | some w =>
      cases hr : WeakPtr.destroy w s.heap with
      | error err => simp [step, hj, hr] at e
      | ok r =>
        simp [step, hj, hr] at e; rw [← e]
        exact ⟨weakDecrease_strong hr, rfl⟩
  case weakReset j =>
    cases hj : s.weak[j]? with
    | none => simp [step, hj] at e; rw [← e]; exact ⟨strongSame_refl _, rfl⟩
    | some w =>
      cases hr : WeakPtr.Reset w s.heap with
      | error err => simp [step, hj, hr] at e
      | ok r => simp [step, hj, hr] at e; rw [← e]; exact ⟨weakReset_strong hr, rfl⟩
  case weakSwap j k =>
    cases hj : s.weak[j]? with
    | none => simp [step, hj] at e; rw [← e]; exact ⟨strongSame_refl _, rfl⟩
    | some a =>
      cases hk : s.weak[k]? with
      | none => simp [step, hj, hk] at e; rw [← e]; exact ⟨strongSame_refl _, rfl⟩
      | some b => simp [step, hj, hk] at e; rw [← e]; exact ⟨strongSame_refl _, rfl⟩
  case weakFromThis o =>
    cases hr : WeakFromThis o s.heap with
    | error err => simp [step, hr] at e
    | ok r => simp [step, hr] at e; rw [← e]; exact ⟨weakFromThis_strong hr, rfl⟩

/-- C16. Constructing a `WeakPtr` from a `SharedPtr` that holds a live block
returns a handle with the block and the observed pointer of the source, takes
the weak counter of the block to one more (modulo `2 ^ 64`) and leaves its
strong counter and every other block as they are. Every `WeakPtr` operation
other than `Lock()` (default, copy and move construction, construction from a
`SharedPtr`, copy and move assignment, also of a handle to itself, destruction,
`Reset()`, `Swap`, `WeakFromThis()`) leaves the strong handles, the strong
counter of every block that is alive afterwards, the number of `DeleteObject()`
calls and the destroyed objects as they are. Releasing a counted weak reference
does not delete a block whose strong counter is not `0`. -/
theorem weak_ops_keep_strong :
    (∀ (x : SharedPtr) (h : Heap) (B : Nat) (cb : ControlBlock),
      x.block_ = some B → h.blocks B = some cb →
      ∃ h1, WeakPtr.fromShared x h = .ok ({ block_ := x.block_, ptr_ := x.ptr_ }, h1) ∧
        weakOf h1 B = some ((cb.weak_counter_ + 1) % SIZE_MOD) ∧
        (cb.weak_counter_ + 1 < SIZE_MOD → weakOf h1 B = some (cb.weak_counter_ + 1)) ∧
        strongOf h1 B = some cb.strong_counter_ ∧
        (∀ y, y ≠ B → h1.blocks y = h.blocks y) ∧ StrongSame h h1) ∧
    (∀ (esft : Bool) (s s1 : State) (op : Op), op.isWeakOp = true →
      step esft s op = .ok s1 → StrongSame s.heap s1.heap ∧ s1.shared = s.shared) ∧
    (∀ (w : WeakPtr) (h : Heap) (B : Nat) (cb : ControlBlock),
      w.block_ = some B → h.blocks B = some cb → cb.strong_counter_ ≠ 0 →
      0 < cb.weak_counter_ → cb.strong_counter_ + cb.weak_counter_ ≤ SIZE_MOD →
      ∃ h1, w.Decrease h = .ok h1 ∧ strongOf h1 B = some cb.strong_counter_ ∧
        weakOf h1 B = some (cb.weak_counter_ - 1)) := by
  refine ⟨?_, fun esft s s1 op hop e => step_weak_strong op hop e, ?_⟩
  · intro x h B cb hB hc
    have e : WeakPtr.fromShared x h
        = .ok ({ block_ := x.block_, ptr_ := x.ptr_ }, h.setBlock B cb.IncWeak) := by
      simp [WeakPtr.fromShared, WeakPtr.Increase, hB, Heap.deref, hc]
    refine ⟨h.setBlock B cb.IncWeak, e, ?_, ?_, ?_, ?_, fromShared_strong e⟩
    · simp [weakOf, Heap.setBlock, ControlBlock.IncWeak, ControlBlock.GetWeakCounter]
    · intro hlt
      simp [weakOf, Heap.setBlock, ControlBlock.IncWeak, ControlBlock.GetWeakCounter,
        Nat.mod_eq_of_lt hlt]
    · simp [strongOf, Heap.setBlock, ControlBlock.IncWeak, ControlBlock.GetStrongCounter]
    · intro y hy
      simp [Heap.setBlock, hy]
  · intro w h B cb hB hc hs hw hle
    have hw0 : ¬ (cb.weak_counter_ = 0) := by omega
    have e1 : (cb.strong_counter_ + (cb.weak_counter_ - 1)) % SIZE_MOD
        = cb.strong_counter_ + (cb.weak_counter_ - 1) := size_id _ (by omega)
    have e2 : ¬ (cb.strong_counter_ + (cb.weak_counter_ - 1) = 0) := by omega
    refine ⟨h.setBlock B cb.DecWeak, ?_, ?_, ?_⟩
    · simp [WeakPtr.Decrease, hB, Heap.deref, hc, ControlBlock.DecWeak, ControlBlock.GetCounter,
        ControlBlock.GetStrongCounter, ControlBlock.GetWeakCounter, hw0, e1, e2]
    · simp [strongOf, Heap.setBlock, ControlBlock.DecWeak, ControlBlock.GetStrongCounter]
    · simp [weakOf, Heap.setBlock, ControlBlock.DecWeak, ControlBlock.GetWeakCounter, hw0]

theorem weak_ops_keep_strong_witness :
    ((member 0 7).block_ = some 0 ∧
      oneBlockHeap.blocks 0 = some (ControlBlock.init (some 7) false)) ∧
    ∃ h1, WeakPtr.fromShared (member 0 7) oneBlockHeap
        = .ok ({ block_ := (member 0 7).block_, ptr_ := (member 0 7).ptr_ }, h1) ∧
      weakOf h1 0 = some (((ControlBlock.init (some 7) false).weak_counter_ + 1) % SIZE_MOD) ∧
      ((ControlBlock.init (some 7) false).weak_counter_ + 1 < SIZE_MOD →
        weakOf h1 0 = some ((ControlBlock.init (some 7) false).weak_counter_ + 1)) ∧
      strongOf h1 0 = some (ControlBlock.init (some 7) false).strong_counter_ ∧
      (∀ y, y ≠ 0 → h1.blocks y = oneBlockHeap.blocks y) ∧ StrongSame oneBlockHeap h1 :=
  ⟨⟨rfl, rfl⟩,
    weak_ops_keep_strong.1 (member 0 7) oneBlockHeap 0 (ControlBlock.init (some 7) false)
      rfl rfl⟩

/-! ## `UseCount()`, construction from a raw pointer, `operator==` -/

/-- C19. The comparison `operator==` returns true if and only if the two
observed pointers are equal: two handles on different blocks with the same
observed pointer compare equal, two handles on one block with different
observed pointers compare unequal. -/
theorem eq_compares_observed :
    (∀ left right : SharedPtr, SharedPtr.eq left right = true ↔ left.Get = right.Get) ∧
    (∀ (b1 b2 p : Option Nat),
      SharedPtr.eq { block_ := b1, ptr_ := p } { block_ := b2, ptr_ := p } = true) ∧
    (∀ (b p q : Option Nat), p ≠ q →
      SharedPtr.eq { block_ := b, ptr_ := p } { block_ := b, ptr_ := q } = false) := by
  refine ⟨fun l r => by simp [SharedPtr.eq], fun b1 b2 p => by simp [SharedPtr.eq, SharedPtr.Get],
    fun b p q h => by simp [SharedPtr.eq, SharedPtr.Get, h]⟩

/-- C17 (counterexample). The only handle `a` of a live block and
`n = SharedPtr(a, nullptr)`: `n` holds the block, whose strong counter is `1`,
and `n.UseCount()` is `0`. -/
theorem use_count_counterexample :
    snapshot 0 (runProgram false false 7 [Op.sharedAlias 0 none]) =
      .ok { shared := [member 0 7, { block_ := some 0, ptr_ := none }], weak := [],
            strong := some 1, weakCount := some 0, deleteObjectCalls := 0, blockDeletes := 0 } ∧
    useCounts (runProgram false false 7 [Op.sharedAlias 0 none]) = .ok [.ok 1, .ok 0] := by
  refine ⟨rfl, rfl⟩

/-- C17 (amended). `UseCount()` returns `0` when the observed pointer of the
handle is null, whether or not the handle holds a control block, and the
strong counter of the handle's block when the observed pointer is not null and
the block is alive. -/
theorem use_count_value (x : SharedPtr) (h : Heap) :
    (x.ptr_ = none → x.UseCount h = .ok 0) ∧
    (∀ q B cb, x.ptr_ = some q → x.block_ = some B → h.blocks B = some cb →
      x.UseCount h = .ok cb.strong_counter_ ∧ strongOf h B = some cb.strong_counter_) := by
  constructor
  · intro hp
    simp [SharedPtr.UseCount, hp]
  · intro q B cb hp hB hc
    exact ⟨by simp [SharedPtr.UseCount, hp, hB, Heap.deref, hc, ControlBlock.GetStrongCounter],
      by simp [strongOf, hc, ControlBlock.GetStrongCounter]⟩

theorem use_count_value_witness :
    ((member 0 7).ptr_ = some 7 ∧ (member 0 7).block_ = some 0 ∧
      oneBlockHeap.blocks 0 = some (ControlBlock.init (some 7) false)) ∧
    (member 0 7).UseCount oneBlockHeap = .ok (ControlBlock.init (some 7) false).strong_counter_ ∧
    strongOf oneBlockHeap 0 = some (ControlBlock.init (some 7) false).strong_counter_ :=
  ⟨⟨rfl, rfl, rfl⟩,
    (use_count_value (member 0 7) oneBlockHeap).2 7 0 (ControlBlock.init (some 7) false)
      rfl rfl rfl⟩

/-- C18 (counterexample). `SharedPtr(T*)` and `Reset(T*)` called with a null
pointer install a block with strong counter `1`, and the handle reports
`UseCount() == 0`. -/
theorem raw_null_counterexample :
    snapshot 0 (run false emptyState [Op.sharedFromRaw none]) =
      .ok { shared := [{ block_ := some 0, ptr_ := none }], weak := [],
            strong := some 1, weakCount := some 0, deleteObjectCalls := 0, blockDeletes := 0 } ∧
    useCounts (run false emptyState [Op.sharedFromRaw none]) = .ok [.ok 0] ∧
    snapshot 0 (run false emptyState [Op.sharedDefault, Op.sharedResetPtr 0 none]) =
      .ok { shared := [{ block_ := some 0, ptr_ := none }], weak := [],
            strong := some 1, weakCount := some 0, deleteObjectCalls := 0, blockDeletes := 0 } ∧
    useCounts (run false emptyState [Op.sharedDefault, Op.sharedResetPtr 0 none])
      = .ok [.ok 0] := by
  refine ⟨rfl, rfl, rfl, rfl⟩

/-- C18 (amended). `SharedPtr(T*)` with a non-null pointer `q` installs a
fresh block with strong counter `1` owning `q`, and the handle reports
`Get() == q` and `UseCount() == 1`; the weak counter is `0` for an element type
without the self-reference capability, and `1`, with `self_` of the object
bound to the new block, for an element type with it whose object is alive and
has an unbound `self_`. `Reset(T*)` with a non-null pointer releases the
reference held and installs a fresh block with strong counter `1` and weak
counter `0`, binding no `self_`, with `Get() == q` and `UseCount() == 1`. With
a null pointer, `SharedPtr(T*)` for a type without the capability and
`Reset(T*)` still install a block with strong counter `1` and weak counter `0`,
and the handle reports a null `Get()` and `UseCount() == 0`. -/
theorem raw_pointer_construction :
    (∀ (h : Heap) (q : Nat),
      ∃ h1, SharedPtr.fromRaw false (some q) h = .ok (member h.next q, h1) ∧
        h1.blocks h.next = some { strong_counter_ := 1, weak_counter_ := 0,
                                  obj := some q, objEsft := false } ∧
        (member h.next q).Get = some q ∧ (member h.next q).UseCount h1 = .ok 1) ∧
    (∀ (h : Heap) (q : Nat), h.destroyed q = 0 → (h.self_ q).block_ = none →
      ∃ h1, SharedPtr.fromRaw true (some q) h = .ok (member h.next q, h1) ∧
        h1.blocks h.next = some { strong_counter_ := 1, weak_counter_ := 1,
                                  obj := some q, objEsft := true } ∧
        h1.self_ q = { block_ := some h.next, ptr_ := some q } ∧
        (member h.next q).Get = some q ∧ (member h.next q).UseCount h1 = .ok 1) ∧
    (∀ (esft esftNew : Bool) (x : SharedPtr) (h : Heap) (r : SharedPtr × Heap) (q : Nat),
      x.Decrease esft h = .ok r →
      ∃ h1, SharedPtr.ResetPtr esft esftNew x (some q) h = .ok (member r.2.next q, h1) ∧
        h1.blocks r.2.next = some { strong_counter_ := 1, weak_counter_ := 0,
                                    obj := some q, objEsft := esftNew } ∧
        h1.self_ = r.2.self_ ∧
        (member r.2.next q).Get = some q ∧ (member r.2.next q).UseCount h1 = .ok 1) ∧
    (∀ (h : Heap),
      ∃ h1, SharedPtr.fromRaw false none h = .ok ({ block_ := some h.next, ptr_ := none }, h1) ∧
        h1.blocks h.next = some { strong_counter_ := 1, weak_counter_ := 0,
                                  obj := none, objEsft := false } ∧
        SharedPtr.Get { block_ := some h.next, ptr_ := none } = none ∧
        SharedPtr.UseCount { block_ := some h.next, ptr_ := none } h1 = .ok 0) ∧
    (∀ (esft esftNew : Bool) (x : SharedPtr) (h : Heap) (r : SharedPtr × Heap),
      x.Decrease esft h = .ok r →
      ∃ h1, SharedPtr.ResetPtr esft esftNew x none h
          = .ok ({ block_ := some r.2.next, ptr_ := none }, h1) ∧
        h1.blocks r.2.next = some { strong_counter_ := 1, weak_counter_ := 0,
                                    obj := none, objEsft := esftNew } ∧
        SharedPtr.UseCount { block_ := some r.2.next, ptr_ := none } h1 = .ok 0) := by
  refine ⟨?_, ?_, ?_, ?_, ?_⟩
  · intro h q
    refine ⟨(h.alloc (ControlBlock.init (some q) false)).2, ?_, ?_, rfl, ?_⟩
    · simp [SharedPtr.fromRaw, member, Heap.alloc]
    · simp [Heap.alloc, ControlBlock.init]
    · simp [SharedPtr.UseCount, member, Heap.deref, Heap.alloc, ControlBlock.init,
        ControlBlock.GetStrongCounter]
  · intro h q hd hs
    have e1 : (0 + 1) % SIZE_MOD = 1 := by simp [SIZE_MOD]
    refine ⟨(((h.alloc (ControlBlock.init (some q) true)).2.setBlock h.next
        (ControlBlock.init (some q) true).IncWeak).setSelf q
          { block_ := some h.next, ptr_ := some q }), ?_, ?_, ?_, rfl, ?_⟩
    · simp [SharedPtr.fromRaw, member, Heap.alloc, SharedPtr.bindSelf, hd, WeakPtr.fromShared,
        WeakPtr.Increase, Heap.deref, WeakPtr.moveAssign, WeakPtr.Decrease, Heap.setBlock, hs,
        Heap.setSelf]
    · simp [Heap.alloc, Heap.setBlock, Heap.setSelf, ControlBlock.init, ControlBlock.IncWeak, e1]
    · simp [Heap.setSelf]
    · simp [SharedPtr.UseCount, member, Heap.deref, Heap.alloc, Heap.setBlock, Heap.setSelf,
        ControlBlock.init, ControlBlock.IncWeak, ControlBlock.GetStrongCounter]
  · intro esft esftNew x h r q hr
    refine ⟨(r.2.alloc (ControlBlock.init (some q) esftNew)).2, ?_, ?_, rfl, rfl, ?_⟩
    · simp [SharedPtr.ResetPtr, hr, member, Heap.alloc]
    · simp [Heap.alloc, ControlBlock.init]
    · simp [SharedPtr.UseCount, member, Heap.deref, Heap.alloc, ControlBlock.init,
        ControlBlock.GetStrongCounter]
  · intro h
    refine ⟨(h.alloc (ControlBlock.init none false)).2, ?_, ?_, rfl, ?_⟩
    · simp [SharedPtr.fromRaw, Heap.alloc]
    · simp [Heap.alloc, ControlBlock.init]
    · simp [SharedPtr.UseCount]
  · intro esft esftNew x h r hr
    refine ⟨(r.2.alloc (ControlBlock.init none esftNew)).2, ?_, ?_, ?_⟩
    · simp [SharedPtr.ResetPtr, hr, Heap.alloc]
    · simp [Heap.alloc, ControlBlock.init]
    · simp [SharedPtr.UseCount]

theorem raw_pointer_construction_witness :
    (Heap.empty.destroyed 7 = 0 ∧ (Heap.empty.self_ 7).block_ = none) ∧
    ∃ h1, SharedPtr.fromRaw true (some 7) Heap.empty = .ok (member Heap.empty.next 7, h1) ∧
      h1.blocks Heap.empty.next = some { strong_counter_ := 1, weak_counter_ := 1,
                                         obj := some 7, objEsft := true } ∧
      h1.self_ 7 = { block_ := some Heap.empty.next, ptr_ := some 7 } ∧
      (member Heap.empty.next 7).Get = some 7 ∧
      (member Heap.empty.next 7).UseCount h1 = .ok 1 :=
  ⟨⟨rfl, rfl⟩, raw_pointer_construction.2.1 Heap.empty 7 rfl rfl⟩

/-! ## `SharedFromThis()` and `WeakFromThis()` without a live strong reference -/

/-- C20. An object with the self-reference capability that is not destroyed and
whose `self_` is unbound, or bound to a live block whose strong counter is `0`:
`SharedFromThis()` returns the empty handle and leaves the heap as it is, and
`WeakFromThis()` returns a `WeakPtr` with the fields of `self_` that is
expired, leaving every strong counter, the number of `DeleteObject()` calls and
the destroyed objects as they are; neither raises an error. -/
theorem from_this_without_owner (o : Nat) (h : Heap) (hd : h.destroyed o = 0)
    (hs : (h.self_ o).block_ = none ∨
      ∃ B cb, (h.self_ o).block_ = some B ∧ h.blocks B = some cb ∧ cb.strong_counter_ = 0) :
    SharedFromThis o h = .ok ({}, h) ∧
    SharedPtr.Get {} = none ∧ SharedPtr.toBool {} = false ∧
    ∃ w h1, WeakFromThis o h = .ok (w, h1) ∧
      w.block_ = (h.self_ o).block_ ∧ w.ptr_ = (h.self_ o).ptr_ ∧
      w.Expired h1 = .ok true ∧ StrongSame h h1 ∧
      ∀ B, h.blocks B ≠ none → strongOf h1 B = strongOf h B := by
  rcases hs with hn | ⟨B, cb, hB, hc, hz⟩
  · refine ⟨by simp [SharedFromThis, hd, WeakPtr.Lock, WeakPtr.Expired, hn], rfl, rfl,
      { block_ := (h.self_ o).block_, ptr_ := (h.self_ o).ptr_ }, h, ?_, rfl, rfl, ?_,
      strongSame_refl h, fun _ _ => rfl⟩
    · simp [WeakFromThis, hd, WeakPtr.copy, WeakPtr.Increase, hn]
    · simp [WeakPtr.Expired, hn]
  · refine ⟨by simp [SharedFromThis, hd, WeakPtr.Lock, WeakPtr.Expired, hB, Heap.deref, hc,
        ControlBlock.GetStrongCounter, hz], rfl, rfl,
      { block_ := (h.self_ o).block_, ptr_ := (h.self_ o).ptr_ }, h.setBlock B cb.IncWeak,
      ?_, rfl, rfl, ?_, setWeak_strong hc rfl, ?_⟩
    · simp [WeakFromThis, hd, WeakPtr.copy, WeakPtr.Increase, hB, Heap.deref, hc]
    · simp [WeakPtr.Expired, hB, Heap.deref, Heap.setBlock, ControlBlock.IncWeak,
        ControlBlock.GetStrongCounter, hz]
    · intro B1 _
      by_cases h1 : B1 = B
      · subst h1
        simp [strongOf, Heap.setBlock, hc, ControlBlock.IncWeak, ControlBlock.GetStrongCounter]
      · simp [strongOf, Heap.setBlock, h1]

theorem from_this_without_owner_witness :
    ((Heap.empty.destroyed 7 = 0 ∧ (Heap.empty.self_ 7).block_ = none) ∧
      SharedFromThis 7 Heap.empty = .ok ({}, Heap.empty) ∧
      SharedPtr.Get {} = none ∧ SharedPtr.toBool {} = false ∧
      ∃ w h1, WeakFromThis 7 Heap.empty = .ok (w, h1) ∧
        w.block_ = (Heap.empty.self_ 7).block_ ∧ w.ptr_ = (Heap.empty.self_ 7).ptr_ ∧
        w.Expired h1 = .ok true ∧ StrongSame Heap.empty h1 ∧
        ∀ B, Heap.empty.blocks B ≠ none → strongOf h1 B = strongOf Heap.empty B) ∧
    ((teardownHeap.destroyed 7 = 0 ∧ (teardownHeap.self_ 7).block_ = some 0 ∧
        teardownHeap.blocks 0 = some { strong_counter_ := 0, weak_counter_ := 1,
                                       obj := some 7, objEsft := true }) ∧
      SharedFromThis 7 teardownHeap = .ok ({}, teardownHeap) ∧
      ∃ w h1, WeakFromThis 7 teardownHeap = .ok (w, h1) ∧
        w.block_ = (teardownHeap.self_ 7).block_ ∧ w.ptr_ = (teardownHeap.self_ 7).ptr_ ∧
        w.Expired h1 = .ok true ∧ StrongSame teardownHeap h1 ∧
        ∀ B, teardownHeap.blocks B ≠ none → strongOf h1 B = strongOf teardownHeap B) :=
  ⟨⟨⟨rfl, rfl⟩, from_this_without_owner 7 Heap.empty rfl (Or.inl rfl)⟩,
    ⟨⟨rfl, rfl, rfl⟩,
      (from_this_without_owner 7 teardownHeap rfl (Or.inr ⟨0, _, rfl, rfl, rfl⟩)).1,
      (from_this_without_owner 7 teardownHeap rfl (Or.inr ⟨0, _, rfl, rfl, rfl⟩)).2.2.2⟩⟩

/-! ## Assignment of a handle to itself -/

/-- Copy assignment of a `SharedPtr` to itself when the strong counter of its
block is at least `2`: the handle and the block are as before. -/
theorem copyAssign_self_shared (esft : Bool) (a : SharedPtr) (h : Heap) (B o : Nat)
    (cb : ControlBlock) (hb : a.block_ = some B) (hp : a.ptr_ = some o)
    (hcb : h.blocks B = some cb) (h2 : 2 ≤ cb.strong_counter_)
    (hlt : cb.strong_counter_ < SIZE_MOD) :
    ∃ h1, SharedPtr.copyAssign esft a none h = .ok (a, h1) ∧ h1.blocks B = some cb ∧
      h1.deleteObjectCalls = h.deleteObjectCalls ∧ h1.destroyed = h.destroyed ∧
      h1.blockDeletes = h.blockDeletes := by
  obtain ⟨ab, ap⟩ := a
  simp only at hb hp
  subst hb hp
  have hne : cb.strong_counter_ ≠ 0 := by omega
  have hne1 : cb.strong_counter_ - 1 ≠ 0 := by omega
  have hmod : (cb.strong_counter_ - 1 + 1) % SIZE_MOD = cb.strong_counter_ := by
    rw [Nat.sub_add_cancel (by omega), Nat.mod_eq_of_lt hlt]
  have e : SharedPtr.copyAssign esft { block_ := some B, ptr_ := some o } none h =
      .ok ({ block_ := some B, ptr_ := some o },
           (h.setBlock B cb.DecStrong).setBlock B cb.DecStrong.IncStrong) := by
    simp [SharedPtr.copyAssign, SharedPtr.Decrease, SharedPtr.Increase, Heap.deref, hcb,
      ControlBlock.DecStrong, ControlBlock.GetStrongCounter, Heap.setBlock, hne, hne1,
      ControlBlock.IncStrong]
  refine ⟨_, e, ?_, ?_, ?_, ?_⟩
  · simp [Heap.setBlock, ControlBlock.IncStrong, ControlBlock.DecStrong, hne, hmod]
  all_goals simp [Heap.setBlock]

/-- C21 (the code at the failing input). `a = a` on the only strong reference:
`Decrease()` runs first, takes the strong counter to `0` and calls
`DeleteObject()`; without a `WeakPtr` the block is deleted and `a` is left
empty, with a `WeakPtr` the block stays with strong counter `0` and `a`
observes `nullptr`; for an element type with the self-reference capability the
block is deleted and `a` keeps its address. With a second strong reference the
same assignment changes nothing. -/
theorem self_assignment_of_sole_owner :
    snapshot 0 (runProgram false false 7 []) =
      .ok { shared := [member 0 7], weak := [],
            strong := some 1, weakCount := some 0, deleteObjectCalls := 0, blockDeletes := 0 } ∧
    snapshot 0 (runProgram false false 7 [Op.sharedAssign 0 0]) =
      .ok { shared := [{}], weak := [],
            strong := none, weakCount := none, deleteObjectCalls := 1, blockDeletes := 1 } ∧
    snapshot 0 (runProgram false false 7 [Op.weakFromShared 0, Op.sharedAssign 0 0]) =
      .ok { shared := [{ block_ := some 0, ptr_ := none }],
            weak := [{ block_ := some 0, ptr_ := some 7 }],
            strong := some 0, weakCount := some 1, deleteObjectCalls := 1, blockDeletes := 0 } ∧
    snapshot 0 (runProgram true false 7 [Op.sharedAssign 0 0]) =
      .ok { shared := [{ block_ := some 0, ptr_ := none }], weak := [],
            strong := none, weakCount := none, deleteObjectCalls := 1, blockDeletes := 1 } ∧
    snapshot 0 (runProgram false false 7 [Op.sharedCopy 0, Op.sharedAssign 0 0]) =
      snapshot 0 (runProgram false false 7 [Op.sharedCopy 0]) ∧
    snapshot 0 (runProgram false false 7 [Op.sharedCopy 0]) =
      .ok { shared := [member 0 7, member 0 7], weak := [],
            strong := some 2, weakCount := some 0, deleteObjectCalls := 0, blockDeletes := 0 } := by
  refine ⟨rfl, rfl, rfl, rfl, rfl, rfl⟩

/-! ## `WeakPtr::Swap` -/

/-- C22 (the code at the failing input). `WeakPtr::Swap` exchanges `block_`
alone: each handle keeps its own `ptr_`, whatever the two handles are. Two
groups, the object at `7` with block `0` and the object at `9` with block `1`,
and one `WeakPtr` on each: before the swap `Lock()` of the second returns a
handle of block `1` observing `9`; after the swap `Lock()` of the first returns
a handle of block `1` observing `7`; no counter changes in the swap. Swapped
with a default-constructed `WeakPtr`, the handle that receives the block has a
null `ptr_`, and its `Lock()` returns a handle that observes `nullptr` and is
not counted. `SharedPtr::Swap` exchanges both members. -/
theorem weak_swap_keeps_pointer :
    (∀ a b : WeakPtr,
      WeakPtr.Swap a b =
        ({ block_ := b.block_, ptr_ := a.ptr_ }, { block_ := a.block_, ptr_ := b.ptr_ })) ∧
    snapshot 1 (run false emptyState
        [Op.sharedFromRaw (some 7), Op.sharedFromRaw (some 9), Op.weakFromShared 0,
         Op.weakFromShared 1, Op.lock 1]) =
      .ok { shared := [member 0 7, member 1 9, member 1 9],
            weak := [{ block_ := some 0, ptr_ := some 7 }, { block_ := some 1, ptr_ := some 9 }],
            strong := some 2, weakCount := some 1, deleteObjectCalls := 0, blockDeletes := 0 } ∧
    snapshot 1 (run false emptyState
        [Op.sharedFromRaw (some 7), Op.sharedFromRaw (some 9), Op.weakFromShared 0,
         Op.weakFromShared 1, Op.weakSwap 0 1]) =
      .ok { shared := [member 0 7, member 1 9],
            weak := [{ block_ := some 1, ptr_ := some 7 }, { block_ := some 0, ptr_ := some 9 }],
            strong := some 1, weakCount := some 1, deleteObjectCalls := 0, blockDeletes := 0 } ∧
    snapshot 1 (run false emptyState
        [Op.sharedFromRaw (some 7), Op.sharedFromRaw (some 9), Op.weakFromShared 0,
         Op.weakFromShared 1, Op.weakSwap 0 1, Op.lock 0]) =
      .ok { shared := [member 0 7, member 1 9, member 1 7],
            weak := [{ block_ := some 1, ptr_ := some 7 }, { block_ := some 0, ptr_ := some 9 }],
            strong := some 2, weakCount := some 1, deleteObjectCalls := 0, blockDeletes := 0 } ∧
    snapshot 0 (run false emptyState
        [Op.sharedFromRaw (some 7), Op.weakFromShared 0, Op.weakDefault, Op.weakSwap 0 1,
         Op.lock 1]) =
      .ok { shared := [member 0 7, { block_ := some 0, ptr_ := none }],
            weak := [{ block_ := none, ptr_ := some 7 }, { block_ := some 0, ptr_ := none }],
            strong := some 1, weakCount := some 1, deleteObjectCalls := 0, blockDeletes := 0 } ∧
    snapshot 1 (run false emptyState
        [Op.sharedFromRaw (some 7), Op.sharedFromRaw (some 9), Op.sharedSwap 0 1]) =
      .ok { shared := [member 1 9, member 0 7], weak := [],
            strong := some 1, weakCount := some 0, deleteObjectCalls := 0, blockDeletes := 0 } := by
  refine ⟨fun _ _ => rfl, rfl, rfl, rfl, rfl, rfl⟩

/-! ## Intrusive reference counting -/

theorem Intrusive.good_pos {m : Objects} {o k : Nat} (hg : Intrusive.Good m o k) (hk : 0 < k) :
    m.destroyCalls o = 0 ∧ m.released o = false ∧ (m.counter_ o).count_ = k := by
  unfold Intrusive.Good at hg
  by_cases h0 : m.destroyCalls o = 0
  · rw [if_pos h0] at hg; exact ⟨h0, hg⟩
  · rw [if_neg h0] at hg; omega

theorem Intrusive.good_alive {m : Objects} {o k : Nat} (hg : Intrusive.Good m o k)
    (h0 : m.destroyCalls o = 0) : m.released o = false ∧ (m.counter_ o).count_ = k := by
  unfold Intrusive.Good at hg
  rw [if_pos h0] at hg; exact hg

/-- The method `IncRef()` on an object not yet destroyed. -/
theorem RefCounted.incRef_good {m : Objects} {K : Nat → Nat} (o : Nat)
    (hg : ∀ x, Intrusive.Good m x (K x)) (h0 : m.destroyCalls o = 0)
    (hb : K o + 1 < SIZE_MOD) :
    ∃ m1, RefCounted.IncRef o m = .ok m1 ∧
      (∀ x, Intrusive.Good m1 x (K x + if x = o then 1 else 0)) ∧
      m1.destroyCalls = m.destroyCalls := by
  obtain ⟨hr, hc⟩ := Intrusive.good_alive (hg o) h0
  refine ⟨m.setCounter o (m.counter_ o).IncRef.2, by simp [RefCounted.IncRef, hr], ?_, rfl⟩
  intro x
  by_cases hx : x = o
  · subst hx
    simp [Intrusive.Good, Objects.setCounter, h0, hr, SimpleCounter.IncRef, hc, size_inc _ hb]
  · have := hg x
    simpa [Intrusive.Good, Objects.setCounter, hx] using this

/-- The method `DecRef()` on an object some handle points at. -/
theorem RefCounted.decRef_good {m : Objects} {K : Nat → Nat} (d : Deleter) (o : Nat)
    (hg : ∀ x, Intrusive.Good m x (K x)) (hk : 0 < K o) :
    ∃ m1, RefCounted.DecRef d o m = .ok m1 ∧
      (∀ x, Intrusive.Good m1 x (K x - if x = o then 1 else 0)) ∧
      (∀ x, x ≠ o → m1.destroyCalls x = m.destroyCalls x) := by
  obtain ⟨h0, hr, hc⟩ := Intrusive.good_pos (hg o) hk
  have hne : (m.counter_ o).count_ ≠ 0 := by omega
  by_cases h1 : K o = 1
  · refine ⟨RefCounted.Destroy d o (m.setCounter o (m.counter_ o).DecRef.2), ?_, ?_, ?_⟩
    · simp [RefCounted.DecRef, hr, SimpleCounter.DecRef, hne, hc, h1]
    · intro x
      by_cases hx : x = o
      · subst hx
        simp [Intrusive.Good, RefCounted.Destroy, Objects.setCounter, h0, h1]
      · have := hg x
        simpa [Intrusive.Good, RefCounted.Destroy, Objects.setCounter, hx] using this
    · intro x hx
      simp [RefCounted.Destroy, Objects.setCounter, hx]
  · have hne1 : (m.counter_ o).count_ - 1 ≠ 0 := by omega
    refine ⟨m.setCounter o (m.counter_ o).DecRef.2, ?_, ?_, ?_⟩
    · simp [RefCounted.DecRef, hr, SimpleCounter.DecRef, hne, hne1]
    · intro x
      by_cases hx : x = o
      · subst hx
        have hk0 : K x ≠ 0 := by omega
        simp [Intrusive.Good, Objects.setCounter, h0, hr, SimpleCounter.DecRef, hc, hk0]
      · have := hg x
        simpa [Intrusive.Good, Objects.setCounter, hx] using this
    · intro x _
      simp [Objects.setCounter]

/-- The indicator of `points`. -/
theorem Intrusive.pointing_push (o : Nat) (l : List IntrusivePtr) (x : IntrusivePtr) :
    Intrusive.pointing o (l ++ [x]) =
      Intrusive.pointing o l + (if Intrusive.points o x = true then 1 else 0) := by
  simp [Intrusive.pointing, List.countP_append, List.countP_cons]

theorem Intrusive.pointing_set (o : Nat) (l : List IntrusivePtr) (i : Nat) (x y : IntrusivePtr)
    (h : l[i]? = some y) :
    Intrusive.pointing o (l.set i x) + (if Intrusive.points o y = true then 1 else 0) =
      Intrusive.pointing o l + (if Intrusive.points o x = true then 1 else 0) :=
  countP_set_getElem? (Intrusive.points o) l i x y h

theorem Intrusive.pointing_erase (o : Nat) (l : List IntrusivePtr) (i : Nat) (y : IntrusivePtr)
    (h : l[i]? = some y) :
    Intrusive.pointing o (l.eraseIdx i) + (if Intrusive.points o y = true then 1 else 0) =
      Intrusive.pointing o l :=
  countP_eraseIdx_getElem? (Intrusive.points o) l i y h

theorem Intrusive.pointing_le (o : Nat) (l : List IntrusivePtr) :
    Intrusive.pointing o l ≤ l.length := List.countP_le_length _

theorem Intrusive.pointing_pos (o : Nat) (l : List IntrusivePtr) (i : Nat) (y : IntrusivePtr)
    (h : l[i]? = some y) (hy : y.ptr_ = some o) : 0 < Intrusive.pointing o l := by
  have := Intrusive.pointing_erase o l i y h
  simp [Intrusive.points, hy] at this
  omega

theorem Intrusive.points_iff (o : Nat) (p : IntrusivePtr) :
    Intrusive.points o p = true ↔ p.ptr_ = some o := by
  simp [Intrusive.points]

/-- The private method `Increase()` on a handle to an object not yet destroyed. -/
theorem IntrusivePtr.increase_good {m : Objects} {K : Nat → Nat} (p : IntrusivePtr)
    (hg : ∀ x, Intrusive.Good m x (K x))
    (hp : ∀ o, p.ptr_ = some o → m.destroyCalls o = 0 ∧ K o + 1 < SIZE_MOD) :
    ∃ m1, p.Increase m = .ok m1 ∧
      (∀ x, Intrusive.Good m1 x (K x + if Intrusive.points x p = true then 1 else 0)) ∧
      m1.destroyCalls = m.destroyCalls := by
  cases hq : p.ptr_ with
  | none =>
    refine ⟨m, by simp [IntrusivePtr.Increase, hq], ?_, rfl⟩
    intro x; simpa [Intrusive.points, hq] using hg x
  | some o =>
    obtain ⟨h0, hb⟩ := hp o hq
    obtain ⟨m1, e, g, f⟩ := RefCounted.incRef_good o hg h0 hb
    refine ⟨m1, by simp [IntrusivePtr.Increase, hq, e], ?_, f⟩
    intro x
    have := g x
    by_cases hx : x = o
    · subst hx; simpa [Intrusive.points, hq] using this
    · have hxo : ¬ o = x := fun h => hx h.symm
      simpa [Intrusive.points, hq, hx, hxo] using this

/-- The private method `Decrease()` on a handle of the table. -/
theorem IntrusivePtr.decrease_good {m : Objects} {K : Nat → Nat} (d : Deleter)
    (p : IntrusivePtr) (hg : ∀ x, Intrusive.Good m x (K x))
    (hp : ∀ o, p.ptr_ = some o → 0 < K o) :
    ∃ m1, p.Decrease d m = .ok m1 ∧
      (∀ x, Intrusive.Good m1 x (K x - if Intrusive.points x p = true then 1 else 0)) ∧
      (∀ x, p.ptr_ ≠ some x → m1.destroyCalls x = m.destroyCalls x) := by
  cases hq : p.ptr_ with
  | none =>
    refine ⟨m, by simp [IntrusivePtr.Decrease, hq], ?_, fun _ _ => rfl⟩
    intro x; simpa [Intrusive.points, hq] using hg x
  | some o =>
    obtain ⟨m1, e, g, f⟩ := RefCounted.decRef_good d o hg (hp o hq)
    refine ⟨m1, by simp [IntrusivePtr.Decrease, hq, e], ?_, ?_⟩
    · intro x
      have := g x
      by_cases hx : x = o
      · subst hx; simpa [Intrusive.points, hq] using this
      · have hxo : ¬ o = x := fun h => hx h.symm
        simpa [Intrusive.points, hq, hx, hxo] using this
    · intro x hx
      exact f x (fun h => hx (by rw [h]))

theorem Intrusive.good_congr {m : Objects} {o k k1 : Nat} (hg : Intrusive.Good m o k)
    (h : k1 = k) : Intrusive.Good m o k1 := h ▸ hg

theorem Intrusive.inv_alive {s : Intrusive.State} (hi : Intrusive.Inv s) (i o : Nat)
    (y : IntrusivePtr) (h : s.handles[i]? = some y) (hy : y.ptr_ = some o) :
    s.objs.destroyCalls o = 0 ∧ s.objs.released o = false ∧
      (s.objs.counter_ o).count_ = Intrusive.pointing o s.handles :=
  Intrusive.good_pos (hi o) (Intrusive.pointing_pos o s.handles i y h hy)

theorem Intrusive.step_default (d : Deleter) (s : Intrusive.State) (hi : Intrusive.Inv s) :
    ∃ s1, Intrusive.step d s .default = .ok s1 ∧ Intrusive.Inv s1 ∧
      s1.handles.length ≤ s.handles.length + 1 := by
  refine ⟨_, rfl, ?_, by simp⟩
  intro o
  exact Intrusive.good_congr (hi o) (by simp [Intrusive.pointing_push, Intrusive.points])

theorem Intrusive.step_fromRaw (d : Deleter) (s : Intrusive.State) (ptr : Option Nat)
    (hi : Intrusive.Inv s) (hpre : Intrusive.pre s (.fromRaw ptr) = true)
    (hlen : s.handles.length + 1 < SIZE_MOD) :
    ∃ s1, Intrusive.step d s (.fromRaw ptr) = .ok s1 ∧ Intrusive.Inv s1 ∧
      s1.handles.length ≤ s.handles.length + 1 := by
  have hp : ∀ o, ({ ptr_ := ptr } : IntrusivePtr).ptr_ = some o →
      s.objs.destroyCalls o = 0 ∧ Intrusive.pointing o s.handles + 1 < SIZE_MOD := by
    intro o ho
    simp only at ho
    subst ho
    have := Intrusive.pointing_le o s.handles
    exact ⟨by simpa [Intrusive.pre] using hpre, by omega⟩
  obtain ⟨m1, e, g, _⟩ := IntrusivePtr.increase_good { ptr_ := ptr } hi hp
  refine ⟨{ objs := m1, handles := s.handles ++ [{ ptr_ := ptr }] }, ?_, ?_, by simp⟩
  · simp [Intrusive.step, IntrusivePtr.fromRaw, e]
  · intro o
    exact Intrusive.good_congr (g o) (Intrusive.pointing_push o _ _)

theorem Intrusive.step_copy (d : Deleter) (s : Intrusive.State) (i : Nat)
    (hi : Intrusive.Inv s) (hlen : s.handles.length + 1 < SIZE_MOD) :
    ∃ s1, Intrusive.step d s (.copy i) = .ok s1 ∧ Intrusive.Inv s1 ∧
      s1.handles.length ≤ s.handles.length + 1 := by
  cases hsrc : s.handles[i]? with
  | none => exact ⟨s, by simp [Intrusive.step, hsrc], hi, by omega⟩
  | some src =>
    have hp : ∀ o, ({ ptr_ := src.ptr_ } : IntrusivePtr).ptr_ = some o →
        s.objs.destroyCalls o = 0 ∧ Intrusive.pointing o s.handles + 1 < SIZE_MOD := by
      intro o ho
      have := Intrusive.pointing_le o s.handles
      exact ⟨(Intrusive.inv_alive hi i o src hsrc ho).1, by omega⟩
    obtain ⟨m1, e, g, _⟩ := IntrusivePtr.increase_good { ptr_ := src.ptr_ } hi hp
    refine ⟨{ objs := m1, handles := s.handles ++ [{ ptr_ := src.ptr_ }] }, ?_, ?_, by simp⟩
    · simp [Intrusive.step, hsrc, IntrusivePtr.copy, e]
    · intro o
      exact Intrusive.good_congr (g o) (Intrusive.pointing_push o _ _)

theorem Intrusive.step_move (d : Deleter) (s : Intrusive.State) (i : Nat)
    (hi : Intrusive.Inv s) :
    ∃ s1, Intrusive.step d s (.move i) = .ok s1 ∧ Intrusive.Inv s1 ∧
      s1.handles.length ≤ s.handles.length + 1 := by
  cases hsrc : s.handles[i]? with
  | none => exact ⟨s, by simp [Intrusive.step, hsrc], hi, by omega⟩
  | some src =>
    refine ⟨{ s with handles := s.handles.set i (IntrusivePtr.move src).2 ++
                                  [(IntrusivePtr.move src).1] },
      by simp only [Intrusive.step, hsrc], ?_, by simp⟩
    intro o
    refine Intrusive.good_congr (hi o) ?_
    have h1 := Intrusive.pointing_set o s.handles i (IntrusivePtr.move src).2 src hsrc
    show Intrusive.pointing o (s.handles.set i (IntrusivePtr.move src).2 ++
      [(IntrusivePtr.move src).1]) = _
    rw [Intrusive.pointing_push]
    by_cases hp : src.ptr_ = some o <;>
      simp [IntrusivePtr.move, Intrusive.points, hp] at h1 ⊢ <;> omega

theorem Intrusive.step_destroy (d : Deleter) (s : Intrusive.State) (i : Nat)
    (hi : Intrusive.Inv s) :
    ∃ s1, Intrusive.step d s (.destroy i) = .ok s1 ∧ Intrusive.Inv s1 ∧
      s1.handles.length ≤ s.handles.length + 1 := by
  cases ha : s.handles[i]? with
  | none => exact ⟨s, by simp [Intrusive.step, ha], hi, by omega⟩
  | some a =>
    obtain ⟨m1, e, g, _⟩ := IntrusivePtr.decrease_good d a hi
      (fun o ho => Intrusive.pointing_pos o s.handles i a ha ho)
    refine ⟨{ objs := m1, handles := s.handles.eraseIdx i }, ?_, ?_, ?_⟩
    · simp [Intrusive.step, ha, IntrusivePtr.destroy, e]
    · intro o
      refine Intrusive.good_congr (g o) ?_
      have := Intrusive.pointing_erase o s.handles i a ha
      show Intrusive.pointing o (s.handles.eraseIdx i) = _
      by_cases hp : Intrusive.points o a = true <;> simp [hp] at this ⊢ <;> omega
    · simp only [List.length_eraseIdx]; split <;> omega

theorem Intrusive.step_reset (d : Deleter) (s : Intrusive.State) (i : Nat)
    (hi : Intrusive.Inv s) :
    ∃ s1, Intrusive.step d s (.reset i) = .ok s1 ∧ Intrusive.Inv s1 ∧
      s1.handles.length ≤ s.handles.length + 1 := by
  cases ha : s.handles[i]? with
  | none => exact ⟨s, by simp [Intrusive.step, ha], hi, by omega⟩
  | some a =>
    obtain ⟨m1, e, g, _⟩ := IntrusivePtr.decrease_good d a hi
      (fun o ho => Intrusive.pointing_pos o s.handles i a ha ho)
    refine ⟨{ objs := m1, handles := s.handles.set i { ptr_ := none } }, ?_, ?_, by simp⟩
    · simp [Intrusive.step, ha, IntrusivePtr.Reset, e]
    · intro o
      refine Intrusive.good_congr (g o) ?_
      have := Intrusive.pointing_set o s.handles i { ptr_ := none } a ha
      show Intrusive.pointing o (s.handles.set i { ptr_ := none }) = _
      by_cases hp : a.ptr_ = some o <;> simp [Intrusive.points, hp] at this ⊢ <;> omega

theorem Intrusive.pointing_set_same (o : Nat) (l : List IntrusivePtr) (i : Nat)
    (a : IntrusivePtr) (h : l[i]? = some a) :
    Intrusive.pointing o (l.set i a) = Intrusive.pointing o l := by
  have := Intrusive.pointing_set o l i a a h
  omega

theorem Intrusive.step_assign (d : Deleter) (s : Intrusive.State) (i j : Nat)
    (hi : Intrusive.Inv s) (hlen : s.handles.length + 1 < SIZE_MOD) :
    ∃ s1, Intrusive.step d s (.assign i j) = .ok s1 ∧ Intrusive.Inv s1 ∧
      s1.handles.length ≤ s.handles.length + 1 := by
  cases ha : s.handles[i]? with
  | none => exact ⟨s, by simp [Intrusive.step, ha], hi, by omega⟩
  | some a =>
    cases hb : s.handles[j]? with
    | none => exact ⟨s, by simp [Intrusive.step, ha, hb], hi, by omega⟩
    | some b =>
      by_cases heq : a.ptr_ = b.ptr_
      · refine ⟨{ objs := s.objs, handles := s.handles.set i a }, ?_, ?_, by simp⟩
        · simp [Intrusive.step, ha, hb, IntrusivePtr.copyAssign, heq]
        · intro o
          exact Intrusive.good_congr (hi o) (Intrusive.pointing_set_same o _ i a ha)
      · obtain ⟨m1, e1, g1, _⟩ := IntrusivePtr.decrease_good d a hi
          (fun o ho => Intrusive.pointing_pos o s.handles i a ha ho)
        have hp : ∀ o, ({ ptr_ := b.ptr_ } : IntrusivePtr).ptr_ = some o →
            m1.destroyCalls o = 0 ∧
              (Intrusive.pointing o s.handles -
                if Intrusive.points o a = true then 1 else 0) + 1 < SIZE_MOD := by
          intro o ho
          have hle := Intrusive.pointing_le o s.handles
          have hpos := Intrusive.pointing_pos o s.handles j b hb ho
          have hna : ¬ a.ptr_ = some o := fun h => heq (by rw [h]; exact ho.symm)
          have hg := g1 o
          simp only [Intrusive.points, hna, decide_False, Bool.false_eq_true, if_false,
            Nat.sub_zero] at hg ⊢
          exact ⟨(Intrusive.good_pos hg hpos).1, by omega⟩
        obtain ⟨m2, e2, g2, _⟩ := IntrusivePtr.increase_good { ptr_ := b.ptr_ } g1 hp
        refine ⟨{ objs := m2, handles := s.handles.set i { ptr_ := b.ptr_ } }, ?_, ?_, by simp⟩
        · simp [Intrusive.step, ha, hb, IntrusivePtr.copyAssign, heq, e1, e2]
        · intro o
          refine Intrusive.good_congr (g2 o) ?_
          have h1 := Intrusive.pointing_set o s.handles i { ptr_ := b.ptr_ } a ha
          have h2 := Intrusive.pointing_erase o s.handles i a ha
          show Intrusive.pointing o (s.handles.set i { ptr_ := b.ptr_ }) = _
          by_cases hpa : a.ptr_ = some o <;> by_cases hpb : b.ptr_ = some o <;>
            simp [Intrusive.points, hpa, hpb] at h1 h2 ⊢ <;> omega

theorem Intrusive.step_resetPtr (d : Deleter) (s : Intrusive.State) (i : Nat)
    (ptr : Option Nat) (hi : Intrusive.Inv s)
    (hpre : Intrusive.pre s (.resetPtr i ptr) = true)
    (hlen : s.handles.length + 1 < SIZE_MOD) :
    ∃ s1, Intrusive.step d s (.resetPtr i ptr) = .ok s1 ∧ Intrusive.Inv s1 ∧
      s1.handles.length ≤ s.handles.length + 1 := by
  cases ha : s.handles[i]? with
  | none => exact ⟨s, by simp [Intrusive.step, ha], hi, by omega⟩
  | some a =>
    obtain ⟨m1, e1, g1, f1⟩ := IntrusivePtr.decrease_good d a hi
      (fun o ho => Intrusive.pointing_pos o s.handles i a ha ho)
    have hp : ∀ o, ({ ptr_ := ptr } : IntrusivePtr).ptr_ = some o →
        m1.destroyCalls o = 0 ∧
          (Intrusive.pointing o s.handles -
            if Intrusive.points o a = true then 1 else 0) + 1 < SIZE_MOD := by
      intro o ho
      simp only at ho
      subst ho
      have hle := Intrusive.pointing_le o s.handles
      refine ⟨?_, by omega⟩
      simp only [Intrusive.pre, ha, Bool.and_eq_true, decide_eq_true_eq, Bool.not_eq_true',
        Bool.and_eq_false_imp, Intrusive.points_iff, decide_eq_false_iff_not] at hpre
      by_cases hpa : a.ptr_ = some o
      · obtain ⟨_, _, hc⟩ := Intrusive.inv_alive hi i o a ha hpa
        have hpos := Intrusive.pointing_pos o s.handles i a ha hpa
        have hne := hpre.2 hpa
        simp only [SimpleCounter.RefCount] at hne
        have hg := g1 o
        simp only [Intrusive.points, hpa, decide_True, if_true] at hg
        exact (Intrusive.good_pos hg (by omega)).1
      · rw [f1 o hpa]; exact hpre.1
    obtain ⟨m2, e2, g2, _⟩ := IntrusivePtr.increase_good { ptr_ := ptr } g1 hp
    refine ⟨{ objs := m2, handles := s.handles.set i { ptr_ := ptr } }, ?_, ?_, by simp⟩
    · simp [Intrusive.step, ha, IntrusivePtr.ResetPtr, e1, e2]
    · intro o
      refine Intrusive.good_congr (g2 o) ?_
      have h1 := Intrusive.pointing_set o s.handles i { ptr_ := ptr } a ha
      have h2 := Intrusive.pointing_erase o s.handles i a ha
      show Intrusive.pointing o (s.handles.set i { ptr_ := ptr }) = _
      by_cases hpa : a.ptr_ = some o <;> by_cases hpb : ptr = some o <;>
        simp [Intrusive.points, hpa, hpb] at h1 h2 ⊢ <;> omega

theorem Intrusive.getElem?_set_other (l : List IntrusivePtr) (i j : Nat) (x b : IntrusivePtr)
    (hij : i ≠ j) (hb : l[j]? = some b) : (l.set i x)[j]? = some b := by
  rw [List.getElem?_set_ne hij]; exact hb

theorem Intrusive.step_moveAssign (d : Deleter) (s : Intrusive.State) (i j : Nat)
    (hi : Intrusive.Inv s) :
    ∃ s1, Intrusive.step d s (.moveAssign i j) = .ok s1 ∧ Intrusive.Inv s1 ∧
      s1.handles.length ≤ s.handles.length + 1 := by
  cases ha : s.handles[i]? with
  | none => exact ⟨s, by simp [Intrusive.step, ha], hi, by omega⟩
  | some a =>
    cases hb : s.handles[j]? with
    | none => exact ⟨s, by simp [Intrusive.step, ha, hb], hi, by omega⟩
    | some b =>
      by_cases hij : i = j
      · subst hij
        rw [ha] at hb
        injection hb with hab
        subst hab
        refine ⟨{ objs := s.objs, handles := s.handles.set i a }, ?_, ?_, by simp⟩
        · simp [Intrusive.step, ha, IntrusivePtr.moveAssign]
        · intro o
          exact Intrusive.good_congr (hi o) (Intrusive.pointing_set_same o _ i a ha)
      · obtain ⟨m1, e1, g1, _⟩ := IntrusivePtr.decrease_good d a hi
          (fun o ho => Intrusive.pointing_pos o s.handles i a ha ho)
        by_cases heq : a.ptr_ = b.ptr_
        · refine ⟨{ objs := m1, handles := (s.handles.set i a).set j { ptr_ := none } },
            ?_, ?_, by simp⟩
          · simp [Intrusive.step, ha, hb, IntrusivePtr.moveAssign, heq, hij, e1]
          · intro o
            refine Intrusive.good_congr (g1 o) ?_
            have h0 := Intrusive.pointing_set_same o s.handles i a ha
            have h1 := Intrusive.pointing_set o (s.handles.set i a) j { ptr_ := none } b
              (Intrusive.getElem?_set_other _ i j a b hij hb)
            show Intrusive.pointing o ((s.handles.set i a).set j { ptr_ := none }) = _
            by_cases hpa : a.ptr_ = some o <;>
              simp [Intrusive.points, hpa, ← heq] at h1 ⊢ <;> omega
        · refine ⟨{ objs := m1,
                    handles := (s.handles.set i { ptr_ := b.ptr_ }).set j { ptr_ := none } },
            ?_, ?_, by simp⟩
          · simp [Intrusive.step, ha, hb, IntrusivePtr.moveAssign, heq, hij, e1]
          · intro o
            refine Intrusive.good_congr (g1 o) ?_
            have h0 := Intrusive.pointing_set o s.handles i { ptr_ := b.ptr_ } a ha
            have h2 := Intrusive.pointing_erase o s.handles i a ha
            have h1 := Intrusive.pointing_set o (s.handles.set i { ptr_ := b.ptr_ }) j
              { ptr_ := none } b (Intrusive.getElem?_set_other _ i j _ b hij hb)
            show Intrusive.pointing o
              ((s.handles.set i { ptr_ := b.ptr_ }).set j { ptr_ := none }) = _
            by_cases hpa : a.ptr_ = some o <;> by_cases hpb : b.ptr_ = some o <;>
              simp [Intrusive.points, hpa, hpb] at h0 h1 h2 ⊢ <;> omega

theorem Intrusive.step_swap (d : Deleter) (s : Intrusive.State) (i j : Nat)
    (hi : Intrusive.Inv s) :
    ∃ s1, Intrusive.step d s (.swap i j) = .ok s1 ∧ Intrusive.Inv s1 ∧
      s1.handles.length ≤ s.handles.length + 1 := by
  cases ha : s.handles[i]? with
  | none => exact ⟨s, by simp [Intrusive.step, ha], hi, by omega⟩
  | some a =>
    cases hb : s.handles[j]? with
    | none => exact ⟨s, by simp [Intrusive.step, ha, hb], hi, by omega⟩
    | some b =>
      refine ⟨{ s with handles := (s.handles.set i (IntrusivePtr.Swap a b).1).set j
                                    (IntrusivePtr.Swap a b).2 },
        by simp only [Intrusive.step, ha, hb], ?_, by simp⟩
      intro o
      refine Intrusive.good_congr (hi o) ?_
      show Intrusive.pointing o ((s.handles.set i (IntrusivePtr.Swap a b).1).set j
        (IntrusivePtr.Swap a b).2) = _
      have h0 := Intrusive.pointing_set o s.handles i (IntrusivePtr.Swap a b).1 a ha
      have h2 := Intrusive.pointing_erase o s.handles i a ha
      by_cases hij : i = j
      · subst hij
        rw [ha] at hb
        injection hb with hab
        subst hab
        have hlt : i < s.handles.length := by
          rcases Nat.lt_or_ge i s.handles.length with h | h
          · exact h
          · rw [List.getElem?_eq_none h] at ha; cases ha
        have h1 := Intrusive.pointing_set o (s.handles.set i (IntrusivePtr.Swap a a).1) i
          (IntrusivePtr.Swap a a).2 (IntrusivePtr.Swap a a).1
          (by rw [List.getElem?_set_self (by simpa using hlt)])
        by_cases hpa : a.ptr_ = some o <;>
          simp [Intrusive.points, IntrusivePtr.Swap, hpa] at h0 h1 h2 ⊢ <;> omega
      · have h1 := Intrusive.pointing_set o (s.handles.set i (IntrusivePtr.Swap a b).1) j
          (IntrusivePtr.Swap a b).2 b (Intrusive.getElem?_set_other _ i j _ b hij hb)
        by_cases hpa : a.ptr_ = some o <;> by_cases hpb : b.ptr_ = some o <;>
          simp [Intrusive.points, IntrusivePtr.Swap, hpa, hpb] at h0 h1 h2 ⊢ <;> omega

/-- One operation keeps the invariant of intrusive counting, and returns. -/
theorem Intrusive.step_inv (d : Deleter) (s : Intrusive.State) (op : Intrusive.Op)
    (hi : Intrusive.Inv s) (hpre : Intrusive.pre s op = true)
    (hlen : s.handles.length + 1 < SIZE_MOD) :
    ∃ s1, Intrusive.step d s op = .ok s1 ∧ Intrusive.Inv s1 ∧
      s1.handles.length ≤ s.handles.length + 1 := by
  cases op with
  | default => exact Intrusive.step_default d s hi
  | fromRaw ptr => exact Intrusive.step_fromRaw d s ptr hi hpre hlen
  | copy i => exact Intrusive.step_copy d s i hi hlen
  | move i => exact Intrusive.step_move d s i hi
  | assign i j => exact Intrusive.step_assign d s i j hi hlen
  | moveAssign i j => exact Intrusive.step_moveAssign d s i j hi
  | destroy i => exact Intrusive.step_destroy d s i hi
  | reset i => exact Intrusive.step_reset d s i hi
  | resetPtr i ptr => exact Intrusive.step_resetPtr d s i ptr hi hpre hlen
  | swap i j => exact Intrusive.step_swap d s i j hi

theorem Intrusive.run_inv (d : Deleter) :
    ∀ (ops : List Intrusive.Op) (s : Intrusive.State), Intrusive.Inv s →
      Intrusive.legal d s ops = true → s.handles.length + ops.length + 1 < SIZE_MOD →
      ∃ s1, Intrusive.run d s ops = .ok s1 ∧ Intrusive.Inv s1 := by
  intro ops
  induction ops with
  | nil => intro s hi _ _; exact ⟨s, rfl, hi⟩
  | cons op rest ih =>
    intro s hi hl hlen
    simp only [List.length_cons] at hlen
    simp only [Intrusive.legal, Bool.and_eq_true] at hl
    obtain ⟨s1, e, hi1, hlen1⟩ := Intrusive.step_inv d s op hi hl.1 (by omega)
    have hl2 := hl.2
    rw [e] at hl2
    obtain ⟨s2, e2, hi2⟩ := ih s1 hi1 hl2 (by omega)
    exact ⟨s2, by simp [Intrusive.run, e, e2], hi2⟩

theorem Intrusive.inv_init : Intrusive.Inv Intrusive.init := by
  intro o
  simp [Intrusive.Good, Intrusive.init, Objects.empty, Intrusive.pointing]

/-- Intrusive counting on the programs of `legal`: every such program of
`IntrusivePtr` operations returns, and in the state it reaches, for every
object, `Deleter::Destroy` has been called at most once, and only when no
handle points at the object any more; before that call `RefCount()` is the
number of handles pointing at the object, and `UseCount()` of each of them
returns that number. -/
theorem intrusive_counting (d : Deleter) (ops : List Intrusive.Op)
    (hlegal : Intrusive.legal d Intrusive.init ops = true)
    (hlen : ops.length + 1 < SIZE_MOD) :
    ∃ s, Intrusive.run d Intrusive.init ops = .ok s ∧ ∀ o,
      s.objs.destroyCalls o ≤ 1 ∧
      (s.objs.destroyCalls o = 1 → Intrusive.pointing o s.handles = 0) ∧
      (s.objs.destroyCalls o = 0 →
        RefCounted.RefCount o s.objs = .ok (Intrusive.pointing o s.handles)) ∧
      ∀ p ∈ s.handles, p.ptr_ = some o →
        p.UseCount s.objs = .ok (Intrusive.pointing o s.handles) := by
  obtain ⟨s, e, hi⟩ := Intrusive.run_inv d ops Intrusive.init Intrusive.inv_init hlegal
    (by simpa [Intrusive.init] using hlen)
  refine ⟨s, e, fun o => ?_⟩
  have hg := hi o
  refine ⟨?_, ?_, ?_, ?_⟩
  · unfold Intrusive.Good at hg
    by_cases h0 : s.objs.destroyCalls o = 0
    · omega
    · rw [if_neg h0] at hg; omega
  · intro h1
    unfold Intrusive.Good at hg
    rw [if_neg (by omega)] at hg
    exact hg.2
  · intro h0
    obtain ⟨hr, hc⟩ := Intrusive.good_alive hg h0
    simp [RefCounted.RefCount, hr, SimpleCounter.RefCount, hc]
  · intro p hp hpo
    obtain ⟨i, hi1, hi2⟩ := List.getElem_of_mem hp
    have hget : s.handles[i]? = some p := by
      rw [List.getElem?_eq_getElem hi1, hi2]
    obtain ⟨_, hr, hc⟩ := Intrusive.inv_alive hi i o p hget hpo
    simp [IntrusivePtr.UseCount, hpo, RefCounted.RefCount, hr, SimpleCounter.RefCount, hc]

/-- The call `Deleter::Destroy` is made by the `DecRef()` that leaves the
counter at `0`, and by no other; `IncRef()` makes none. -/
theorem RefCounted.destroy_at_zero (d : Deleter) (o : Nat) (m m1 : Objects) :
    (RefCounted.DecRef d o m = .ok m1 →
      m1.destroyCalls o =
        m.destroyCalls o + (if (m1.counter_ o).RefCount = 0 then 1 else 0) ∧
      ∀ x, x ≠ o → m1.destroyCalls x = m.destroyCalls x) ∧
    (RefCounted.IncRef o m = .ok m1 → m1.destroyCalls = m.destroyCalls) := by
  constructor
  · intro h
    unfold RefCounted.DecRef at h
    by_cases hr : m.released o = true
    · simp [hr] at h
    · by_cases hz : (m.counter_ o).DecRef.1 = 0
      · simp only [hr, hz, if_true, Bool.false_eq_true, if_false, Except.ok.injEq] at h
        subst h
        have hz2 : (m.counter_ o).DecRef.2.count_ = 0 := hz
        refine ⟨by simp [RefCounted.Destroy, Objects.setCounter, SimpleCounter.RefCount, hz2],
          fun x hx => by simp [RefCounted.Destroy, Objects.setCounter, hx]⟩
      · simp only [hr, hz, Bool.false_eq_true, if_false, Except.ok.injEq] at h
        subst h
        have hz2 : ¬ (m.counter_ o).DecRef.2.count_ = 0 := hz
        refine ⟨by simp [Objects.setCounter, SimpleCounter.RefCount, hz2],
          fun x hx => by simp [Objects.setCounter]⟩
  · intro h
    unfold RefCounted.IncRef at h
    by_cases hr : m.released o = true
    · simp [hr] at h
    · simp only [hr, Bool.false_eq_true, if_false, Except.ok.injEq] at h
      subst h
      rfl

/-- Copying or assigning a `RefCounted` object does not copy the counter: the
copy starts at `0` and the target of an assignment keeps its own counter. -/
theorem RefCounted.counter_not_copied (src dst : Nat) (m : Objects) :
    ((RefCounted.copyObject src dst m).counter_ dst).RefCount = 0 ∧
    (RefCounted.assignObject src dst m).counter_ = m.counter_ := by
  constructor
  · simp [RefCounted.copyObject, Objects.setCounter, SimpleCounter.copy, SimpleCounter.RefCount]
  · funext x
    by_cases hx : x = dst
    · subst hx; simp [RefCounted.assignObject, Objects.setCounter, SimpleCounter.assign]
    · simp [RefCounted.assignObject, Objects.setCounter, hx]

/-- The theorem `intrusive_counting` at a program with two objects, an
assignment between handles to the same object, and `Reset(T*)` with the held
pointer while a second handle points at the object. -/
theorem intrusive_counting_example :
    ∃ s, Intrusive.run DefaultDelete Intrusive.init
        [.fromRaw (some 7), .copy 0, .fromRaw (some 9), .assign 0 1, .resetPtr 1 (some 7),
         .moveAssign 2 0, .swap 0 1, .destroy 2, .reset 0] = .ok s ∧ ∀ o,
      s.objs.destroyCalls o ≤ 1 ∧
      (s.objs.destroyCalls o = 1 → Intrusive.pointing o s.handles = 0) ∧
      (s.objs.destroyCalls o = 0 →
        RefCounted.RefCount o s.objs = .ok (Intrusive.pointing o s.handles)) ∧
      ∀ p ∈ s.handles, p.ptr_ = some o →
        p.UseCount s.objs = .ok (Intrusive.pointing o s.handles) :=
  intrusive_counting DefaultDelete _ (by decide) (by decide)

/-- C23 (the code at the failing input). `p.Reset(p.Get())` on the only handle
to the object at `7`: `Reset(T*)` runs `Decrease()` first, the counter reaches
`0` and `Deleter::Destroy` is called, then `Increase()` goes through the same
pointer. With `DefaultDelete` that is a use of released storage; with a deleter
that keeps the storage the counter is `1` again, the handle points at an
object `Destroy` was called on, and releasing the handle calls `Destroy` a
second time. The program is not one of `legal`. Copy assignment between handles
to the same object returns before `Decrease()`, and `Reset(T*)` with the held
pointer changes nothing while a second handle points at the object. -/
theorem intrusive_reset_held_pointer :
    Intrusive.view 7 (Intrusive.run DefaultDelete Intrusive.init [.fromRaw (some 7)]) =
      .ok { handles := [{ ptr_ := some 7 }], useCounts := [.ok 1], count := 1,
            destroyCalls := 0 } ∧
    Intrusive.view 7 (Intrusive.run DefaultDelete Intrusive.init
        [.fromRaw (some 7), .resetPtr 0 (some 7)]) = .error .useAfterFree ∧
    Intrusive.view 7 (Intrusive.run { releases := false } Intrusive.init
        [.fromRaw (some 7), .resetPtr 0 (some 7)]) =
      .ok { handles := [{ ptr_ := some 7 }], useCounts := [.ok 1], count := 1,
            destroyCalls := 1 } ∧
    Intrusive.view 7 (Intrusive.run { releases := false } Intrusive.init
        [.fromRaw (some 7), .resetPtr 0 (some 7), .reset 0]) =
      .ok { handles := [{}], useCounts := [.ok 0], count := 0, destroyCalls := 2 } ∧
    Intrusive.legal DefaultDelete Intrusive.init [.fromRaw (some 7), .resetPtr 0 (some 7)] =
      false ∧
    Intrusive.view 7 (Intrusive.run DefaultDelete Intrusive.init
        [.fromRaw (some 7), .assign 0 0]) =
      .ok { handles := [{ ptr_ := some 7 }], useCounts := [.ok 1], count := 1,
            destroyCalls := 0 } ∧
    Intrusive.view 7 (Intrusive.run DefaultDelete Intrusive.init
        [.fromRaw (some 7), .copy 0, .assign 0 1]) =
      .ok { handles := [{ ptr_ := some 7 }, { ptr_ := some 7 }], useCounts := [.ok 2, .ok 2],
            count := 2, destroyCalls := 0 } ∧
    Intrusive.view 7 (Intrusive.run DefaultDelete Intrusive.init
        [.fromRaw (some 7), .copy 0, .resetPtr 0 (some 7)]) =
      .ok { handles := [{ ptr_ := some 7 }, { ptr_ := some 7 }], useCounts := [.ok 2, .ok 2],
            count := 2, destroyCalls := 0 } := by
  refine ⟨rfl, rfl, rfl, rfl, rfl, rfl, rfl, rfl⟩

end SmartPtrs
